import Mathlib

/-!
# AMFReader (MonaCore/sources/AMFReader.cpp): a shallow embedding

The decoder state is the record `AMFReader`: the packet (buffer and cursor), the
mode `_amf3`, the capture flag `_referencing`, the four reference tables and the
log.  The sink (`DataWriter`) is observed through the list of calls it receives.
Nested decoding (`readNext`) is recursive and need not end on cyclic references,
so every recursive function takes a fuel and answers `none` when it runs out.
-/

namespace Mona

/-! ## Wire constants -/

/-- Modelled from the spec: the AMF0 markers are declared in `Mona/AMF.h`, which is
not part of the sources at hand; the values are the ones of the AMF0 wire format. -/
def AMF_NUMBER : Nat := 0x00
/-- Modelled from the spec: AMF0 boolean marker (see `AMF_NUMBER`). -/
def AMF_BOOLEAN : Nat := 0x01
/-- Modelled from the spec: AMF0 short string marker (see `AMF_NUMBER`). -/
def AMF_STRING : Nat := 0x02
/-- Modelled from the spec: AMF0 object marker (see `AMF_NUMBER`). -/
def AMF_BEGIN_OBJECT : Nat := 0x03
/-- Modelled from the spec: AMF0 null marker (see `AMF_NUMBER`). -/
def AMF_NULL : Nat := 0x05
/-- Modelled from the spec: AMF0 undefined marker (see `AMF_NUMBER`). -/
def AMF_UNDEFINED : Nat := 0x06
/-- Modelled from the spec: AMF0 reference opcode (see `AMF_NUMBER`). -/
def AMF_REFERENCE : Nat := 0x07
/-- Modelled from the spec: AMF0 mixed (ECMA) array marker (see `AMF_NUMBER`). -/
def AMF_MIXED_ARRAY : Nat := 0x08
/-- Modelled from the spec: AMF0 end-of-object marker (see `AMF_NUMBER`). -/
def AMF_END_OBJECT : Nat := 0x09
/-- Modelled from the spec: AMF0 strict array marker (see `AMF_NUMBER`). -/
def AMF_STRICT_ARRAY : Nat := 0x0A
/-- Modelled from the spec: AMF0 date marker (see `AMF_NUMBER`). -/
def AMF_DATE : Nat := 0x0B
/-- Modelled from the spec: AMF0 long string marker (see `AMF_NUMBER`). -/
def AMF_LONG_STRING : Nat := 0x0C
/-- Modelled from the spec: AMF0 unsupported marker (see `AMF_NUMBER`). -/
def AMF_UNSUPPORTED : Nat := 0x0D
/-- Modelled from the spec: AMF0 typed object marker (see `AMF_NUMBER`). -/
def AMF_BEGIN_TYPED_OBJECT : Nat := 0x10
/-- Modelled from the spec: the AMF0 escape to AMF3, "AVM+ object"; the spec's example
buffer `11 03 00 ...` fixes its value. -/
def AMF_AVMPLUS_OBJECT : Nat := 0x11

/-- Modelled from the spec: the AMF3 markers are declared in `Mona/AMF.h`, which is
not part of the sources at hand; the values are the ones of the AMF3 wire format. -/
def AMF3_UNDEFINED : Nat := 0x00
/-- Modelled from the spec: AMF3 null marker (see `AMF3_UNDEFINED`). -/
def AMF3_NULL : Nat := 0x01
/-- Modelled from the spec: AMF3 false marker (see `AMF3_UNDEFINED`). -/
def AMF3_FALSE : Nat := 0x02
/-- Modelled from the spec: AMF3 true marker; the spec's example buffer `11 03 00 ...`
fixes its value. -/
def AMF3_TRUE : Nat := 0x03
/-- Modelled from the spec: AMF3 integer marker (see `AMF3_UNDEFINED`). -/
def AMF3_INTEGER : Nat := 0x04
/-- Modelled from the spec: AMF3 double marker (see `AMF3_UNDEFINED`). -/
def AMF3_NUMBER : Nat := 0x05
/-- Modelled from the spec: AMF3 string marker (see `AMF3_UNDEFINED`). -/
def AMF3_STRING : Nat := 0x06
/-- Modelled from the spec: AMF3 date marker (see `AMF3_UNDEFINED`). -/
def AMF3_DATE : Nat := 0x08
/-- Modelled from the spec: AMF3 array marker (see `AMF3_UNDEFINED`). -/
def AMF3_ARRAY : Nat := 0x09
/-- Modelled from the spec: AMF3 object marker (see `AMF3_UNDEFINED`). -/
def AMF3_OBJECT : Nat := 0x0A
/-- Modelled from the spec: AMF3 byte-array marker (see `AMF3_UNDEFINED`). -/
def AMF3_BYTEARRAY : Nat := 0x0C
/-- Modelled from the spec: AMF3 dictionary marker (see `AMF3_UNDEFINED`). -/
def AMF3_DICTIONARY : Nat := 0x11

/-- Modelled from the spec: `AMF_MAX_INTEGER` is a macro of `Mona/AMF.h`; the spec
calls it "the maximum positive 29-bit signed magnitude", that is `2^28 - 1`. -/
def AMF_MAX_INTEGER : Nat := 268435455

/-! ## Kinds, log, sink -/

/-- The canonical kinds returned by `followingType` and dispatched on by `writeOne`. -/
inductive Kind
  | END | NIL | BOOLEAN | NUMBER | STRING | DATE | BYTES | ARRAY | MAP | OBJECT | AMF0_REF
  deriving DecidableEq, Repr

/-- The messages of the `ERROR(...)` and `WARN(...)` statements of the source. -/
inductive Msg
  | stringReferenceNotFound
  | unknownAMF3Type (type : Nat)
  | endObjectWithoutBegin
  | unsupportedAMF0Type
  | unknownAMF0Type (type : Nat)
  | amf0ReferenceNotFound
  | amf3ReferenceNotFound
  | mapReferenceNotFound
  | mapException
  | mixedArrayEndMarkerAbsent
  | arrayReferenceNotFound
  | endMarkerAbsent
  | objectReferenceNotFound
  | classDefReferenceNotFound
  deriving DecidableEq, Repr

/-- One log line: `ERROR(...)` or `WARN(...)`. -/
inductive Log
  | error (m : Msg)
  | warn (m : Msg)
  deriving DecidableEq, Repr

/-- The argument of `writeNumber(double)`: either the double with a given 64-bit
pattern (read from the wire), or the double equal to an integer (the conversion of
a `UInt32`, which is exact). -/
inductive Number
  | ofBits (bits : Nat)
  | ofInt (i : Int)
  deriving DecidableEq, Repr

/-- The calls received by the sink.  `id` is the reference id handed to the
`ReferableReader` helper (`writeBytes(writer,id,..)`, `beginArray(writer,id,..)`, ...);
a direct call on the writer (`writer.writeBytes(..)`) carries id `0`.  A
`const char*` argument is recorded as the bytes up to the first NUL; a pointer
with a size as the bytes present in the buffer, with the size.  The argument of
`writeDate` is the bit pattern of the double whose `Int64` conversion is the
date. -/
inductive Event
  | writeNull
  | writeBoolean (value : Bool)
  | writeNumber (value : Number)
  | writeString (value : List Nat) (size : Nat)
  | writeBytes (id : Nat) (data : List Nat) (size : Nat)
  | writeDate (id : Nat) (bits : Nat)
  | writePropertyName (value : List Nat)
  | beginMap (id : Nat) (size : Nat) (weakKeys : Bool)
  | endMap
  | beginArray (id : Nat) (size : Nat)
  | beginObjectArray (id : Nat) (size : Nat)
  | endArray
  | beginObject (id : Nat) (type : Option (List Nat))
  | endObject
  deriving DecidableEq, Repr

/-- Modelled from the spec: the sink (`DataWriter` behind the `ReferableReader`
helpers, none of them in the sources at hand) is a collaborator; the decoder only
depends on two of its answers, each a function of the calls received so far:
`probe` is `writeReference(writer,id)` ("true = sink already has this value"), and
`mapRejected` tells whether `beginMap` sets the exception ("a sink may report
inability to build a map container"). -/
structure Sink where
  probe : List Event → Nat → Bool
  mapRejected : List Event → Nat → Bool → Bool

/-- Modelled from the spec: the two auxiliary sinks of the decoder, `DataWriter::Null`
(used by `next()` to skip a value) and `StringWriter` (used to read a map key as
text), with the text a `StringWriter` appends for a call that is not a string. -/
structure Env where
  nullSink : Sink
  stringSink : Sink
  format : Event → List Nat

/-- Modelled from the spec: the text gathered by a `StringWriter` ("read each key as
a raw text value"): string payloads are appended verbatim. -/
def stringify (env : Env) : List Event → List Nat
  | [] => []
  | Event.writeString value _ :: rest => value ++ stringify env rest
  | e :: rest => env.format e ++ stringify env rest

/-- A `const char*` seen as text: the bytes before the first NUL. -/
def cstr (bytes : List Nat) : List Nat := bytes.takeWhile (fun b => b != 0)

/-! ## The decoder state and the packet -/

/-- The state of an `AMFReader`: the packet (`data`, `position`), `_amf3`
(0: AMF0, 1: AMF3 pending, 2: AMF3 active), `_referencing`, the four tables
`_stringReferences`, `_classDefReferences`, `_references`, `_amf0References`
(each a list of positions), and the lines logged so far. -/
structure AMFReader where
  data : List Nat
  position : Nat
  amf3 : Nat
  referencing : Bool
  stringReferences : List Nat
  classDefReferences : List Nat
  references : List Nat
  amf0References : List Nat
  logs : List Log
  deriving DecidableEq, Repr

namespace AMFReader

/-- The line `ERROR(...)` or `WARN(...)`. -/
def log (r : AMFReader) (l : Log) : AMFReader := { r with logs := r.logs ++ [l] }

/-- Modelled from the spec: `packet.available()`, the bytes left after the cursor. -/
def available (r : AMFReader) : Nat := r.data.length - r.position

/-- Modelled from the spec: `packet.next(count)`, a forward move that stops at the
end of the buffer. -/
def next (r : AMFReader) (count : Nat) : AMFReader :=
  { r with position := if count > r.available then r.data.length else r.position + count }

/-- Modelled from the spec: `packet.reset(position)`, "restore to absolute
position", bounded by the size of the buffer. -/
def reset (r : AMFReader) (position : Nat) : AMFReader :=
  { r with position := if position > r.data.length then r.data.length else position }

/-- Modelled from the spec: `*packet.current()`, the byte under the cursor. -/
def peek (r : AMFReader) : Nat := r.data.getD r.position 0 % 256

/-- Modelled from the spec: `packet.read8()`; past the end it reads `0` and stays. -/
def read8 (r : AMFReader) : Nat × AMFReader := (r.peek, r.next 1)

/-- Modelled from the spec: a big-endian read of `n` bytes (network order). -/
def readBE : Nat → Nat → AMFReader → Nat × AMFReader
  | 0, acc, r => (acc, r)
  | n + 1, acc, r => readBE n (acc * 256 + r.read8.1) r.read8.2

/-- Modelled from the spec: `packet.read16()`. -/
def read16 (r : AMFReader) : Nat × AMFReader := readBE 2 0 r

/-- Modelled from the spec: `packet.read32()`. -/
def read32 (r : AMFReader) : Nat × AMFReader := readBE 4 0 r

/-- Modelled from the spec: `packet.readNumber<double>()`; the double is kept as its
64-bit pattern. -/
def readNumber (r : AMFReader) : Nat × AMFReader := readBE 8 0 r

/-- Modelled from the spec: the loop of `packet.read7BitValue()`, at most three 7-bit
groups with a continuation bit. -/
def read7BitLoop : Nat → Nat → Nat → Nat → AMFReader → Nat × Nat × Nat × AMFReader
  | 0, n, b, result, r => (n, b, result, r)
  | k + 1, n, b, result, r =>
    if b / 128 % 2 = 1 ∧ n < 3 then
      read7BitLoop k (n + 1) r.read8.1 (result * 128 + b % 128) r.read8.2
    else (n, b, result, r)

/-- Modelled from the spec: `packet.read7BitValue()`, the AMF3 "U29": "up to 4
bytes, continuation-bit encoded, 29-bit magnitude"; the fourth byte gives 8 bits. -/
def read7BitValue (r : AMFReader) : Nat × AMFReader :=
  let l := read7BitLoop 3 0 r.read8.1 0 r.read8.2
  let n := l.1
  let b := l.2.1
  let result := l.2.2.1
  ((if n < 3 then result * 128 else result * 256) + b, l.2.2.2)

/-- The bytes designated by a pointer into the buffer and a size. -/
def text (r : AMFReader) (value size : Nat) : List Nat := (r.data.drop value).take size

/-- Source lines 35-43: `reset()`.  `DataReader::reset()` (not in the sources at hand)
is modelled from the spec: the reader is rewound for a new pass. -/
def resetReader (r : AMFReader) : AMFReader :=
  { r with position := 0, stringReferences := [], classDefReferences := [],
           references := [], amf0References := [], amf3 := 0, referencing := true }

end AMFReader

open AMFReader Kind

/-- Source lines 45-76: `readText(size, nullIfEmpty)`.  The result is the pointer
(`none` for `NULL`, else the offset of the text in the buffer), the value left in
`size`, and the new state. -/
def readText (r : AMFReader) (nullIfEmpty : Bool) : Option Nat × Nat × AMFReader :=
  if r.amf3 = 0 then
    let size := r.read16.1
    let r1 := r.read16.2
    let value := r1.position
    let r2 := r1.next size
    (if nullIfEmpty ∧ size = 0 then none else some value, size, r2)
  else
    let reference := r.position
    let v := r.read7BitValue.1
    let r1 := r.read7BitValue.2
    let size := v / 2
    if v % 2 = 1 then
      let value := r1.position
      let r2 := if size > 0 then
          ({ r1 with stringReferences := r1.stringReferences ++ [reference] }).next size
        else r1
      (if nullIfEmpty ∧ size = 0 then none else some value, size, r2)
    else if size ≥ r1.stringReferences.length then
      (none, size, r1.log (Log.error Msg.stringReferenceNotFound))
    else
      let reset := r1.position
      let r2 := r1.reset (r1.stringReferences.getD size 0)
      let size2 := r2.read7BitValue.1 / 2
      let r3 := r2.read7BitValue.2
      let value := r3.position
      let r4 := r3.reset reset
      (if nullIfEmpty ∧ size2 = 0 then none else some value, size2, r4)

/-- Source lines 84-112: the body of `if(_amf3) { ... }` in `followingType`, for the
marker `type`. -/
def followingTypeAMF3 (type : Nat) (r : AMFReader) : Kind × AMFReader :=
  if type = AMF3_UNDEFINED ∨ type = AMF3_NULL then (NIL, r)
  else if type = AMF3_FALSE ∨ type = AMF3_TRUE then (BOOLEAN, r)
  else if type = AMF3_INTEGER ∨ type = AMF3_NUMBER then (NUMBER, r)
  else if type = AMF3_STRING then (STRING, r)
  else if type = AMF3_DATE then (DATE, r)
  else if type = AMF3_BYTEARRAY then (BYTES, r)
  else if type = AMF3_ARRAY then (ARRAY, r)
  else if type = AMF3_DICTIONARY then (MAP, r)
  else if type = AMF3_OBJECT then (OBJECT, r)
  else (END, (r.log (Log.error (Msg.unknownAMF3Type type))).next r.available)

/-- Source lines 114-151: the AMF0 switch of `followingType`, for the marker `type`.
The recursive call after the AVM+ marker runs with `_amf3 = 1`, so it is the
availability test followed by the AMF3 switch. -/
def followingTypeAMF0 (type : Nat) (r : AMFReader) : Kind × AMFReader :=
  if type = AMF_AVMPLUS_OBJECT then
    let r1 : AMFReader := { r.next 1 with amf3 := 1 }
    if r1.available = 0 then (END, r1) else followingTypeAMF3 r1.peek r1
  else if type = AMF_UNDEFINED ∨ type = AMF_NULL then (NIL, r)
  else if type = AMF_BOOLEAN then (BOOLEAN, r)
  else if type = AMF_NUMBER then (NUMBER, r)
  else if type = AMF_LONG_STRING ∨ type = AMF_STRING then (STRING, r)
  else if type = AMF_MIXED_ARRAY ∨ type = AMF_STRICT_ARRAY then (ARRAY, r)
  else if type = AMF_DATE then (DATE, r)
  else if type = AMF_BEGIN_OBJECT ∨ type = AMF_BEGIN_TYPED_OBJECT then (OBJECT, r)
  else if type = AMF_REFERENCE then (AMF0_REF, r)
  else if type = AMF_END_OBJECT then
    (END, (r.log (Log.error Msg.endObjectWithoutBegin)).next r.available)
  else if type = AMF_UNSUPPORTED then
    (END, (r.log (Log.warn Msg.unsupportedAMF0Type)).next r.available)
  else (END, (r.log (Log.error (Msg.unknownAMF0Type type))).next r.available)

/-- Source lines 78-152: `followingType()`. -/
def followingType (r : AMFReader) : Kind × AMFReader :=
  if r.available = 0 then (END, r)
  else if r.amf3 ≠ 0 then followingTypeAMF3 r.peek r
  else followingTypeAMF0 r.peek r

/-! ## Nested decoding -/

/-- The outcome of decoding one value: `none` when the fuel ran out, else the
boolean returned, the new state and the calls received by the sink so far. -/
abbrev Res := Option (Bool × AMFReader × List Event)

/-- The type of `readNext(writer)` once its fuel is fixed. -/
abbrev ReadNext := Sink → AMFReader → List Event → Res

/-- Modelled from the spec: `DataReader::next()`, which skips one value ("skip over
the indexed elements without decoding them"): the value goes to `DataWriter::Null`
and what was written is dropped. -/
def nextValue (env : Env) (rn : ReadNext) (r : AMFReader) : Option AMFReader :=
  match rn env.nullSink r [] with
  | none => none
  | some (_, r1, _) => some r1

/-- Source lines 377-378: `for (i < size) next();`. -/
def skipElements (env : Env) (rn : ReadNext) : Nat → AMFReader → Option AMFReader
  | 0, r => some r
  | n + 1, r =>
    match nextValue env rn r with
    | none => none
    | some r1 => skipElements env rn n r1

/-- Source lines 451-454: `while (size-- > 0) if (!readNext(writer)) writer.writeNull();`. -/
def readElements (rn : ReadNext) (w : Sink) : Nat → AMFReader → List Event →
    Option (AMFReader × List Event)
  | 0, r, out => some (r, out)
  | n + 1, r, out =>
    match rn w r out with
    | none => none
    | some (written, r1, out1) =>
      readElements rn w n r1 (if written then out1 else out1 ++ [Event.writeNull])

/-- Source lines 382-388 and 489-495: the AMF0 property loop
`while (text = readText(size,true)) ...` of a mixed array and of an object. -/
def readProperties (rn : ReadNext) (w : Sink) : Nat → AMFReader → List Event →
    Option (AMFReader × List Event)
  | 0, _, _ => none
  | fuel + 1, r, out =>
    let t := readText r true
    match t.1 with
    | none => some (t.2.2, out)
    | some value =>
      let r1 := t.2.2
      if r1.available = 0 then some (r1, out)
      else
        let out1 := out ++ [Event.writePropertyName (cstr (r1.text value t.2.1))]
        match rn w r1 out1 with
        | none => none
        | some (written, r2, out2) =>
          readProperties rn w fuel r2 (if written then out2 else out2 ++ [Event.writeNull])

/-- Source lines 433-443: the associative segment of an AMF3 array; the result
carries `started`. -/
def readArrayProperties (rn : ReadNext) (w : Sink) (reference size : Nat) :
    Nat → Bool → AMFReader → List Event → Option (Bool × AMFReader × List Event)
  | 0, _, _, _ => none
  | fuel + 1, started, r, out =>
    let t := readText r true
    match t.1 with
    | none => some (started, t.2.2, out)
    | some value =>
      let r1 := t.2.2
      if r1.available = 0 then some (started, r1, out)
      else
        let out0 := if started then out else out ++ [Event.beginObjectArray reference size]
        let out1 := out0 ++ [Event.writePropertyName (cstr (r1.text value t.2.1))]
        match rn w r1 out1 with
        | none => none
        | some (written, r2, out2) =>
          readArrayProperties rn w reference size fuel true r2
            (if written then out2 else out2 ++ [Event.writeNull])

/-- Source lines 570-586: the member loop of an AMF3 object; `reset` and `flags` are
the local variables of `writeOne`, the result carries the final `reset`. -/
def readMembers (rn : ReadNext) (w : Sink) : Nat → Nat → Nat → AMFReader → List Event →
    Option (Nat × AMFReader × List Event)
  | 0, _, _, _, _ => none
  | fuel + 1, reset, flags, r, out =>
    let t := readText r true
    match t.1 with
    | none => some (reset, t.2.2, out)
    | some value =>
      let r1 := t.2.2
      if r1.available = 0 then some (reset, r1, out)
      else
        let out1 := out ++ [Event.writePropertyName (cstr (r1.text value t.2.1))]
        let position := r1.position
        let r2 := if reset ≠ 0 then r1.reset reset else r1
        match rn w r2 out1 with
        | none => none
        | some (written, r3, out2) =>
          let out3 := if written then out2 else out2 ++ [Event.writeNull]
          if reset ≠ 0 then
            let flags1 := (flags + 2 ^ 32 - 1) % 2 ^ 32
            if flags1 = 0 then readMembers rn w fuel 0 flags1 (r3.reset reset) out3
            else readMembers rn w fuel reset flags1 (r3.reset position) out3
          else readMembers rn w fuel reset flags r3 out3

/-- Source lines 328-340: the entry loop of a map; `ex` tells whether `beginMap` was
rejected.  `read(stringWriter,1)` is modelled from the spec as `readNext` on a
`StringWriter`, whose text is the property name. -/
def readMapEntries (env : Env) (rn : ReadNext) (w : Sink) (ex : Bool) :
    Nat → AMFReader → List Event → Option (AMFReader × List Event)
  | 0, r, out => some (r, out)
  | n + 1, r, out =>
    if ex then
      match rn env.stringSink r [] with
      | none => none
      | some (read, r1, prop) =>
        if read then
          let out1 := out ++ [Event.writePropertyName (cstr (stringify env prop))]
          match rn w r1 out1 with
          | none => none
          | some (written, r2, out2) =>
            readMapEntries env rn w ex n r2
              (if written then out2 else out2 ++ [Event.writeNull])
        else readMapEntries env rn w ex n r1 out
    else
      match rn w r out with
      | none => none
      | some (key, r1, out1) =>
        match rn w r1 (if key then out1 else out1 ++ [Event.writeNull]) with
        | none => none
        | some (written, r2, out2) =>
          readMapEntries env rn w ex n r2
            (if written then out2 else out2 ++ [Event.writeNull])

/-! ## `writeOne`, case by case -/

/-- Source lines 173-190: `case AMF0_REF`. -/
def writeAMF0Ref (rn : ReadNext) (w : Sink) (r : AMFReader) (out : List Event) : Res :=
  let r1 := r.next 1
  let reference := r1.read16.1
  let r2 := r1.read16.2
  if reference ≥ r2.amf0References.length then
    some (false, r2.log (Log.error Msg.amf0ReferenceNotFound), out)
  else if w.probe out ((reference + 1) * 2) then some (true, r2, out)
  else
    let reset := r2.position
    let r3 := r2.reset (r2.amf0References.getD reference 0)
    let referencing := r3.referencing
    match rn w { r3 with referencing := false } out with
    | none => none
    | some (written, r4, out1) =>
      some (written, ({ r4 with referencing := referencing }).reset reset, out1)

/-- Source lines 192-206: `case STRING`.  `readText(size)` leaves `nullIfEmpty` to its
default, declared in `Mona/AMFReader.h` (not in the sources at hand); modelled from
the spec: an empty string is a value ("payload emitted verbatim"), so it is `false`. -/
def writeString (r : AMFReader) (out : List Event) : Res :=
  let type := r.read8.1
  let r1 := r.read8.2
  if type = AMF_LONG_STRING then
    let size := r1.read32.1
    let r2 := r1.read32.2
    some (true, r2.next size, out ++ [Event.writeString (r2.text r2.position size) size])
  else
    let t := readText r1 false
    match t.1 with
    | none => some (false, t.2.2, out)
    | some value =>
      some (true, t.2.2, out ++ [Event.writeString (t.2.2.text value t.2.1) t.2.1])

/-- Source lines 208-211: `case BOOLEAN`. -/
def writeBoolean (r : AMFReader) (out : List Event) : Res :=
  let type := r.read8.1
  let r1 := r.read8.2
  if r1.amf3 ≠ 0 then some (true, r1, out ++ [Event.writeBoolean (type = AMF3_TRUE)])
  else some (true, r1.read8.2, out ++ [Event.writeBoolean (r1.read8.1 ≠ 0)])

/-- Source lines 213-225: `case NUMBER`.  `value` is a `UInt32`: the subtraction of
`1<<29` is taken modulo `2^32`, and the conversion to `double` keeps the value. -/
def writeNumber (r : AMFReader) (out : List Event) : Res :=
  let type := r.read8.1
  let r1 := r.read8.2
  if r1.amf3 = 0 ∨ type = AMF3_NUMBER then
    some (true, r1.readNumber.2, out ++ [Event.writeNumber (Number.ofBits r1.readNumber.1)])
  else
    let value := r1.read7BitValue.1
    let r2 := r1.read7BitValue.2
    let value1 := if value > AMF_MAX_INTEGER then (value + 2 ^ 32 - 2 ^ 29) % 2 ^ 32 else value
    some (true, r2, out ++ [Event.writeNumber (Number.ofInt (value1 : Nat))])

/-- Source lines 227-230: `case NIL`. -/
def writeNil (r : AMFReader) (out : List Event) : Res :=
  some (true, r.next 1, out ++ [Event.writeNull])

/-- Source lines 232-259: `case BYTES`.  In the call of line 255 the header is read
before `packet.current()` is taken, so that the pointer designates the payload.
`(n<<1)|1` is written `2*n+1`. -/
def writeBytes (w : Sink) (r : AMFReader) (out : List Event) : Res :=
  let r1 := r.next 1
  let pos := r1.position
  let v := r1.read7BitValue.1
  let r2 := r1.read7BitValue.2
  let size := v / 2
  if v % 2 = 1 then
    if r2.referencing then
      let r3 : AMFReader := { r2 with references := r2.references ++ [pos] }
      some (true, r3.next size,
        out ++ [Event.writeBytes (2 * r3.references.length + 1) (r3.text r3.position size) size])
    else
      some (true, r2.next size, out ++ [Event.writeBytes 0 (r2.text r2.position size) size])
  else if w.probe out (2 * (size + 1) + 1) then some (true, r2, out)
  else if size ≥ r2.references.length then
    some (false, r2.log (Log.error Msg.amf3ReferenceNotFound), out)
  else
    let reset := r2.position
    let r3 := r2.reset (r2.references.getD size 0)
    let size1 := r3.read7BitValue.1 / 2
    let r4 := r3.read7BitValue.2
    some (true, r4.reset reset,
      out ++ [Event.writeBytes (2 * (size + 1) + 1) (r4.text r4.position size1) size1])

/-- Source lines 261-293: `case DATE`. -/
def writeDate (w : Sink) (r : AMFReader) (out : List Event) : Res :=
  let r1 := r.next 1
  if r1.amf3 ≠ 0 then
    let pos := r1.position
    let flags0 := r1.read7BitValue.1
    let r2 := r1.read7BitValue.2
    if flags0 % 2 = 1 then
      if r2.referencing then
        let r3 : AMFReader := { r2 with references := r2.references ++ [pos] }
        some (true, r3.readNumber.2,
          out ++ [Event.writeDate (2 * r3.references.length + 1) r3.readNumber.1])
      else
        some (true, r2.readNumber.2, out ++ [Event.writeDate 0 r2.readNumber.1])
    else
      let flags := flags0 / 2
      if w.probe out (2 * (flags + 1) + 1) then some (true, r2, out)
      else if flags ≥ r2.references.length then
        some (false, r2.log (Log.error Msg.amf3ReferenceNotFound), out)
      else
        let reset := r2.position
        let r3 := r2.reset (r2.references.getD flags 0)
        some (true, r3.readNumber.2.reset reset,
          out ++ [Event.writeDate (2 * (flags + 1) + 1) r3.readNumber.1])
  else
    some (true, r1.readNumber.2.next 2, out ++ [Event.writeDate 0 r1.readNumber.1])

/-- Source lines 325-347: the rest of `case MAP` once the map is begun: the warning,
the entries, `endMap`, and the restoration of the position when `reset` is set. -/
def writeMapBody (env : Env) (rn : ReadNext) (w : Sink) (ex : Bool) (size reset : Nat)
    (r : AMFReader) (out : List Event) : Res :=
  let r1 := if ex then r.log (Log.warn Msg.mapException) else r
  match readMapEntries env rn w ex size r1 out with
  | none => none
  | some (r2, out1) =>
    some (true, if reset ≠ 0 then r2.reset reset else r2, out1 ++ [Event.endMap])

/-- Source lines 295-349: `case MAP`. -/
def writeMap (env : Env) (rn : ReadNext) (w : Sink) (r : AMFReader) (out : List Event) : Res :=
  let r1 := r.next 1
  let reference := r1.position
  let v := r1.read7BitValue.1
  let r2 := r1.read7BitValue.2
  let size := v / 2
  if v % 2 ≠ 1 then
    if w.probe out (2 * (size + 1) + 1) then some (true, r2, out)
    else if size ≥ r2.references.length then
      some (false, r2.log (Log.error Msg.mapReferenceNotFound), out)
    else
      let reset := r2.position
      let r3 := r2.reset (r2.references.getD size 0)
      let size1 := r3.read7BitValue.1 / 2
      let r4 := r3.read7BitValue.2
      let weakKeys : Bool := r4.read8.1 % 2 = 1
      writeMapBody env rn w (w.mapRejected out size1 weakKeys) size1 reset r4.read8.2
        (out ++ [Event.beginMap (2 * (size + 1) + 1) size1 weakKeys])
  else if r2.referencing then
    let r3 : AMFReader := { r2 with references := r2.references ++ [reference] }
    let weakKeys : Bool := r3.read8.1 % 2 = 1
    writeMapBody env rn w (w.mapRejected out size weakKeys) size 0 r3.read8.2
      (out ++ [Event.beginMap (2 * r3.references.length + 1) size weakKeys])
  else
    let weakKeys : Bool := r2.read8.1 % 2 = 1
    writeMapBody env rn w (w.mapRejected out size weakKeys) size 0 r2.read8.2
      (out ++ [Event.beginMap 0 size weakKeys])

/-- Source lines 451-460: the end of `case ARRAY`: the elements, `endArray`, and the
restoration of the position when `reset` is set. -/
def writeArrayElements (rn : ReadNext) (w : Sink) (size reset : Nat)
    (r : AMFReader) (out : List Event) : Res :=
  match readElements rn w size r out with
  | none => none
  | some (r1, out1) =>
    some (true, if reset ≠ 0 then r1.reset reset else r1, out1 ++ [Event.endArray])

/-- Source lines 359-400: `case ARRAY` in AMF0, strict or mixed. -/
def writeArrayAMF0 (env : Env) (rn : ReadNext) (fuel : Nat) (w : Sink)
    (r : AMFReader) (out : List Event) : Res :=
  let type := r.read8.1
  let r1 := r.read8.2
  let r2 : AMFReader :=
    if r1.referencing then { r1 with amf0References := r1.amf0References ++ [r1.position] }
    else r1
  let reference := if r1.referencing then r2.amf0References.length else 0
  let size := r2.read32.1
  let r3 := r2.read32.2
  if type = AMF_STRICT_ARRAY then
    writeArrayElements rn w size 0 r3 (out ++ [Event.beginArray (reference * 2) size])
  else
    let out1 := out ++ [Event.beginObjectArray (reference * 2) size]
    let position := r3.position
    match skipElements env rn size r3 with
    | none => none
    | some r4 =>
      match readProperties rn w fuel r4 out1 with
      | none => none
      | some (r5, out2) =>
        let r6 := if r5.read8.1 ≠ AMF_END_OBJECT then
            r5.read8.2.log (Log.error Msg.mixedArrayEndMarkerAbsent)
          else r5.read8.2
        let reset := r6.position
        writeArrayElements rn w size reset (r6.reset position) (out2 ++ [Event.endObject])

/-- Source lines 430-449: an AMF3 array once its header is resolved. -/
def writeArrayAMF3Body (rn : ReadNext) (fuel : Nat) (w : Sink) (reference size reset : Nat)
    (r : AMFReader) (out : List Event) : Res :=
  match readArrayProperties rn w reference size fuel false r out with
  | none => none
  | some (started, r1, out1) =>
    writeArrayElements rn w size reset r1
      (if started then out1 ++ [Event.endObject]
       else out1 ++ [Event.beginArray reference size])

/-- Source lines 402-449: `case ARRAY` in AMF3. -/
def writeArrayAMF3 (rn : ReadNext) (fuel : Nat) (w : Sink)
    (r : AMFReader) (out : List Event) : Res :=
  let r1 := r.next 1
  let pos := r1.position
  let v := r1.read7BitValue.1
  let r2 := r1.read7BitValue.2
  let size := v / 2
  if v % 2 ≠ 1 then
    let reference := 2 * (size + 1) + 1
    if w.probe out reference then some (true, r2, out)
    else if size ≥ r2.references.length then
      some (false, r2.log (Log.error Msg.arrayReferenceNotFound), out)
    else
      let reset := r2.position
      let r3 := r2.reset (r2.references.getD size 0)
      writeArrayAMF3Body rn fuel w reference (r3.read7BitValue.1 / 2) reset
        r3.read7BitValue.2 out
  else if r2.referencing then
    let r3 : AMFReader := { r2 with references := r2.references ++ [pos] }
    writeArrayAMF3Body rn fuel w (2 * r3.references.length + 1) size 0 r3 out
  else
    writeArrayAMF3Body rn fuel w 0 size 0 r2 out

/-- Source lines 351-461: `case ARRAY`. -/
def writeArray (env : Env) (rn : ReadNext) (fuel : Nat) (w : Sink)
    (r : AMFReader) (out : List Event) : Res :=
  if r.amf3 = 0 then writeArrayAMF0 env rn fuel w r out else writeArrayAMF3 rn fuel w r out

/-- Source lines 470-503: an AMF0 object. -/
def writeObjectAMF0 (rn : ReadNext) (fuel : Nat) (w : Sink)
    (r : AMFReader) (out : List Event) : Res :=
  let type := r.read8.1
  let r1 := r.read8.2
  let r2 : AMFReader :=
    if r1.referencing then { r1 with amf0References := r1.amf0References ++ [r1.position] }
    else r1
  let reference := if r1.referencing then r2.amf0References.length * 2 else 0
  let t : Option Nat × Nat × AMFReader :=
    if type = AMF_BEGIN_TYPED_OBJECT then readText r2 false else (none, 0, r2)
  let r3 := t.2.2
  let out1 :=
    match t.1 with
    | none => out ++ [Event.beginObject reference none]
    | some value =>
      if t.2.1 = 0 ∨ r3.available = 0 then out ++ [Event.beginObject reference none]
      else out ++ [Event.beginObject reference (some (cstr (r3.text value t.2.1)))]
  match readProperties rn w fuel r3 out1 with
  | none => none
  | some (r4, out2) =>
    let r5 := if r4.read8.1 ≠ AMF_END_OBJECT then
        r4.read8.2.log (Log.error Msg.endMarkerAbsent)
      else r4.read8.2
    some (true, r5, out2 ++ [Event.endObject])

/-- Source lines 552-595: an AMF3 object once its trait is read: `flags`, `reset`,
`text`, `size`, `stringify`, `reference` and `resetObject` are the local variables of
`writeOne` at line 552. -/
def writeObjectAMF3Body (rn : ReadNext) (fuel : Nat) (w : Sink)
    (reference resetObject flags reset : Nat) (text : Option Nat) (size : Nat)
    (stringify : Bool) (r : AMFReader) (out : List Event) : Res :=
  if flags % 2 = 1 then
    rn w (if reset ≠ 0 then r.reset reset else r) out
  else
    let flags1 := flags / 4
    let r1 := if reset ≠ 0 ∧ flags1 = 0 then r.reset reset else r
    let reset1 := if reset ≠ 0 ∧ flags1 = 0 then 0 else reset
    let out1 :=
      match text with
      | none => out ++ [Event.beginObject reference none]
      | some value =>
        if size = 0 ∨ stringify = false then out ++ [Event.beginObject reference none]
        else out ++ [Event.beginObject reference (some (cstr (r1.text value size)))]
    match readMembers rn w fuel reset1 flags1 r1 out1 with
    | none => none
    | some (reset2, r2, out2) =>
      some (true,
        if resetObject ≠ 0 then r2.reset resetObject
        else if reset2 ≠ 0 then r2.reset reset2 else r2,
        out2 ++ [Event.endObject])

/-- Source lines 532-550: the trait ("classdef") of an AMF3 object, then its body;
`pos` is the position saved at line 509. -/
def writeObjectAMF3ClassDef (rn : ReadNext) (fuel : Nat) (w : Sink)
    (reference resetObject pos flags0 : Nat) (r : AMFReader) (out : List Event) : Res :=
  let flags := flags0 / 2
  if flags0 % 2 = 1 then
    let r1 : AMFReader := { r with classDefReferences := r.classDefReferences ++ [pos] }
    let t := readText r1 false
    writeObjectAMF3Body rn fuel w reference resetObject flags 0 t.1 t.2.1
      (t.2.2.available > 0) t.2.2 out
  else if flags < r.classDefReferences.length then
    let reset := r.position
    let r1 := r.reset (r.classDefReferences.getD flags 0)
    let flags1 := r1.read7BitValue.1 / 4
    let t := readText r1.read7BitValue.2 false
    writeObjectAMF3Body rn fuel w reference resetObject flags1 reset t.1 t.2.1
      (t.2.2.available > 0) t.2.2 out
  else
    writeObjectAMF3Body rn fuel w reference resetObject flags 0 none 0 false
      (r.log (Log.error Msg.classDefReferenceNotFound)) out

/-- Source lines 505-531: an AMF3 object, inline or back-reference. -/
def writeObjectAMF3 (rn : ReadNext) (fuel : Nat) (w : Sink)
    (r : AMFReader) (out : List Event) : Res :=
  let r1 := r.next 1
  let flags0 := r1.read7BitValue.1
  let r2 := r1.read7BitValue.2
  let pos := r2.position
  let flags := flags0 / 2
  if flags0 % 2 ≠ 1 then
    let reference := 2 * (flags + 1) + 1
    if w.probe out reference then some (true, r2, out)
    else if flags ≥ r2.references.length then
      some (false, r2.log (Log.error Msg.objectReferenceNotFound), out)
    else
      let resetObject := r2.position
      let r3 := r2.reset (r2.references.getD flags 0)
      writeObjectAMF3ClassDef rn fuel w reference resetObject pos
        (r3.read7BitValue.1 / 2) r3.read7BitValue.2 out
  else if r2.referencing then
    let r3 : AMFReader := { r2 with references := r2.references ++ [pos] }
    writeObjectAMF3ClassDef rn fuel w (2 * r3.references.length + 1) 0 pos flags r3 out
  else
    writeObjectAMF3ClassDef rn fuel w 0 0 pos flags r2 out

/-- Source lines 465-596: the object part of `writeOne`, reached for every type that
has no `case`. -/
def writeObject (rn : ReadNext) (fuel : Nat) (w : Sink) (r : AMFReader) (out : List Event) : Res :=
  if r.amf3 = 0 then writeObjectAMF0 rn fuel w r out else writeObjectAMF3 rn fuel w r out

/-- Source lines 169-596: `writeOne(type, writer)`.  `rn` is `readNext` for the nested
values, `fuel` bounds the property loops. -/
def writeOne (env : Env) (rn : ReadNext) (fuel : Nat) (w : Sink) (type : Kind)
    (r : AMFReader) (out : List Event) : Res :=
  match type with
  | AMF0_REF => writeAMF0Ref rn w r out
  | STRING => writeString r out
  | BOOLEAN => writeBoolean r out
  | NUMBER => writeNumber r out
  | NIL => writeNil r out
  | BYTES => writeBytes w r out
  | DATE => writeDate w r out
  | MAP => writeMap env rn w r out
  | ARRAY => writeArray env rn fuel w r out
  | _ => writeObject rn fuel w r out

/-- Source lines 154-167: `readOne(type, writer)`, over a given `writeOne`. -/
def readOneWith (wo : Kind → AMFReader → List Event → Res) (type : Kind)
    (r : AMFReader) (out : List Event) : Res :=
  if r.amf3 = 1 then
    match wo type { r with amf3 := 2 } out with
    | none => none
    | some (written, r1, out1) => some (written, { r1 with amf3 := 0 }, out1)
  else wo type r out

/-- Modelled from the spec: `DataReader::readNext(writer)` (not in the sources at
hand): "the classifier is invoked once per value by the caller", then `readOne`
unless the kind is `END`.  With no fuel left the answer is `none`. -/
def readNext (env : Env) : Nat → ReadNext
  | 0 => fun _ _ _ => none
  | fuel + 1 => fun w r out =>
    let t := followingType r
    if t.1 = END then some (false, t.2, out)
    else readOneWith (writeOne env (readNext env fuel) fuel w) t.1 t.2 out

/-- Source lines 154-167: `readOne(type, writer)`; nested values are read with
`readNext env fuel`. -/
def readOne (env : Env) (fuel : Nat) (w : Sink) (type : Kind)
    (r : AMFReader) (out : List Event) : Res :=
  readOneWith (writeOne env (readNext env fuel) fuel w) type r out

/-! ## Wire encodings, to state the shape of a buffer -/

/-- Big-endian bytes of a 16-bit value. -/
def be16 (n : Nat) : List Nat := [n / 256 % 256, n % 256]

/-- Big-endian bytes of a 32-bit value. -/
def be32 (n : Nat) : List Nat :=
  [n / 16777216 % 256, n / 65536 % 256, n / 256 % 256, n % 256]

/-- Big-endian bytes of a 64-bit value (the bit pattern of a double). -/
def be64 (n : Nat) : List Nat := be32 (n / 4294967296 % 4294967296) ++ be32 (n % 4294967296)

/-- The AMF3 U29 encoding of a value below `2^29`: 7 bits a byte with a continuation
bit, 8 bits in the fourth byte. -/
def u29 (v : Nat) : List Nat :=
  if v < 128 then [v]
  else if v < 16384 then [v / 128 % 128 + 128, v % 128]
  else if v < 2097152 then [v / 16384 % 128 + 128, v / 128 % 128 + 128, v % 128]
  else [v / 4194304 % 128 + 128, v / 32768 % 128 + 128, v / 256 % 128 + 128, v % 256]

/-! ## Sample sinks and readers, for the concrete runs -/

/-- A sink that never has a value already and accepts maps. -/
def plainSink : Sink := ⟨fun _ _ => false, fun _ _ _ => false⟩

/-- A sink that answers true to every reference probe. -/
def knowingSink : Sink := ⟨fun _ _ => true, fun _ _ _ => false⟩

/-- An environment whose auxiliary sinks are plain and whose `StringWriter` renders
nothing but strings. -/
def plainEnv : Env := ⟨plainSink, plainSink, fun _ => []⟩

/-- A reader as built by the constructor (source line 31) or left by `reset()`, in
mode `amf3`, over `data`. -/
def AMFReader.start (data : List Nat) (amf3 : Nat) : AMFReader :=
  ⟨data, 0, amf3, true, [], [], [], [], []⟩

/-- The AMF0 values that hold no nested value, as they are laid out on the wire:
null, undefined, boolean (one payload byte), number (the 64 bits of a double),
short and long string, date (the 64 bits of a double and a 16-bit time zone). -/
inductive Scalar0
  | null
  | undefined
  | boolean (payload : Nat)
  | number (bits : Nat)
  | string (s : List Nat)
  | longString (s : List Nat)
  | date (bits : Nat) (timezone : Nat)
  deriving DecidableEq, Repr

/-- The bytes of an AMF0 scalar: its marker and its payload. -/
def Scalar0.encode : Scalar0 → List Nat
  | .null => [AMF_NULL]
  | .undefined => [AMF_UNDEFINED]
  | .boolean payload => [AMF_BOOLEAN, payload]
  | .number bits => AMF_NUMBER :: be64 bits
  | .string s => AMF_STRING :: (be16 s.length ++ s)
  | .longString s => AMF_LONG_STRING :: (be32 s.length ++ s)
  | .date bits timezone => AMF_DATE :: (be64 bits ++ be16 timezone)

/-- The fields of an AMF0 scalar fit their width on the wire. -/
def Scalar0.WellFormed : Scalar0 → Prop
  | .null => True
  | .undefined => True
  | .boolean payload => payload < 256
  | .number bits => bits < 2 ^ 64
  | .string s => s.length < 2 ^ 16
  | .longString s => s.length < 2 ^ 32
  | .date bits timezone => bits < 2 ^ 64 ∧ timezone < 2 ^ 16

/-- The call an AMF0 scalar is expected to produce on the sink. -/
def Scalar0.event : Scalar0 → Event
  | .null => Event.writeNull
  | .undefined => Event.writeNull
  | .boolean payload => Event.writeBoolean (payload ≠ 0)
  | .number bits => Event.writeNumber (Number.ofBits bits)
  | .string s => Event.writeString s s.length
  | .longString s => Event.writeString s s.length
  | .date bits _ => Event.writeDate 0 bits

/-- The bytes of a sequence of AMF0 scalars, back to back. -/
def Scalar0.encodeAll : List Scalar0 → List Nat
  | [] => []
  | v :: vs => v.encode ++ Scalar0.encodeAll vs

/-- The bytes of a sequence of AMF0 properties: for each, the 16-bit length of the
name, the name, and the value. -/
def Scalar0.encodeProperties : List (List Nat × Scalar0) → List Nat
  | [] => []
  | nv :: rest => be16 nv.1.length ++ (nv.1 ++ (nv.2.encode ++ Scalar0.encodeProperties rest))

/-- The calls expected for a sequence of properties: for each, its name then its
value. -/
def Scalar0.propertyEvents : List (List Nat × Scalar0) → List Event
  | [] => []
  | nv :: rest =>
    Event.writePropertyName (cstr nv.1) :: nv.2.event :: Scalar0.propertyEvents rest

/-- The state left by a `readOne` that only moved the cursor to `position`: the mode
goes from AMF3-pending to AMF0 (source lines 156-164), everything else is as before. -/
def AMFReader.movedTo (r : AMFReader) (position : Nat) : AMFReader :=
  { r with position := position, amf3 := if r.amf3 = 1 then 0 else r.amf3 }

/-! ## The packet reads as functions of the buffer and the position -/

/-- A reader over `data` at `position`, with nothing else. -/
def AMFReader.bare (data : List Nat) (position : Nat) : AMFReader :=
  ⟨data, position, 0, true, [], [], [], [], []⟩

/-- The position after `packet.next(count)`. -/
def nextAt (data : List Nat) (position count : Nat) : Nat :=
  ((AMFReader.bare data position).next count).position

/-- The value of `packet.read16()` and the position after it. -/
def read16At (data : List Nat) (position : Nat) : Nat × Nat :=
  ((AMFReader.bare data position).read16.1, (AMFReader.bare data position).read16.2.position)

/-- The value of `packet.read7BitValue()` and the position after it. -/
def read7BitValueAt (data : List Nat) (position : Nat) : Nat × Nat :=
  ((AMFReader.bare data position).read7BitValue.1,
   (AMFReader.bare data position).read7BitValue.2.position)

/-- An AMF3 string as it is laid out on the wire after its marker: inline (a U29 header
with its low bit set, then the bytes), or a back-reference to the entry `i` of the string
table, given with the string `s` that the entry designates. -/
inductive String3
  | inline (s : List Nat)
  | reference (i : Nat) (s : List Nat)
  deriving DecidableEq, Repr

/-- The bytes of the string. -/
def String3.text : String3 → List Nat
  | .inline s => s
  | .reference _ s => s

/-- The header and the payload of an AMF3 string. -/
def String3.encode : String3 → List Nat
  | .inline s => u29 (2 * s.length + 1) ++ s
  | .reference i _ => u29 (2 * i)

/-- The fields of an AMF3 string fit their width on the wire. -/
def String3.WellFormed : String3 → Prop
  | .inline s => s.length < 2 ^ 28
  | .reference i s => i < 2 ^ 28 ∧ s.length < 2 ^ 28

/-- The AMF3 values that hold no nested value, as they are laid out on the wire:
undefined, null, false, true, integer (a U29), double (its 64 bits), string (inline or
back-reference). -/
inductive Scalar3
  | undefined
  | null
  | false
  | true
  | integer (v : Nat)
  | double (bits : Nat)
  | string (t : String3)
  deriving DecidableEq, Repr

/-- The bytes of an AMF3 scalar: its marker and its payload. -/
def Scalar3.encode : Scalar3 → List Nat
  | .undefined => [AMF3_UNDEFINED]
  | .null => [AMF3_NULL]
  | .false => [AMF3_FALSE]
  | .true => [AMF3_TRUE]
  | .integer v => AMF3_INTEGER :: u29 v
  | .double bits => AMF3_NUMBER :: be64 bits
  | .string t => AMF3_STRING :: t.encode

/-- The fields of an AMF3 scalar fit their width on the wire. -/
def Scalar3.WellFormed : Scalar3 → Prop
  | .integer v => v < 2 ^ 29
  | .double bits => bits < 2 ^ 64
  | .string t => t.WellFormed
  | _ => True

/-- From the words of the specification: the call that the value of an AMF3 scalar
produces on the sink.  For an integer: "if the raw value exceeds the maximum positive
29-bit signed magnitude, reinterpret as negative by subtracting 2^29; emit as a
number". -/
def Scalar3.event : Scalar3 → Event
  | .undefined => Event.writeNull
  | .null => Event.writeNull
  | .false => Event.writeBoolean Bool.false
  | .true => Event.writeBoolean Bool.true
  | .integer v =>
    Event.writeNumber (Number.ofInt (if v > AMF_MAX_INTEGER then (v : Int) - 2 ^ 29 else v))
  | .double bits => Event.writeNumber (Number.ofBits bits)
  | .string t => Event.writeString t.text t.text.length

/-- The markers that have a `case` in the AMF0 switch of `followingType` (source lines
114-147). -/
def amf0Markers : List Nat :=
  [AMF_AVMPLUS_OBJECT, AMF_UNDEFINED, AMF_NULL, AMF_BOOLEAN, AMF_NUMBER, AMF_LONG_STRING,
   AMF_STRING, AMF_MIXED_ARRAY, AMF_STRICT_ARRAY, AMF_DATE, AMF_BEGIN_OBJECT,
   AMF_BEGIN_TYPED_OBJECT, AMF_REFERENCE, AMF_END_OBJECT, AMF_UNSUPPORTED]

/-- The markers that have a `case` in the AMF3 switch of `followingType` (source lines
85-107). -/
def amf3Markers : List Nat :=
  [AMF3_UNDEFINED, AMF3_NULL, AMF3_FALSE, AMF3_TRUE, AMF3_INTEGER, AMF3_NUMBER, AMF3_STRING,
   AMF3_DATE, AMF3_BYTEARRAY, AMF3_ARRAY, AMF3_DICTIONARY, AMF3_OBJECT]

/-- The state after `packet.next(packet.available())` and one more log line: the
cursor is at the end of the buffer. -/
def AMFReader.poisoned (r : AMFReader) (l : Log) : AMFReader :=
  { r with position := r.data.length, logs := r.logs ++ [l] }

/-- The fatal conditions of `followingType`: a byte is available and it is, in AMF3
mode, a marker without `case`, or in AMF0 mode the end-object marker, the unsupported
marker, or a marker without `case`. -/
def fatalMarker (r : AMFReader) : Prop :=
  r.available ≠ 0 ∧
    ((r.amf3 ≠ 0 ∧ r.peek ∉ amf3Markers)
      ∨ (r.amf3 = 0 ∧ (r.peek = AMF_END_OBJECT ∨ r.peek = AMF_UNSUPPORTED
          ∨ r.peek ∉ amf0Markers)))

/-- A `readNext` that leaves an AMF3-active mode (`_amf3 >= 2`) as it is. -/
def KeepsMode (rn : ReadNext) : Prop :=
  ∀ (w : Sink) (r : AMFReader) (out : List Event) (x : Bool × AMFReader × List Event),
    2 ≤ r.amf3 → rn w r out = some x → x.2.1.amf3 = r.amf3

/-- The canonical kind of an AMF0 value marker, in the words of the spec (4.1: "map
each AMF0 marker similarly", the reference marker being `LEGACY_REFERENCE`); `none`
for the markers that stand for no value (escape, end of object, unsupported, unknown). -/
def kindOfAMF0 (marker : Nat) : Option Kind :=
  if marker = AMF_UNDEFINED ∨ marker = AMF_NULL then some NIL
  else if marker = AMF_BOOLEAN then some BOOLEAN
  else if marker = AMF_NUMBER then some NUMBER
  else if marker = AMF_STRING ∨ marker = AMF_LONG_STRING then some STRING
  else if marker = AMF_DATE then some DATE
  else if marker = AMF_STRICT_ARRAY ∨ marker = AMF_MIXED_ARRAY then some ARRAY
  else if marker = AMF_BEGIN_OBJECT ∨ marker = AMF_BEGIN_TYPED_OBJECT then some OBJECT
  else if marker = AMF_REFERENCE then some AMF0_REF
  else none

/-- The canonical kind of an AMF3 marker, in the words of the spec (4.1:
"undefined/null→NIL; false/true→BOOLEAN; integer/double→NUMBER; string→STRING;
date→DATE; byte-array→BYTES; array→ARRAY; dictionary→MAP; object→OBJECT"); `none`
for an unknown marker. -/
def kindOfAMF3 (marker : Nat) : Option Kind :=
  if marker = AMF3_UNDEFINED ∨ marker = AMF3_NULL then some NIL
  else if marker = AMF3_FALSE ∨ marker = AMF3_TRUE then some BOOLEAN
  else if marker = AMF3_INTEGER ∨ marker = AMF3_NUMBER then some NUMBER
  else if marker = AMF3_STRING then some STRING
  else if marker = AMF3_DATE then some DATE
  else if marker = AMF3_BYTEARRAY then some BYTES
  else if marker = AMF3_ARRAY then some ARRAY
  else if marker = AMF3_DICTIONARY then some MAP
  else if marker = AMF3_OBJECT then some OBJECT
  else none

/-- The position `e` of the buffer holds the header of a non-empty inline AMF3 string:
a U29 with its low bit set and a length of at least one. -/
def GoodAnchor (data : List Nat) (e : Nat) : Prop :=
  e < data.length ∧ (read7BitValueAt data e).1 % 2 = 1 ∧ 0 < (read7BitValueAt data e).1 / 2

instance (data : List Nat) (e : Nat) : Decidable (GoodAnchor data e) := by
  unfold GoodAnchor
  infer_instance

/-- What a decoding may change, from the state `r` to the state `r'`: the buffer and the
capture flag are the same; each table and the log only grow at their end; every new
entry of the string table is the header of a non-empty inline string; and with the
capture flag off the object table and the legacy table are the same.  The position and
the mode are free. -/
def Step (r r' : AMFReader) : Prop :=
  r'.data = r.data
  ∧ r'.referencing = r.referencing
  ∧ r.stringReferences <+: r'.stringReferences
  ∧ (∀ e ∈ r'.stringReferences, e ∈ r.stringReferences ∨ GoodAnchor r.data e)
  ∧ r.classDefReferences <+: r'.classDefReferences
  ∧ r.references <+: r'.references
  ∧ r.amf0References <+: r'.amf0References
  ∧ (r.referencing = false →
      r'.references = r.references ∧ r'.amf0References = r.amf0References)
  ∧ r.logs <+: r'.logs

/-- A `readNext` whose every result is a `Step` of its state and extends the calls
already received by the sink. -/
def Frames (rn : ReadNext) : Prop :=
  ∀ (w : Sink) (r : AMFReader) (out : List Event) (x : Bool × AMFReader × List Event),
    rn w r out = some x → Step r x.2.1 ∧ out <+: x.2.2

/-- The reference id carried by a call on the sink, for the calls that carry one. -/
def Event.reference : Event → Option Nat
  | Event.writeBytes id _ _ => some id
  | Event.writeDate id _ => some id
  | Event.beginMap id _ _ => some id
  | Event.beginArray id _ => some id
  | Event.beginObjectArray id _ => some id
  | Event.beginObject id _ => some id
  | _ => none

/-- The first call made on the sink after the calls `out`, in `out'`, carries the
reference id `id`. -/
def BeginsWith (out : List Event) (id : Nat) (out' : List Event) : Prop :=
  ∃ e : Event, e.reference = some id ∧ out ++ [e] <+: out'

/-- From the words of the specification: the id of the entry `i` of the legacy table,
`2*(i+1)`. -/
def legacyId (i : Nat) : Nat := 2 * (i + 1)

/-- From the words of the specification: the id of the entry `i` of the object table,
`2*(i+1)+1`. -/
def objectId (i : Nat) : Nat := 2 * (i + 1) + 1

/-- Source lines 532-552: the value of `flags & 0x01` tested at line 552 (`// external`),
for the trait selector `flags0` (the flags of the object once its inline bit is shifted
out) met at the state `r`: the bit that follows the inline bit of an inline trait; for a
trait back-reference, the third bit of the U29 read again at the class-def anchor
(`flags = packet.read7BitValue()>>2`); and the bit that follows the inline bit when the
class-def index is not found. -/
def traitExternal (flags0 : Nat) (r : AMFReader) : Bool :=
  if flags0 % 2 = 1 then decide (flags0 / 2 % 2 = 1)
  else if flags0 / 2 < r.classDefReferences.length then
    decide ((r.reset (r.classDefReferences.getD (flags0 / 2) 0)).read7BitValue.1 / 4 % 2 = 1)
  else decide (flags0 / 2 % 2 = 1)

/-- Source lines 506-552: the same bit for the AMF3 object under the cursor of `r`.  For
an inline object the trait selector is in its header; for a back-reference (to an entry
of the object table, lines 522-524) it is read again at the anchor. -/
def objectExternal (r : AMFReader) : Bool :=
  let flags0 := (r.next 1).read7BitValue.1
  let r2 := (r.next 1).read7BitValue.2
  if flags0 % 2 = 1 then traitExternal (flags0 / 2) r2
  else
    let r3 := r2.reset (r2.references.getD (flags0 / 2) 0)
    traitExternal (r3.read7BitValue.1 / 2) r3.read7BitValue.2

/-! ## Properties of the packet -/

theorem drop_lt {data : List Nat} {p b : Nat} {rest : List Nat}
    (h : data.drop p = b :: rest) : p < data.length := by
  by_contra hc
  rw [List.drop_eq_nil_of_le (by omega)] at h
  cases h

theorem drop_succ {data : List Nat} {p b : Nat} {rest : List Nat}
    (h : data.drop p = b :: rest) : data.drop (p + 1) = rest := by
  have := congrArg (List.drop 1) h
  simpa [List.drop_drop, Nat.add_comm] using this

theorem drop_add {data : List Nat} {p : Nat} (bs : List Nat) {rest : List Nat}
    (h : data.drop p = bs ++ rest) : data.drop (p + bs.length) = rest := by
  have := congrArg (List.drop bs.length) h
  simpa [List.drop_drop, Nat.add_comm] using this

theorem drop_le {data : List Nat} {p : Nat} (bs : List Nat) {rest : List Nat}
    (h : data.drop p = bs ++ rest) : bs.length ≤ data.length - p := by
  have := congrArg List.length h
  simp at this
  omega

theorem getD_drop {data : List Nat} {p b : Nat} {rest : List Nat}
    (h : data.drop p = b :: rest) : data.getD p 0 = b := by
  have hlt := drop_lt h
  have := congrArg (fun l => l.getD 0 0) h
  simpa [List.getD_eq_getElem?_getD, List.getElem?_drop] using this

section
variable {data : List Nat} {p a : Nat} {g : Bool} {S C R A : List Nat} {L : List Log}

theorem peek_mk {b : Nat} {rest : List Nat} (h : data.drop p = b :: rest) :
    (AMFReader.mk data p a g S C R A L).peek = b % 256 := by
  have := getD_drop h
  simp only [AMFReader.peek, this]

theorem available_mk :
    (AMFReader.mk data p a g S C R A L).available = data.length - p := rfl

theorem next_mk (bs : List Nat) {rest : List Nat} (h : data.drop p = bs ++ rest) :
    (AMFReader.mk data p a g S C R A L).next bs.length
      = AMFReader.mk data (p + bs.length) a g S C R A L := by
  have := drop_le bs h
  simp [AMFReader.next, AMFReader.available]
  omega

theorem read8_mk {b : Nat} {rest : List Nat} (h : data.drop p = b :: rest) :
    (AMFReader.mk data p a g S C R A L).read8
      = (b % 256, AMFReader.mk data (p + 1) a g S C R A L) := by
  have := drop_lt h
  simp [AMFReader.read8, peek_mk h, AMFReader.next, AMFReader.available]
  omega

theorem readBE_mk (bs : List Nat) : ∀ {p : Nat} (acc : Nat) {rest : List Nat},
    data.drop p = bs ++ rest →
    AMFReader.readBE bs.length acc (AMFReader.mk data p a g S C R A L)
      = (bs.foldl (fun x b => x * 256 + b % 256) acc,
         AMFReader.mk data (p + bs.length) a g S C R A L) := by
  induction bs with
  | nil => intro p acc rest _; simp [AMFReader.readBE]
  | cons b bs ih =>
    intro p acc rest h
    have h1 : data.drop (p + 1) = bs ++ rest := drop_succ h
    simp only [List.length_cons, AMFReader.readBE, read8_mk h, List.foldl_cons]
    rw [ih _ h1]
    simp [Nat.add_assoc, Nat.add_comm 1]
end

section
variable {data : List Nat} {p a : Nat} {g : Bool} {S C R A : List Nat} {L : List Log}

theorem read16_mk {n : Nat} {rest : List Nat} (hn : n < 65536)
    (h : data.drop p = be16 n ++ rest) :
    (AMFReader.mk data p a g S C R A L).read16 = (n, AMFReader.mk data (p + 2) a g S C R A L) := by
  have := @readBE_mk data a g S C R A L (be16 n) p 0 rest h
  simp only [be16, List.length_cons, List.length_nil, List.foldl_cons, List.foldl_nil] at this
  simp only [AMFReader.read16, this, Prod.mk.injEq, and_true]
  omega

theorem read32_mk {n : Nat} {rest : List Nat} (hn : n < 4294967296)
    (h : data.drop p = be32 n ++ rest) :
    (AMFReader.mk data p a g S C R A L).read32 = (n, AMFReader.mk data (p + 4) a g S C R A L) := by
  have := @readBE_mk data a g S C R A L (be32 n) p 0 rest h
  simp only [be32, List.length_cons, List.length_nil, List.foldl_cons, List.foldl_nil] at this
  simp only [AMFReader.read32, this, Prod.mk.injEq, and_true]
  omega

theorem readNumber_mk {n : Nat} {rest : List Nat} (hn : n < 18446744073709551616)
    (h : data.drop p = be64 n ++ rest) :
    (AMFReader.mk data p a g S C R A L).readNumber = (n, AMFReader.mk data (p + 8) a g S C R A L) := by
  have := @readBE_mk data a g S C R A L (be64 n) p 0 rest h
  simp only [be64, be32, List.length_cons, List.length_nil, List.foldl_cons, List.foldl_nil,
    List.cons_append, List.nil_append] at this
  simp only [AMFReader.readNumber, this, Prod.mk.injEq, and_true]
  omega

theorem read7BitLoop_stop (k n b result : Nat) (r : AMFReader)
    (h : ¬ (b / 128 % 2 = 1 ∧ n < 3)) :
    AMFReader.read7BitLoop (k + 1) n b result r = (n, b, result, r) := by
  simp only [AMFReader.read7BitLoop, if_neg h]

theorem read7BitLoop_step (k n b result : Nat) (r : AMFReader)
    (h : b / 128 % 2 = 1 ∧ n < 3) :
    AMFReader.read7BitLoop (k + 1) n b result r
      = AMFReader.read7BitLoop k (n + 1) r.read8.1 (result * 128 + b % 128) r.read8.2 := by
  simp only [AMFReader.read7BitLoop, if_pos h]

theorem read7BitValue_mk {v : Nat} {rest : List Nat} (hv : v < 536870912)
    (h : data.drop p = u29 v ++ rest) :
    (AMFReader.mk data p a g S C R A L).read7BitValue
      = (v, AMFReader.mk data (p + (u29 v).length) a g S C R A L) := by
  unfold u29 at h ⊢
  split at h
  · have h0 := @read8_mk data p a g S C R A L _ _ h
    rw [AMFReader.read7BitValue, h0, read7BitLoop_stop _ _ _ _ _ (by omega)]
    simp only [Nat.lt_irrefl, if_true, if_pos, *]
    simp
    omega
  · split at h
    · have h0 := @read8_mk data p a g S C R A L _ _ h
      have h1 := @read8_mk data (p + 1) a g S C R A L _ _ (drop_succ h)
      rw [AMFReader.read7BitValue, h0, read7BitLoop_step _ _ _ _ _ (by omega), h1,
        read7BitLoop_stop _ _ _ _ _ (by omega)]
      simp [*]
      omega
    · split at h
      · have h0 := @read8_mk data p a g S C R A L _ _ h
        have h1 := @read8_mk data (p + 1) a g S C R A L _ _ (drop_succ h)
        have h2 := @read8_mk data (p + 1 + 1) a g S C R A L _ _ (drop_succ (drop_succ h))
        rw [AMFReader.read7BitValue, h0, read7BitLoop_step _ _ _ _ _ (by omega), h1,
          read7BitLoop_step _ _ _ _ _ (by omega), h2, read7BitLoop_stop _ _ _ _ _ (by omega)]
        simp [*]
        omega
      · have h0 := @read8_mk data p a g S C R A L _ _ h
        have h1 := @read8_mk data (p + 1) a g S C R A L _ _ (drop_succ h)
        have h2 := @read8_mk data (p + 1 + 1) a g S C R A L _ _ (drop_succ (drop_succ h))
        have h3 := @read8_mk data (p + 1 + 1 + 1) a g S C R A L _ _
          (drop_succ (drop_succ (drop_succ h)))
        rw [AMFReader.read7BitValue, h0, read7BitLoop_step _ _ _ _ _ (by omega), h1,
          read7BitLoop_step _ _ _ _ _ (by omega), h2, read7BitLoop_step _ _ _ _ _ (by omega), h3]
        simp [AMFReader.read7BitLoop, *]
        omega
end

/-! ## What the packet operations leave unchanged -/

@[simp] theorem read8_fst (r : AMFReader) : r.read8.1 = r.peek := rfl
@[simp] theorem read8_snd (r : AMFReader) : r.read8.2 = r.next 1 := rfl

@[simp] theorem next_data (r : AMFReader) (n : Nat) : (r.next n).data = r.data := rfl
@[simp] theorem next_amf3 (r : AMFReader) (n : Nat) : (r.next n).amf3 = r.amf3 := rfl
@[simp] theorem next_referencing (r : AMFReader) (n : Nat) :
    (r.next n).referencing = r.referencing := rfl
@[simp] theorem next_stringReferences (r : AMFReader) (n : Nat) :
    (r.next n).stringReferences = r.stringReferences := rfl
@[simp] theorem next_classDefReferences (r : AMFReader) (n : Nat) :
    (r.next n).classDefReferences = r.classDefReferences := rfl
@[simp] theorem next_references (r : AMFReader) (n : Nat) :
    (r.next n).references = r.references := rfl
@[simp] theorem next_amf0References (r : AMFReader) (n : Nat) :
    (r.next n).amf0References = r.amf0References := rfl
@[simp] theorem next_logs (r : AMFReader) (n : Nat) : (r.next n).logs = r.logs := rfl

@[simp] theorem reset_data (r : AMFReader) (n : Nat) : (r.reset n).data = r.data := rfl
@[simp] theorem reset_amf3 (r : AMFReader) (n : Nat) : (r.reset n).amf3 = r.amf3 := rfl
@[simp] theorem reset_referencing (r : AMFReader) (n : Nat) :
    (r.reset n).referencing = r.referencing := rfl
@[simp] theorem reset_stringReferences (r : AMFReader) (n : Nat) :
    (r.reset n).stringReferences = r.stringReferences := rfl
@[simp] theorem reset_classDefReferences (r : AMFReader) (n : Nat) :
    (r.reset n).classDefReferences = r.classDefReferences := rfl
@[simp] theorem reset_references (r : AMFReader) (n : Nat) :
    (r.reset n).references = r.references := rfl
@[simp] theorem reset_amf0References (r : AMFReader) (n : Nat) :
    (r.reset n).amf0References = r.amf0References := rfl
@[simp] theorem reset_logs (r : AMFReader) (n : Nat) : (r.reset n).logs = r.logs := rfl

@[simp] theorem log_data (r : AMFReader) (l : Log) : (r.log l).data = r.data := rfl
@[simp] theorem log_position (r : AMFReader) (l : Log) : (r.log l).position = r.position := rfl
@[simp] theorem log_amf3 (r : AMFReader) (l : Log) : (r.log l).amf3 = r.amf3 := rfl
@[simp] theorem log_referencing (r : AMFReader) (l : Log) :
    (r.log l).referencing = r.referencing := rfl
@[simp] theorem log_stringReferences (r : AMFReader) (l : Log) :
    (r.log l).stringReferences = r.stringReferences := rfl
@[simp] theorem log_classDefReferences (r : AMFReader) (l : Log) :
    (r.log l).classDefReferences = r.classDefReferences := rfl
@[simp] theorem log_references (r : AMFReader) (l : Log) :
    (r.log l).references = r.references := rfl
@[simp] theorem log_amf0References (r : AMFReader) (l : Log) :
    (r.log l).amf0References = r.amf0References := rfl
@[simp] theorem log_logs (r : AMFReader) (l : Log) : (r.log l).logs = r.logs ++ [l] := rfl
@[simp] theorem log_available (r : AMFReader) (l : Log) : (r.log l).available = r.available := rfl

/-- The state `r` with its cursor moved to `position`. -/
theorem readBE_eq (n : Nat) : ∀ (acc : Nat) (r : AMFReader),
    (AMFReader.readBE n acc r).2 = { r with position := (AMFReader.readBE n acc r).2.position } := by
  induction n with
  | zero => intro acc r; rfl
  | succ n ih =>
    intro acc r
    rw [AMFReader.readBE]
    conv => lhs; rw [ih]
    rfl

theorem read7BitLoop_eq (k : Nat) : ∀ (n b result : Nat) (r : AMFReader),
    (AMFReader.read7BitLoop k n b result r).2.2.2
      = { r with position := (AMFReader.read7BitLoop k n b result r).2.2.2.position } := by
  induction k with
  | zero => intro n b result r; rfl
  | succ k ih =>
    intro n b result r
    by_cases h : b / 128 % 2 = 1 ∧ n < 3
    · rw [read7BitLoop_step _ _ _ _ _ h]
      conv => lhs; rw [ih]
      rfl
    · rw [read7BitLoop_stop _ _ _ _ _ h]

theorem read7BitValue_eq (r : AMFReader) :
    r.read7BitValue.2 = { r with position := r.read7BitValue.2.position } := by
  unfold AMFReader.read7BitValue
  simp only
  conv => lhs; rw [read7BitLoop_eq]
  rfl

/-- C1 (source lines 213-225). In AMF3 mode the NUMBER case on an integer marker reads
the U29 `v` and calls `writeNumber` exactly once: with `v` when `v <= 2^28-1`, and,
when `2^28-1 < v < 2^29`, with `v + 2^32 - 2^29`, the `UInt32` left by
`value-=(1<<29)`: a positive number, which differs from the negative `v - 2^29`. -/
theorem C1_amf3_integer_number (env : Env) (rn : ReadNext) (fuel : Nat) (w : Sink)
    (r : AMFReader) (out : List Event)
    (hmode : r.amf3 ≠ 0) (hmarker : r.peek = AMF3_INTEGER)
    (hv : (r.next 1).read7BitValue.1 < 2 ^ 29) :
    writeOne env rn fuel w NUMBER r out
      = some (true, (r.next 1).read7BitValue.2,
          out ++ [Event.writeNumber (Number.ofInt
            (if (r.next 1).read7BitValue.1 ≤ 2 ^ 28 - 1 then ((r.next 1).read7BitValue.1 : Int)
             else ((r.next 1).read7BitValue.1 : Int) + 2 ^ 32 - 2 ^ 29))])
    ∧ (2 ^ 28 - 1 < (r.next 1).read7BitValue.1 →
        ((r.next 1).read7BitValue.1 : Int) + 2 ^ 32 - 2 ^ 29
          ≠ ((r.next 1).read7BitValue.1 : Int) - 2 ^ 29) := by
  constructor
  · simp only [writeOne, writeNumber, read8_fst, read8_snd, next_amf3, hmarker]
    have h1 : ¬ (r.amf3 = 0 ∨ AMF3_INTEGER = AMF3_NUMBER) := by
      simp [hmode, AMF3_INTEGER, AMF3_NUMBER]
    rw [if_neg h1]
    simp only [AMF_MAX_INTEGER]
    generalize (r.next 1).read7BitValue.1 = v at hv ⊢
    have e1 : (2 : Nat) ^ 28 - 1 = 268435455 := by norm_num
    rw [e1]
    by_cases hle : v ≤ 268435455
    · rw [if_neg (by omega), if_pos hle]
    · rw [if_pos (by omega), if_neg hle]
      have h2 : (v + 2 ^ 32 - 2 ^ 29) % 2 ^ 32 = v + 3758096384 := by omega
      rw [h2]
      have h3 : ((v + 3758096384 : Nat) : Int) = (v : Int) + 2 ^ 32 - 2 ^ 29 := by
        push_cast
        omega
      rw [h3]
  · intro _ h
    omega

/-- The failing input of C1: the AMF3 integer `04 FF FF FF FF` (U29 `2^29-1`, the
encoding of -1) is emitted as `4294967295`. -/
theorem C1_amf3_integer_number_witness :
    writeOne plainEnv (readNext plainEnv 0) 0 plainSink NUMBER
        (AMFReader.start [4, 255, 255, 255, 255] 2) []
      = some (true, ⟨[4, 255, 255, 255, 255], 5, 2, true, [], [], [], [], []⟩,
          [Event.writeNumber (Number.ofInt 4294967295)]) := by
  have h := (C1_amf3_integer_number plainEnv (readNext plainEnv 0) 0 plainSink
    (AMFReader.start [4, 255, 255, 255, 255] 2) [] (by decide) (by decide) (by decide)).1
  rw [h]
  decide

theorem available_pos_of_drop {data : List Nat} {p b : Nat} {rest : List Nat}
    (h : data.drop p = b :: rest) : data.length - p ≠ 0 := by
  have := drop_lt h
  omega

/-- The kinds that hold no nested value are decoded without any fuel: `writeOne`
returns on every buffer. -/
theorem writeOne_flat_returns (env : Env) (rn : ReadNext) (fuel : Nat) (w : Sink) (t : Kind)
    (r : AMFReader) (out : List Event)
    (ht : t ∈ [NIL, BOOLEAN, NUMBER, STRING, DATE, BYTES]) :
    ∃ x, writeOne env rn fuel w t r out = some x := by
  simp only [List.mem_cons, List.mem_singleton, List.not_mem_nil, or_false] at ht
  rcases ht with rfl | rfl | rfl | rfl | rfl | rfl
  · exact ⟨_, rfl⟩
  · simp only [writeOne, writeBoolean]
    split <;> exact ⟨_, rfl⟩
  · simp only [writeOne, writeNumber]
    split <;> exact ⟨_, rfl⟩
  · simp only [writeOne, writeString]
    split
    · exact ⟨_, rfl⟩
    · split <;> exact ⟨_, rfl⟩
  · simp only [writeOne, writeDate]
    split
    · split
      · split <;> exact ⟨_, rfl⟩
      · split
        · exact ⟨_, rfl⟩
        · split <;> exact ⟨_, rfl⟩
    · exact ⟨_, rfl⟩
  · simp only [writeOne, writeBytes]
    split
    · split <;> exact ⟨_, rfl⟩
    · split
      · exact ⟨_, rfl⟩
      · split <;> exact ⟨_, rfl⟩

theorem text_mk {data : List Nat} {p a : Nat} {g : Bool} {S C R A : List Nat} {L : List Log}
    {q : Nat} (bs : List Nat) {rest : List Nat} (h : data.drop q = bs ++ rest) :
    (AMFReader.mk data p a g S C R A L).text q bs.length = bs := by
  simp only [AMFReader.text, h, List.take_left']

theorem reset_mk {data : List Nat} {p a : Nat} {g : Bool} {S C R A : List Nat} {L : List Log}
    {q : Nat} (hq : q ≤ data.length) :
    (AMFReader.mk data p a g S C R A L).reset q = AMFReader.mk data q a g S C R A L := by
  simp only [AMFReader.reset, if_neg (Nat.not_lt.mpr hq)]

theorem next_one_mk {data : List Nat} {p a : Nat} {g : Bool} {S C R A : List Nat} {L : List Log}
    {b : Nat} {rest : List Nat} (h : data.drop p = b :: rest) :
    (AMFReader.mk data p a g S C R A L).next 1 = AMFReader.mk data (p + 1) a g S C R A L := by
  have := drop_lt h
  simp only [AMFReader.next, AMFReader.available]
  rw [if_neg (by omega)]

theorem le_length_of_drop {data : List Nat} {p b : Nat} {rest : List Nat}
    (h : data.drop p = b :: rest) : p ≤ data.length := Nat.le_of_lt (drop_lt h)

theorem getD_append_cons (S more : List Nat) (x : Nat) :
    (S ++ x :: more).getD S.length 0 = x := by
  rw [List.getD_eq_getElem?_getD, List.getElem?_append_right (Nat.le_refl _)]
  simp

theorem u29_length_pos (v : Nat) : 0 < (u29 v).length := by
  unfold u29
  split
  · simp
  · split
    · simp
    · split <;> simp

theorem add_length_le_of_drop {data : List Nat} {p : Nat} (bs : List Nat) {rest : List Nat}
    (hbs : 0 < bs.length) (h : data.drop p = bs ++ rest) : p + bs.length ≤ data.length := by
  have := congrArg List.length h
  simp only [List.length_drop, List.length_append] at this
  omega

section
variable {data : List Nat} {p a : Nat} {g : Bool} {S C R A : List Nat} {L : List Log}

/-- `readText` on an inline AMF3 string. -/
theorem readText_inline_mk (nullIfEmpty : Bool) (s : List Nat) {rest : List Nat}
    (ha : a ≠ 0) (hlen : s.length < 2 ^ 28)
    (h : data.drop p = u29 (2 * s.length + 1) ++ (s ++ rest)) :
    readText (AMFReader.mk data p a g S C R A L) nullIfEmpty
      = (if nullIfEmpty = true ∧ s.length = 0 then none
          else some (p + (u29 (2 * s.length + 1)).length),
         s.length,
         AMFReader.mk data (p + (u29 (2 * s.length + 1)).length + s.length) a g
           (if s.length > 0 then S ++ [p] else S) C R A L) := by
  have hv : 2 * s.length + 1 < 536870912 := by omega
  have hs := drop_add _ h
  have h1 : (2 * s.length + 1) % 2 = 1 := by omega
  have e : (2 * s.length + 1) / 2 = s.length := by omega
  simp only [readText, if_neg ha, read7BitValue_mk hv h, if_pos h1, e]
  by_cases h0 : s.length > 0
  · simp only [if_pos h0, next_mk s hs]
  · have : s.length = 0 := by omega
    simp [this]

/-- `readText` on an AMF3 string back-reference to the entry `i` of the string table,
which is the header position of an inline string `s`. -/
theorem readText_reference_mk (nullIfEmpty : Bool) (i q : Nat) (s : List Nat)
    {rest rest' : List Nat}
    (ha : a ≠ 0) (hi : i < S.length) (hi' : i < 2 ^ 28) (hq : S.getD i 0 = q)
    (hlen : s.length < 2 ^ 28)
    (hanchor : data.drop q = u29 (2 * s.length + 1) ++ (s ++ rest'))
    (h : data.drop p = u29 (2 * i) ++ rest) :
    readText (AMFReader.mk data p a g S C R A L) nullIfEmpty
      = (if nullIfEmpty = true ∧ s.length = 0 then none
          else some (q + (u29 (2 * s.length + 1)).length),
         s.length,
         AMFReader.mk data (p + (u29 (2 * i)).length) a g S C R A L) := by
  have hv : 2 * s.length + 1 < 536870912 := by omega
  have hv2 : 2 * i < 536870912 := by omega
  have h1 : ¬ (2 * i) % 2 = 1 := by omega
  have h2 : ¬ i ≥ S.length := by omega
  have e : (2 * i) / 2 = i := by omega
  have e2 : (2 * s.length + 1) / 2 = s.length := by omega
  have hqle : q ≤ data.length := by
    have := add_length_le_of_drop _ (u29_length_pos _) hanchor
    omega
  have hple : p + (u29 (2 * i)).length ≤ data.length :=
    add_length_le_of_drop _ (u29_length_pos _) h
  simp only [readText, if_neg ha, read7BitValue_mk hv2 h, if_neg h1, if_neg h2, e, hq,
    reset_mk hqle, read7BitValue_mk hv hanchor, e2, reset_mk hple]
end

/-- C3 (source lines 45-76 and 192-206). In AMF3 mode a non-empty inline string `s` is
written and its header position registered at the end of the string table; in a later
state of the same pass (same buffer, the table possibly grown) a string value that is a
back-reference to that index is written with the same bytes and size, and the cursor
is left just after the back-reference header. -/
theorem C3_string_back_reference (env : Env) (rn : ReadNext) (fuel : Nat) (w : Sink)
    (r r' : AMFReader) (out out' s rest rest' more : List _)
    (hmode : r.amf3 ≠ 0) (hs : 0 < s.length) (hlen : s.length < 2 ^ 28)
    (hbuf : r.data.drop r.position = AMF3_STRING :: (u29 (2 * s.length + 1) ++ (s ++ rest)))
    (hdata : r'.data = r.data) (hmode' : r'.amf3 ≠ 0)
    (htable : r'.stringReferences = r.stringReferences ++ (r.position + 1) :: more)
    (hidx : r.stringReferences.length < 2 ^ 28)
    (hbuf' : r'.data.drop r'.position
      = AMF3_STRING :: (u29 (2 * r.stringReferences.length) ++ rest')) :
    writeOne env rn fuel w STRING r out
      = some (true,
          { r with position := r.position + 1 + (u29 (2 * s.length + 1)).length + s.length,
                   stringReferences := r.stringReferences ++ [r.position + 1] },
          out ++ [Event.writeString s s.length])
    ∧ writeOne env rn fuel w STRING r' out'
      = some (true,
          { r' with position := r'.position + 1 + (u29 (2 * r.stringReferences.length)).length },
          out' ++ [Event.writeString s s.length]) := by
  obtain ⟨data0, p, a, g, S, C, R, A, L⟩ := r
  obtain ⟨data, p', a', g', S', C', R', A', L'⟩ := r'
  simp only at hmode hbuf hdata hmode' htable hidx hbuf'
  subst hdata htable
  have hv1 : 2 * s.length + 1 < 536870912 := by omega
  have hv2 : 2 * S.length < 536870912 := by omega
  have hh1 := drop_succ hbuf
  have hs1 := drop_add _ hh1
  have hh2 := drop_succ hbuf'
  constructor
  · simp only [writeOne, writeString, read8_fst, read8_snd, peek_mk hbuf, next_one_mk hbuf]
    rw [if_neg (by decide),
      readText_inline_mk false s hmode hlen hh1]
    simp only [Bool.false_eq_true, false_and, if_false, text_mk s hs1, if_pos hs]
  · simp only [writeOne, writeString, read8_fst, read8_snd, peek_mk hbuf', next_one_mk hbuf']
    rw [if_neg (by decide),
      readText_reference_mk false S.length (p + 1) s hmode' (by simp) hidx
        (getD_append_cons S more (p + 1)) hlen hh1 hh2]
    simp only [Bool.false_eq_true, false_and, if_false, text_mk s hs1]

/-- C3 on the buffer `06 07 'a' 'b' 'c' 06 00`: the inline string "abc", then a
back-reference to the entry 0 of the string table. -/
theorem C3_string_back_reference_witness :
    writeOne plainEnv (readNext plainEnv 0) 0 plainSink STRING
        (AMFReader.start [6, 7, 97, 98, 99, 6, 0] 2) []
      = some (true, ⟨[6, 7, 97, 98, 99, 6, 0], 5, 2, true, [1], [], [], [], []⟩,
          [Event.writeString [97, 98, 99] 3])
    ∧ writeOne plainEnv (readNext plainEnv 0) 0 plainSink STRING
        ⟨[6, 7, 97, 98, 99, 6, 0], 5, 2, true, [1], [], [], [], []⟩
        [Event.writeString [97, 98, 99] 3]
      = some (true, ⟨[6, 7, 97, 98, 99, 6, 0], 7, 2, true, [1], [], [], [], []⟩,
          [Event.writeString [97, 98, 99] 3, Event.writeString [97, 98, 99] 3]) :=
  C3_string_back_reference plainEnv (readNext plainEnv 0) 0 plainSink
    (AMFReader.start [6, 7, 97, 98, 99, 6, 0] 2)
    ⟨[6, 7, 97, 98, 99, 6, 0], 5, 2, true, [1], [], [], [], []⟩
    [] [Event.writeString [97, 98, 99] 3] [97, 98, 99] [6, 0] [] []
    (by decide) (by decide) (by decide) (by decide) (by decide) (by decide) (by decide)
    (by decide) (by decide)

section
variable {data : List Nat} {p : Nat} {g : Bool} {S C R A : List Nat} {L : List Log}

theorem followingType_amf0_mk {b : Nat} {rest : List Nat} (h : data.drop p = b :: rest) :
    followingType (AMFReader.mk data p 0 g S C R A L)
      = followingTypeAMF0 (b % 256) (AMFReader.mk data p 0 g S C R A L) := by
  simp only [followingType, available_mk, if_neg (available_pos_of_drop h), ne_eq,
    not_true_eq_false, if_false, peek_mk h]

/-- One AMF0 scalar is read by `readNext`: the expected call is made on the sink and
the cursor moves by the length of its encoding; nothing else changes. -/
theorem readNext_scalar0 (env : Env) (fuel : Nat) (w : Sink) (out : List Event)
    (v : Scalar0) (hv : v.WellFormed) {rest : List Nat}
    (h : data.drop p = v.encode ++ rest) :
    readNext env (fuel + 1) w (AMFReader.mk data p 0 g S C R A L) out
      = some (true, AMFReader.mk data (p + v.encode.length) 0 g S C R A L,
          out ++ [v.event]) := by
  cases v with
  | null =>
    simp only [Scalar0.encode, List.singleton_append] at h
    simp only [readNext, followingType_amf0_mk h]
    simp [followingTypeAMF0, AMF_NULL, AMF_AVMPLUS_OBJECT, AMF_UNDEFINED, readOneWith, writeOne,
      writeNil, next_one_mk h, Scalar0.event, Scalar0.encode]
  | undefined =>
    simp only [Scalar0.encode, List.singleton_append] at h
    simp only [readNext, followingType_amf0_mk h]
    simp [followingTypeAMF0, AMF_NULL, AMF_AVMPLUS_OBJECT, AMF_UNDEFINED, readOneWith, writeOne,
      writeNil, next_one_mk h, Scalar0.event, Scalar0.encode]
  | boolean b =>
    simp only [Scalar0.encode, List.cons_append, List.nil_append] at h
    simp only [Scalar0.WellFormed] at hv
    simp only [readNext, followingType_amf0_mk h]
    simp [followingTypeAMF0, AMF_NULL, AMF_AVMPLUS_OBJECT, AMF_UNDEFINED, AMF_BOOLEAN,
      readOneWith, writeOne, writeBoolean, next_one_mk h, next_one_mk (drop_succ h),
      peek_mk (drop_succ h), Scalar0.event, Scalar0.encode, Nat.mod_eq_of_lt hv]
  | number bits =>
    simp only [Scalar0.encode, List.cons_append] at h
    simp only [Scalar0.WellFormed] at hv
    simp only [readNext, followingType_amf0_mk h]
    simp [followingTypeAMF0, AMF_NULL, AMF_AVMPLUS_OBJECT, AMF_UNDEFINED, AMF_BOOLEAN, AMF_NUMBER,
      readOneWith, writeOne, writeNumber, next_one_mk h, readNumber_mk hv (drop_succ h),
      Scalar0.event, Scalar0.encode, be64, be32, Nat.add_assoc]
  | string s =>
    simp only [Scalar0.encode, List.cons_append] at h
    simp only [Scalar0.WellFormed] at hv
    have h1 := drop_succ h
    have h2 : data.drop (p + 1 + 2) = s ++ rest :=
      @drop_add data (p + 1) (be16 s.length) (s ++ rest) (by rw [h1, List.append_assoc])
    simp only [readNext, followingType_amf0_mk h]
    simp [followingTypeAMF0, AMF_NULL, AMF_AVMPLUS_OBJECT, AMF_UNDEFINED, AMF_BOOLEAN, AMF_NUMBER,
      AMF_STRING, AMF_LONG_STRING, readOneWith, writeOne, writeString, readText, peek_mk h,
      next_one_mk h, read16_mk hv h1, next_mk s h2, text_mk s h2,
      Scalar0.event, Scalar0.encode, be16, Nat.add_assoc]
    omega
  | longString s =>
    simp only [Scalar0.encode, List.cons_append] at h
    simp only [Scalar0.WellFormed] at hv
    have h1 := drop_succ h
    have h2 : data.drop (p + 1 + 4) = s ++ rest :=
      @drop_add data (p + 1) (be32 s.length) (s ++ rest) (by rw [h1, List.append_assoc])
    simp only [readNext, followingType_amf0_mk h]
    simp [followingTypeAMF0, AMF_NULL, AMF_AVMPLUS_OBJECT, AMF_UNDEFINED, AMF_BOOLEAN, AMF_NUMBER,
      AMF_STRING, AMF_LONG_STRING, readOneWith, writeOne, writeString, peek_mk h,
      next_one_mk h, read32_mk hv h1, next_mk s h2, text_mk s h2,
      Scalar0.event, Scalar0.encode, be32, Nat.add_assoc]
    omega
  | date bits tz =>
    simp only [Scalar0.encode, List.cons_append] at h
    simp only [Scalar0.WellFormed] at hv
    have h1 := drop_succ h
    have h2 : data.drop (p + 1 + 8) = be16 tz ++ rest :=
      @drop_add data (p + 1) (be64 bits) (be16 tz ++ rest) (by rw [h1, List.append_assoc])
    have h3 := @next_mk data (p + 1 + 8) 0 g S C R A L (be16 tz) rest h2
    simp only [readNext, followingType_amf0_mk h]
    simp [followingTypeAMF0, AMF_NULL, AMF_AVMPLUS_OBJECT, AMF_UNDEFINED, AMF_BOOLEAN, AMF_NUMBER,
      AMF_STRING, AMF_LONG_STRING, AMF_MIXED_ARRAY, AMF_STRICT_ARRAY, AMF_DATE,
      readOneWith, writeOne, writeDate, next_one_mk h, readNumber_mk hv.1 h1, h3,
      Scalar0.event, Scalar0.encode, be64, be32, be16, Nat.add_assoc] at h3 ⊢
    exact h3
end

section
variable {data : List Nat} {g : Bool} {S C R A : List Nat} {L : List Log}

/-- A run of AMF0 scalars is read in wire order by the element loop. -/
theorem readElements_scalars0 (env : Env) (fuel : Nat) (w : Sink) (rest : List Nat) :
    ∀ (vs : List Scalar0) (p : Nat) (out : List Event),
      (∀ v ∈ vs, v.WellFormed) →
      data.drop p = Scalar0.encodeAll vs ++ rest →
      readElements (readNext env (fuel + 1)) w vs.length (AMFReader.mk data p 0 g S C R A L) out
        = some (AMFReader.mk data (p + (Scalar0.encodeAll vs).length) 0 g S C R A L,
            out ++ vs.map Scalar0.event) := by
  intro vs
  induction vs with
  | nil => intro p out _ _; simp [readElements, Scalar0.encodeAll]
  | cons v vs ih =>
    intro p out hwf h
    simp only [Scalar0.encodeAll, List.append_assoc] at h
    have hv := hwf v (List.mem_cons_self _ _)
    have h1 := drop_add _ h
    simp only [List.length_cons, readElements, readNext_scalar0 env fuel w out v hv h, if_true]
    rw [ih _ _ (fun x hx => hwf x (List.mem_cons_of_mem _ hx)) h1]
    simp [Scalar0.encodeAll, Nat.add_assoc]
end

theorem readOne_amf0 (env : Env) (fuel : Nat) (w : Sink) (t : Kind) (r : AMFReader)
    (out : List Event) (h : r.amf3 ≠ 1) :
    readOne env fuel w t r out = writeOne env (readNext env fuel) fuel w t r out := by
  simp only [readOne, readOneWith, if_neg h]

theorem Scalar0.event_ne_propertyName (v : Scalar0) (name : List Nat) :
    v.event ≠ Event.writePropertyName name := by
  cases v <;> simp [Scalar0.event]

/-- C4 (source lines 359-370 and 451-460). An AMF0 strict array of `N` well-formed
scalars is decoded as `beginArray` with count `N`, the `N` values in wire order, then
`endArray`; no property name is written; the cursor ends just after the last element.
The id of `beginArray` and the legacy table follow the capture flag. -/
theorem C4_strict_array_of_scalars (env : Env) (fuel : Nat) (w : Sink) (r : AMFReader)
    (out : List Event) (vs : List Scalar0) (rest : List Nat)
    (hmode : r.amf3 = 0) (hwf : ∀ v ∈ vs, v.WellFormed) (hN : vs.length < 2 ^ 32)
    (hbuf : r.data.drop r.position
      = AMF_STRICT_ARRAY :: (be32 vs.length ++ (Scalar0.encodeAll vs ++ rest))) :
    readOne env (fuel + 1) w ARRAY r out
      = some (true,
          { r with
            position := r.position + 5 + (Scalar0.encodeAll vs).length,
            amf0References :=
              if r.referencing then r.amf0References ++ [r.position + 1] else r.amf0References },
          out ++ Event.beginArray
                  (if r.referencing then (r.amf0References.length + 1) * 2 else 0) vs.length
              :: (vs.map Scalar0.event ++ [Event.endArray]))
    ∧ ∀ name : List Nat,
        Event.writePropertyName name ∉
          Event.beginArray (if r.referencing then (r.amf0References.length + 1) * 2 else 0)
              vs.length
            :: (vs.map Scalar0.event ++ [Event.endArray]) := by
  obtain ⟨data, p, a, g, S, C, R, A, L⟩ := r
  simp only at hmode hbuf ⊢
  subst hmode
  constructor
  · have h1 := drop_succ hbuf
    have h2 : data.drop (p + 1 + 4) = Scalar0.encodeAll vs ++ rest := drop_add (be32 vs.length) h1
    rw [readOne_amf0 _ _ _ _ _ _ (show (AMFReader.mk data p 0 g S C R A L).amf3 ≠ 1 from by simp)]
    simp only [writeOne, writeArray, if_true, writeArrayAMF0, read8_fst, read8_snd, peek_mk hbuf,
      next_one_mk hbuf]
    rw [if_pos (by decide)]
    cases g with
    | true =>
      simp only [if_true, read32_mk hN h1, writeArrayElements,
        readElements_scalars0 env fuel w rest vs _ _ hwf h2]
      simp [Nat.add_assoc]
    | false =>
      simp only [Bool.false_eq_true, if_false, read32_mk hN h1, writeArrayElements,
        readElements_scalars0 env fuel w rest vs _ _ hwf h2]
      simp [Nat.add_assoc]
  · intro name hmem
    simp only [List.mem_cons, List.mem_append, List.mem_map, List.mem_singleton,
      List.not_mem_nil, or_false] at hmem
    rcases hmem with h | ⟨v, _, hv⟩ | h
    · cases h
    · exact Scalar0.event_ne_propertyName v name hv
    · cases h

/-- C4 on the strict array `[null, true, "hi"]`, followed by one more byte. -/
theorem C4_strict_array_of_scalars_witness :
    readOne plainEnv 1 plainSink ARRAY
        (AMFReader.start [0x0A, 0, 0, 0, 3, 5, 1, 1, 2, 0, 2, 104, 105, 0xAA] 0) []
      = some (true,
          ⟨[0x0A, 0, 0, 0, 3, 5, 1, 1, 2, 0, 2, 104, 105, 0xAA], 13, 0, true, [], [], [], [1], []⟩,
          [Event.beginArray 2 3, Event.writeNull, Event.writeBoolean true,
           Event.writeString [104, 105] 2, Event.endArray]) :=
  (C4_strict_array_of_scalars plainEnv 0 plainSink
    (AMFReader.start [0x0A, 0, 0, 0, 3, 5, 1, 1, 2, 0, 2, 104, 105, 0xAA] 0) []
    [Scalar0.null, Scalar0.boolean 1, Scalar0.string [104, 105]] [0xAA]
    (by decide)
    (by
      intro v hv
      simp only [List.mem_cons, List.mem_singleton, List.not_mem_nil, or_false] at hv
      rcases hv with rfl | rfl | rfl <;> simp [Scalar0.WellFormed])
    (by decide) (by decide)).1

theorem Scalar0.encode_length_pos (v : Scalar0) : 0 < v.encode.length := by
  cases v <;> simp [Scalar0.encode]

section
variable {data : List Nat} {g : Bool} {S C R A : List Nat} {L : List Log}

/-- A run of AMF0 scalars is skipped by `next()`, whatever `DataWriter::Null` does. -/
theorem skipElements_scalars0 (env : Env) (fuel : Nat) (rest : List Nat) :
    ∀ (vs : List Scalar0) (p : Nat),
      (∀ v ∈ vs, v.WellFormed) →
      data.drop p = Scalar0.encodeAll vs ++ rest →
      skipElements env (readNext env (fuel + 1)) vs.length (AMFReader.mk data p 0 g S C R A L)
        = some (AMFReader.mk data (p + (Scalar0.encodeAll vs).length) 0 g S C R A L) := by
  intro vs
  induction vs with
  | nil => intro p _ _; simp [skipElements, Scalar0.encodeAll]
  | cons v vs ih =>
    intro p hwf h
    simp only [Scalar0.encodeAll, List.append_assoc] at h
    have hv := hwf v (List.mem_cons_self _ _)
    have h1 := drop_add _ h
    simp only [List.length_cons, skipElements, nextValue,
      readNext_scalar0 env fuel env.nullSink [] v hv h]
    rw [ih _ (fun x hx => hwf x (List.mem_cons_of_mem _ hx)) h1]
    simp [Scalar0.encodeAll, Nat.add_assoc]

/-- `readText` in AMF0 mode, on a 16-bit length and that many bytes. -/
theorem readText_amf0_mk (nullIfEmpty : Bool) (s : List Nat) {p : Nat} {rest : List Nat}
    (hlen : s.length < 2 ^ 16)
    (h : data.drop p = be16 s.length ++ (s ++ rest)) :
    readText (AMFReader.mk data p 0 g S C R A L) nullIfEmpty
      = (if nullIfEmpty = true ∧ s.length = 0 then none else some (p + 2),
         s.length,
         AMFReader.mk data (p + 2 + s.length) 0 g S C R A L) := by
  have h2 : data.drop (p + 2) = s ++ rest := drop_add (be16 s.length) h
  simp only [readText, if_true, read16_mk hlen h, next_mk s h2]

/-- A run of AMF0 properties with non-empty names and scalar values, closed by an
empty name, is read in wire order by the property loop, which stops after the empty
name. -/
theorem readProperties_scalars0 (env : Env) (fuel : Nat) (w : Sink) (rest : List Nat) :
    ∀ (props : List (List Nat × Scalar0)) (k p : Nat) (out : List Event),
      (∀ nv ∈ props, 0 < nv.1.length ∧ nv.1.length < 2 ^ 16 ∧ nv.2.WellFormed) →
      data.drop p = Scalar0.encodeProperties props ++ (0 :: 0 :: rest) →
      readProperties (readNext env (fuel + 1)) w (props.length + 1 + k)
          (AMFReader.mk data p 0 g S C R A L) out
        = some (AMFReader.mk data (p + (Scalar0.encodeProperties props).length + 2)
                  0 g S C R A L,
            out ++ Scalar0.propertyEvents props) := by
  intro props
  induction props with
  | nil =>
    intro k p out _ h
    simp only [Scalar0.encodeProperties, List.nil_append] at h
    have h' : data.drop p = be16 ([] : List Nat).length ++ ([] ++ rest) := by
      simpa [be16] using h
    have e : 0 + 1 + k = k + 1 := by omega
    have hrt := @readText_amf0_mk data g S C R A L true [] p _ (by simp) h'
    rw [if_pos (by simp)] at hrt
    simp only [List.length_nil, e, readProperties, hrt]
    simp [Scalar0.propertyEvents, Scalar0.encodeProperties]
  | cons nv props ih =>
    intro k p out hwf h
    obtain ⟨hpos, hlen, hv⟩ := hwf nv (List.mem_cons_self _ _)
    simp only [Scalar0.encodeProperties, List.append_assoc] at h
    have h2 : data.drop (p + 2) = nv.1 ++ (nv.2.encode ++ (Scalar0.encodeProperties props
        ++ 0 :: 0 :: rest)) := drop_add (be16 nv.1.length) h
    have h3 := drop_add _ h2
    have h4 := drop_add _ h3
    have hav : data.length - (p + 2 + nv.1.length) ≠ 0 := by
      have := add_length_le_of_drop _ nv.2.encode_length_pos h3
      have := nv.2.encode_length_pos
      omega
    have e : (nv :: props).length + 1 + k = (props.length + 1 + k) + 1 := by
      simp only [List.length_cons]; omega
    have hne : ¬ (true = true ∧ nv.1.length = 0) := by omega
    have hrt := @readText_amf0_mk data g S C R A L true nv.1 p _ hlen h
    rw [if_neg hne] at hrt
    simp only [e, readProperties, hrt, available_mk,
      if_neg hav, text_mk nv.1 h2, readNext_scalar0 env fuel w _ nv.2 hv h3, if_true]
    rw [ih k _ _ (fun x hx => hwf x (List.mem_cons_of_mem _ hx)) h4]
    simp [Scalar0.propertyEvents, Scalar0.encodeProperties, be16, Nat.add_assoc]
    omega
end

/-- C5 (source lines 371-400 and 451-460). A well-formed AMF0 mixed array with `M`
scalar elements, `K` properties (non-empty names, scalar values) and the terminator
(empty name, end-object marker) is decoded, given fuel for the `K+1` turns of the
property loop, as: `beginObjectArray` with count `M`, the `K` pairs property name and
value in wire order, `endObject`, the `M` elements in wire order, `endArray`; the
cursor ends just after the end-object marker, and nothing is logged. -/
theorem C5_mixed_array_of_scalars (env : Env) (k : Nat) (w : Sink) (r : AMFReader)
    (out : List Event) (elems : List Scalar0) (props : List (List Nat × Scalar0))
    (rest : List Nat)
    (hmode : r.amf3 = 0) (hM : elems.length < 2 ^ 32)
    (hwfE : ∀ v ∈ elems, v.WellFormed)
    (hwfP : ∀ nv ∈ props, 0 < nv.1.length ∧ nv.1.length < 2 ^ 16 ∧ nv.2.WellFormed)
    (hbuf : r.data.drop r.position
      = AMF_MIXED_ARRAY :: (be32 elems.length ++ (Scalar0.encodeAll elems
          ++ (Scalar0.encodeProperties props ++ (0 :: 0 :: AMF_END_OBJECT :: rest))))) :
    readOne env (props.length + 1 + k) w ARRAY r out
      = some (true,
          { r with
            position := r.position + 5 + (Scalar0.encodeAll elems).length
              + (Scalar0.encodeProperties props).length + 3,
            amf0References :=
              if r.referencing then r.amf0References ++ [r.position + 1] else r.amf0References },
          out ++ Event.beginObjectArray
                  (if r.referencing then (r.amf0References.length + 1) * 2 else 0) elems.length
              :: (Scalar0.propertyEvents props
                  ++ Event.endObject :: (elems.map Scalar0.event ++ [Event.endArray]))) := by
  obtain ⟨data, p, a, g, S, C, R, A, L⟩ := r
  simp only at hmode hbuf ⊢
  subst hmode
  have h1 := drop_succ hbuf
  have h2 : data.drop (p + 1 + 4) = Scalar0.encodeAll elems
      ++ (Scalar0.encodeProperties props ++ (0 :: 0 :: AMF_END_OBJECT :: rest)) :=
    drop_add (be32 elems.length) h1
  have h3 := drop_add _ h2
  have h4 : data.drop (p + 1 + 4 + (Scalar0.encodeAll elems).length
      + (Scalar0.encodeProperties props).length + 2) = AMF_END_OBJECT :: rest := by
    have := drop_add _ h3
    exact drop_succ (drop_succ this)
  have hle : p + 1 + 4 ≤ data.length := by
    have := add_length_le_of_drop (be32 elems.length) (by simp [be32]) h1
    simpa [be32] using this
  have hle2 : p + 1 + 4 + (Scalar0.encodeAll elems).length
      + (Scalar0.encodeProperties props).length + 2 + 1 ≤ data.length := drop_lt h4
  have e : props.length + 1 + k = (props.length + k) + 1 := by omega
  rw [readOne_amf0 _ _ _ _ _ _ (show (AMFReader.mk data p 0 g S C R A L).amf3 ≠ 1 from by simp)]
  simp only [writeOne, writeArray, if_true, writeArrayAMF0, read8_fst, read8_snd, peek_mk hbuf,
    next_one_mk hbuf]
  rw [if_neg (by decide)]
  rw [e]
  have hp : ∀ (A1 : List Nat) (out1 : List Event),
      readProperties (readNext env (props.length + k + 1)) w (props.length + k + 1)
        (AMFReader.mk data (p + 1 + 4 + (Scalar0.encodeAll elems).length) 0 g S C R A1 L) out1
      = some (AMFReader.mk data (p + 1 + 4 + (Scalar0.encodeAll elems).length
                + (Scalar0.encodeProperties props).length + 2) 0 g S C R A1 L,
              out1 ++ Scalar0.propertyEvents props) := by
    intro A1 out1
    have := @readProperties_scalars0 data g S C R A1 L env (props.length + k) w _ props k _ out1
      hwfP h3
    rw [e] at this
    exact this
  cases g with
  | true =>
    simp only [if_true, read32_mk hM h1,
      skipElements_scalars0 env (props.length + k) _ elems _ hwfE h2, hp,
      peek_mk h4, next_one_mk h4, reset_mk hle, writeArrayElements]
    rw [if_neg (by decide)]
    simp only [reset_mk hle,
      readElements_scalars0 env (props.length + k) w _ elems _ _ hwfE h2]
    rw [if_pos (by simp)]
    simp only [reset_mk hle2]
    simp [Nat.add_assoc]
  | false =>
    simp only [Bool.false_eq_true, if_false, read32_mk hM h1,
      skipElements_scalars0 env (props.length + k) _ elems _ hwfE h2, hp,
      peek_mk h4, next_one_mk h4, reset_mk hle, writeArrayElements]
    rw [if_neg (by decide)]
    simp only [reset_mk hle,
      readElements_scalars0 env (props.length + k) w _ elems _ _ hwfE h2]
    rw [if_pos (by simp)]
    simp only [reset_mk hle2]
    simp [Nat.add_assoc]

/-- C5 on the mixed array with the elements `[null, true]` and the property
`a: false`, followed by one more byte. -/
theorem C5_mixed_array_of_scalars_witness :
    readOne plainEnv 2 plainSink ARRAY
        (AMFReader.start [8, 0, 0, 0, 2, 5, 1, 1, 0, 1, 97, 1, 0, 0, 0, 9, 5] 0) []
      = some (true,
          ⟨[8, 0, 0, 0, 2, 5, 1, 1, 0, 1, 97, 1, 0, 0, 0, 9, 5], 16, 0, true, [], [], [], [1], []⟩,
          [Event.beginObjectArray 2 2, Event.writePropertyName [97], Event.writeBoolean false,
           Event.endObject, Event.writeNull, Event.writeBoolean true, Event.endArray]) :=
  C5_mixed_array_of_scalars plainEnv 0 plainSink
    (AMFReader.start [8, 0, 0, 0, 2, 5, 1, 1, 0, 1, 97, 1, 0, 0, 0, 9, 5] 0) []
    [Scalar0.null, Scalar0.boolean 1] [([97], Scalar0.boolean 0)] [5]
    (by decide) (by decide)
    (by
      intro v hv
      simp only [List.mem_cons, List.mem_singleton, List.not_mem_nil, or_false] at hv
      rcases hv with rfl | rfl <;> simp [Scalar0.WellFormed])
    (by
      intro nv hnv
      simp only [List.mem_singleton] at hnv
      subst hnv
      simp [Scalar0.WellFormed])
    (by decide)

/-! ## What the variable-length reads leave unchanged -/

@[simp] theorem read7BitValue_amf3 (r : AMFReader) : r.read7BitValue.2.amf3 = r.amf3 := by
  rw [read7BitValue_eq]
@[simp] theorem read7BitValue_references (r : AMFReader) :
    r.read7BitValue.2.references = r.references := by
  rw [read7BitValue_eq]
@[simp] theorem read7BitValue_referencing (r : AMFReader) :
    r.read7BitValue.2.referencing = r.referencing := by
  rw [read7BitValue_eq]
@[simp] theorem read16_amf0References (r : AMFReader) :
    r.read16.2.amf0References = r.amf0References := by
  rw [AMFReader.read16, readBE_eq]

/-- The state in which `readOne` leaves the mode: AMF0 after a pending AMF3 value,
unchanged otherwise. -/
theorem readOne_eq (env : Env) (fuel : Nat) (w : Sink) (t : Kind) (r : AMFReader)
    (out : List Event) :
    readOne env fuel w t r out
      = if r.amf3 = 1 then
          (writeOne env (readNext env fuel) fuel w t { r with amf3 := 2 } out).map
            (fun x => (x.1, { x.2.1 with amf3 := 0 }, x.2.2))
        else writeOne env (readNext env fuel) fuel w t r out := by
  simp only [readOne, readOneWith]
  split
  · cases writeOne env (readNext env fuel) fuel w t { r with amf3 := 2 } out <;> rfl
  · rfl

theorem readBE_packet (n : Nat) : ∀ (acc : Nat) (r r' : AMFReader),
    r.data = r'.data → r.position = r'.position →
    (AMFReader.readBE n acc r).1 = (AMFReader.readBE n acc r').1
    ∧ (AMFReader.readBE n acc r).2.position = (AMFReader.readBE n acc r').2.position := by
  induction n with
  | zero => intro acc r r' _ hp; exact ⟨rfl, hp⟩
  | succ n ih =>
    intro acc r r' hd hp
    have e1 : r.peek = r'.peek := by simp only [AMFReader.peek, hd, hp]
    have e2 : (r.next 1).position = (r'.next 1).position := by
      simp only [AMFReader.next, AMFReader.available, hd, hp]
    simp only [AMFReader.readBE, read8_fst, read8_snd, e1]
    exact ih _ _ _ (by simpa using hd) e2

theorem read7BitLoop_packet (k : Nat) : ∀ (n b result : Nat) (r r' : AMFReader),
    r.data = r'.data → r.position = r'.position →
    (AMFReader.read7BitLoop k n b result r).1 = (AMFReader.read7BitLoop k n b result r').1
    ∧ (AMFReader.read7BitLoop k n b result r).2.1 = (AMFReader.read7BitLoop k n b result r').2.1
    ∧ (AMFReader.read7BitLoop k n b result r).2.2.1
        = (AMFReader.read7BitLoop k n b result r').2.2.1
    ∧ (AMFReader.read7BitLoop k n b result r).2.2.2.position
        = (AMFReader.read7BitLoop k n b result r').2.2.2.position := by
  induction k with
  | zero => intro n b result r r' _ hp; exact ⟨rfl, rfl, rfl, hp⟩
  | succ k ih =>
    intro n b result r r' hd hp
    by_cases h : b / 128 % 2 = 1 ∧ n < 3
    · have e1 : r.peek = r'.peek := by simp only [AMFReader.peek, hd, hp]
      have e2 : (r.next 1).position = (r'.next 1).position := by
        simp only [AMFReader.next, AMFReader.available, hd, hp]
      rw [read7BitLoop_step _ _ _ _ _ h, read7BitLoop_step _ _ _ _ _ h]
      simp only [read8_fst, read8_snd, e1]
      exact ih _ _ _ _ _ (by simpa using hd) e2
    · rw [read7BitLoop_stop _ _ _ _ _ h, read7BitLoop_stop _ _ _ _ _ h]
      exact ⟨rfl, rfl, rfl, hp⟩

section
variable (data : List Nat) (p a : Nat) (g : Bool) (S C R A : List Nat) (L : List Log)

theorem next_at (n : Nat) :
    (AMFReader.mk data p a g S C R A L).next n = AMFReader.mk data (nextAt data p n) a g S C R A L :=
  rfl

theorem read16_at :
    (AMFReader.mk data p a g S C R A L).read16
      = ((read16At data p).1, AMFReader.mk data (read16At data p).2 a g S C R A L) := by
  have h := readBE_packet 2 0 (AMFReader.mk data p a g S C R A L) (AMFReader.bare data p) rfl rfl
  have e := readBE_eq 2 0 (AMFReader.mk data p a g S C R A L)
  apply Prod.ext
  · exact h.1
  · simp only [AMFReader.read16, read16At]
    rw [e]
    simp only [AMFReader.mk.injEq, and_self, and_true, true_and]
    exact h.2

theorem read7BitValue_at :
    (AMFReader.mk data p a g S C R A L).read7BitValue
      = ((read7BitValueAt data p).1,
         AMFReader.mk data (read7BitValueAt data p).2 a g S C R A L) := by
  have h := read7BitLoop_packet 3 0 (AMFReader.mk data p a g S C R A L).peek 0
    ((AMFReader.mk data p a g S C R A L).next 1) ((AMFReader.bare data p).next 1) rfl rfl
  have e := read7BitValue_eq (AMFReader.mk data p a g S C R A L)
  have hpk : (AMFReader.mk data p a g S C R A L).peek = (AMFReader.bare data p).peek := rfl
  apply Prod.ext
  · simp only [AMFReader.read7BitValue, read7BitValueAt, read8_fst, read8_snd]
    rw [hpk] at h
    rw [hpk, h.1, h.2.1, h.2.2.1]
  · rw [e]
    simp only [AMFReader.mk.injEq, and_self, and_true, true_and]
    simp only [AMFReader.read7BitValue, read7BitValueAt, read8_fst, read8_snd]
    rw [hpk] at h ⊢
    exact h.2.2.2
end

/-- The skip of a probed AMF3 back-reference, for `writeOne` in any mode `a`. -/
theorem writeOne_probed_amf3 (env : Env) (rn : ReadNext) (fuel : Nat) (w : Sink) (r : AMFReader)
    (out : List Event) (t : Kind) (ht : t ∈ [BYTES, MAP, DATE, ARRAY, OBJECT])
    (hmode : t ∈ [DATE, ARRAY, OBJECT] → r.amf3 ≠ 0)
    (href : (r.next 1).read7BitValue.1 % 2 = 0)
    (hprobe : w.probe out (2 * ((r.next 1).read7BitValue.1 / 2 + 1) + 1) = true) :
    writeOne env rn fuel w t r out = some (true, (r.next 1).read7BitValue.2, out) := by
  have h1 : ¬ (r.next 1).read7BitValue.1 % 2 = 1 := by omega
  simp only [List.mem_cons, List.mem_singleton, List.not_mem_nil, or_false] at ht hmode
  rcases ht with rfl | rfl | rfl | rfl | rfl
  · simp only [writeOne, writeBytes, if_neg h1, hprobe, if_true]
  · simp only [writeOne, writeMap, ne_eq, h1, not_false_eq_true, if_true, hprobe]
  · have hm := hmode (Or.inl rfl)
    simp only [writeOne, writeDate, next_amf3, ne_eq, hm, not_false_eq_true, if_true, if_neg h1,
      hprobe]
  · have hm := hmode (Or.inr (Or.inl rfl))
    simp only [writeOne, writeArray, if_neg hm, writeArrayAMF3, ne_eq, h1, not_false_eq_true,
      if_true, hprobe]
  · have hm := hmode (Or.inr (Or.inr rfl))
    simp only [writeOne, writeObject, if_neg hm, writeObjectAMF3, ne_eq, h1, not_false_eq_true,
      if_true, hprobe]

/-- C6 (source lines 173-181, 248, 277, 309, 414, 516). When the sink's probe answers
true for the id of a back-reference, `readOne` returns true, calls nothing on the sink,
and only moves the cursor to just after the reference header (the mode follows
`readOne`); the tables, the capture flag and the log are unchanged.  This holds for AMF3
byte arrays and maps, for AMF3 dates, arrays and objects, and for the AMF0 reference,
which probes the sink when its index is within the legacy table (lines 176-179 return
before any probe otherwise). -/
theorem C6_probed_reference_is_skipped (env : Env) (fuel : Nat) (w : Sink) (r : AMFReader)
    (out : List Event) :
    (∀ t ∈ [BYTES, MAP, DATE, ARRAY, OBJECT],
      (t ∈ [DATE, ARRAY, OBJECT] → r.amf3 ≠ 0) →
      (r.next 1).read7BitValue.1 % 2 = 0 →
      w.probe out (2 * ((r.next 1).read7BitValue.1 / 2 + 1) + 1) = true →
      readOne env fuel w t r out
        = some (true, r.movedTo (r.next 1).read7BitValue.2.position, out))
    ∧ ((r.next 1).read16.1 < r.amf0References.length →
      w.probe out (((r.next 1).read16.1 + 1) * 2) = true →
      readOne env fuel w AMF0_REF r out
        = some (true, r.movedTo (r.next 1).read16.2.position, out)) := by
  obtain ⟨data, p, a, g, S, C, R, A, L⟩ := r
  simp only [next_at, read7BitValue_at, read16_at, AMFReader.movedTo]
  constructor
  · intro t ht hmode href hprobe
    rw [readOne_eq]
    by_cases h1 : a = 1
    · subst h1
      simp only [if_true]
      rw [writeOne_probed_amf3 env _ fuel w _ out t ht (fun _ => by simp)
          (by simpa only [next_at, read7BitValue_at] using href)
          (by simpa only [next_at, read7BitValue_at] using hprobe)]
      simp only [next_at, read7BitValue_at, Option.map_some']
    · simp only [if_neg h1]
      rw [writeOne_probed_amf3 env _ fuel w _ out t ht hmode
          (by simpa only [next_at, read7BitValue_at] using href)
          (by simpa only [next_at, read7BitValue_at] using hprobe)]
      simp only [next_at, read7BitValue_at]
  · intro hin hprobe
    have hlt : ¬ (read16At data (nextAt data p 1)).1 ≥ A.length := by omega
    rw [readOne_eq]
    by_cases h1 : a = 1
    · subst h1
      simp only [if_true, writeOne, writeAMF0Ref, next_at, read16_at, if_neg hlt, hprobe,
        Option.map_some']
    · simp only [if_neg h1, writeOne, writeAMF0Ref, next_at, read16_at, if_neg hlt, hprobe,
        if_true]

/-- C6 on an AMF3 array back-reference `09 00` and on the AMF0 reference `07 00 00`
to a registered entry, with a sink that knows every reference. -/
theorem C6_probed_reference_is_skipped_witness :
    readOne plainEnv 0 knowingSink ARRAY (AMFReader.start [9, 0] 1) []
      = some (true, ⟨[9, 0], 2, 0, true, [], [], [], [], []⟩, [])
    ∧ readOne plainEnv 0 knowingSink AMF0_REF ⟨[7, 0, 0], 0, 0, true, [], [], [], [0], []⟩ []
      = some (true, ⟨[7, 0, 0], 3, 0, true, [], [], [], [0], []⟩, []) :=
  ⟨(C6_probed_reference_is_skipped plainEnv 0 knowingSink (AMFReader.start [9, 0] 1) []).1
      ARRAY (by simp) (fun _ => by decide) (by decide) (by decide),
   (C6_probed_reference_is_skipped plainEnv 0 knowingSink
      ⟨[7, 0, 0], 0, 0, true, [], [], [], [0], []⟩ []).2 (by decide) (by decide)⟩

theorem poison_eq (r : AMFReader) (l : Log) (h : r.available ≠ 0) :
    (r.log l).next r.available = r.poisoned l := by
  obtain ⟨data, p, a, g, S, C, R, A, L⟩ := r
  simp only [AMFReader.available] at h
  simp only [AMFReader.log, AMFReader.next, AMFReader.available, AMFReader.poisoned,
    Nat.lt_irrefl, gt_iff_lt, if_false]
  congr 1
  omega

theorem poisoned_available (r : AMFReader) (l : Log) : (r.poisoned l).available = 0 := by
  simp [AMFReader.poisoned, AMFReader.available]

theorem followingType_of_exhausted (r : AMFReader) (h : r.available = 0) :
    followingType r = (END, r) := by
  simp only [followingType, h, if_true]

theorem readNext_of_exhausted (env : Env) (fuel : Nat) (w : Sink) (r : AMFReader)
    (out : List Event) (h : r.available = 0) :
    readNext env (fuel + 1) w r out = some (false, r, out) := by
  simp only [readNext, followingType_of_exhausted r h, if_true]

/-- C8, amended (source lines 78-152). When the byte under the cursor has no `case` in
the switch of the current mode, `followingType` returns `END`, logs exactly one error and
leaves the cursor at the end of the buffer, with nothing available; from that state,
that is as long as the cursor stays there, and from any exhausted state, `followingType`
returns `END` and changes nothing, and `readNext` returns false without a call on the
sink. -/
theorem C8_unknown_marker_poisons (env : Env) (fuel : Nat) (w : Sink) (r : AMFReader)
    (out : List Event) :
    (r.available ≠ 0 → r.amf3 ≠ 0 → r.peek ∉ amf3Markers →
      followingType r = (END, r.poisoned (Log.error (Msg.unknownAMF3Type r.peek))))
    ∧ (r.available ≠ 0 → r.amf3 = 0 → r.peek ∉ amf0Markers →
      followingType r = (END, r.poisoned (Log.error (Msg.unknownAMF0Type r.peek))))
    ∧ (∀ l : Log, (r.poisoned l).available = 0
        ∧ followingType (r.poisoned l) = (END, r.poisoned l)
        ∧ readNext env (fuel + 1) w (r.poisoned l) out = some (false, r.poisoned l, out))
    ∧ (r.available = 0 →
        followingType r = (END, r) ∧ readNext env (fuel + 1) w r out = some (false, r, out)) := by
  refine ⟨?_, ?_, ?_, ?_⟩
  · intro hav hmode hmark
    simp only [amf3Markers, List.mem_cons, List.mem_singleton, List.not_mem_nil, or_false,
      not_or] at hmark
    simp only [followingType, if_neg hav, ne_eq, hmode, not_false_eq_true, if_true,
      followingTypeAMF3, hmark, false_or, if_false, poison_eq r _ hav]
  · intro hav hmode hmark
    simp only [amf0Markers, List.mem_cons, List.mem_singleton, List.not_mem_nil, or_false,
      not_or] at hmark
    simp only [followingType, if_neg hav, ne_eq, hmode, not_true_eq_false, if_false,
      followingTypeAMF0, hmark, false_or, or_self, poison_eq r _ hav]
  · intro l
    exact ⟨poisoned_available r l, followingType_of_exhausted _ (poisoned_available r l),
      readNext_of_exhausted env fuel w _ out (poisoned_available r l)⟩
  · intro h
    exact ⟨followingType_of_exhausted r h, readNext_of_exhausted env fuel w r out h⟩

/-- C8 on the buffers `FF 05` in AMF0 mode and `07 01` in AMF3 mode. -/
theorem C8_unknown_marker_poisons_witness :
    followingType (AMFReader.start [0xFF, 5] 0)
      = (END, ⟨[0xFF, 5], 2, 0, true, [], [], [], [], [Log.error (Msg.unknownAMF0Type 0xFF)]⟩)
    ∧ followingType (AMFReader.start [7, 1] 2)
      = (END, ⟨[7, 1], 2, 2, true, [], [], [], [], [Log.error (Msg.unknownAMF3Type 7)]⟩) :=
  ⟨(C8_unknown_marker_poisons plainEnv 0 plainSink (AMFReader.start [0xFF, 5] 0) []).2.1
      (by decide) (by decide) (by decide),
   (C8_unknown_marker_poisons plainEnv 0 plainSink (AMFReader.start [7, 1] 2) []).1
      (by decide) (by decide) (by decide)⟩

/-- C8 as stated fails: a later `followingType` call on the same buffer may return a kind.
On `08 00 00 00 02 02 00 01 'a' FF` (a mixed array that announces two elements: the
string "a", then the unknown marker `FF`), `followingType` at position 9 returns `END`,
logs one error and leaves nothing available; this happens while the elements are
skipped.  The array then rewinds to its elements (source line 399): the next
`followingType` call, at position 5 of the same buffer, returns `STRING`, and the sink
receives `writeString("a")` after the unknown marker was met. -/
theorem C8_counterexample_classified_again_after_rewind :
    followingType ⟨[8, 0, 0, 0, 2, 2, 0, 1, 97, 0xFF], 9, 0, true, [], [], [], [1], []⟩
      = (END, ⟨[8, 0, 0, 0, 2, 2, 0, 1, 97, 0xFF], 10, 0, true, [], [], [], [1],
          [Log.error (Msg.unknownAMF0Type 0xFF)]⟩)
    ∧ skipElements plainEnv (readNext plainEnv 2) 2
        ⟨[8, 0, 0, 0, 2, 2, 0, 1, 97, 0xFF], 5, 0, true, [], [], [], [1], []⟩
      = some ⟨[8, 0, 0, 0, 2, 2, 0, 1, 97, 0xFF], 10, 0, true, [], [], [], [1],
          [Log.error (Msg.unknownAMF0Type 0xFF)]⟩
    ∧ followingType ⟨[8, 0, 0, 0, 2, 2, 0, 1, 97, 0xFF], 5, 0, true, [], [], [], [1],
          [Log.error (Msg.unknownAMF0Type 0xFF), Log.error Msg.mixedArrayEndMarkerAbsent]⟩
      = (STRING, ⟨[8, 0, 0, 0, 2, 2, 0, 1, 97, 0xFF], 5, 0, true, [], [], [], [1],
          [Log.error (Msg.unknownAMF0Type 0xFF), Log.error Msg.mixedArrayEndMarkerAbsent]⟩)
    ∧ readOne plainEnv 2 plainSink ARRAY
        (AMFReader.start [8, 0, 0, 0, 2, 2, 0, 1, 97, 0xFF] 0) []
      = some (true,
          ⟨[8, 0, 0, 0, 2, 2, 0, 1, 97, 0xFF], 10, 0, true, [], [], [], [1],
            [Log.error (Msg.unknownAMF0Type 0xFF), Log.error Msg.mixedArrayEndMarkerAbsent,
             Log.error (Msg.unknownAMF0Type 0xFF)]⟩,
          [Event.beginObjectArray 2 2, Event.endObject, Event.writeString [97] 1,
           Event.writeNull, Event.endArray]) := by
  decide

/-- An out-of-range back-reference to the object table, with a sink that does not know
the reference: `writeOne` logs an error, returns false and calls nothing on the sink. -/
theorem writeOne_reference_not_found_amf3 (env : Env) (rn : ReadNext) (fuel : Nat) (w : Sink)
    (r : AMFReader) (out : List Event) (t : Kind) (ht : t ∈ [BYTES, MAP, DATE, ARRAY, OBJECT])
    (hmode : t ∈ [DATE, ARRAY, OBJECT] → r.amf3 ≠ 0)
    (href : (r.next 1).read7BitValue.1 % 2 = 0)
    (hprobe : w.probe out (2 * ((r.next 1).read7BitValue.1 / 2 + 1) + 1) = false)
    (hrange : r.references.length ≤ (r.next 1).read7BitValue.1 / 2) :
    ∃ m : Msg,
      writeOne env rn fuel w t r out
        = some (false, (r.next 1).read7BitValue.2.log (Log.error m), out) := by
  have h1 : ¬ (r.next 1).read7BitValue.1 % 2 = 1 := by omega
  simp only [List.mem_cons, List.mem_singleton, List.not_mem_nil, or_false] at ht hmode
  rcases ht with rfl | rfl | rfl | rfl | rfl
  · exact ⟨Msg.amf3ReferenceNotFound, by
      simp [writeOne, writeBytes, if_neg h1, hprobe, hrange]⟩
  · exact ⟨Msg.mapReferenceNotFound, by
      simp [writeOne, writeMap, h1, hprobe, hrange]⟩
  · have hm := hmode (Or.inl rfl)
    exact ⟨Msg.amf3ReferenceNotFound, by
      simp [writeOne, writeDate, hm, h1, hprobe, hrange]⟩
  · have hm := hmode (Or.inr (Or.inl rfl))
    exact ⟨Msg.arrayReferenceNotFound, by
      simp [writeOne, writeArray, hm, writeArrayAMF3, h1, hprobe, hrange]⟩
  · have hm := hmode (Or.inr (Or.inr rfl))
    exact ⟨Msg.objectReferenceNotFound, by
      simp [writeOne, writeObject, hm, writeObjectAMF3, h1, hprobe, hrange]⟩

/-- The part of C9 that holds (source lines 65-68, 176-179, 249-252, 278-281, 311-314,
416-419, 518-521): an out-of-range back-reference of an AMF3 string value, of an AMF3
byte array, map, date, array or object, or of the AMF0 reference opcode, with a sink
that does not know the reference, makes `readOne` return false with one more error in
the log and no call on the sink. -/
theorem reference_not_found_fails (env : Env) (fuel : Nat) (w : Sink) (r : AMFReader)
    (out : List Event) :
    (r.amf3 ≠ 0 → r.peek ≠ AMF_LONG_STRING →
      (r.next 1).read7BitValue.1 % 2 = 0 →
      r.stringReferences.length ≤ (r.next 1).read7BitValue.1 / 2 →
      ∃ r1, readOne env fuel w STRING r out = some (false, r1, out)
        ∧ r1.logs = r.logs ++ [Log.error Msg.stringReferenceNotFound])
    ∧ (∀ t ∈ [BYTES, MAP, DATE, ARRAY, OBJECT],
      (t ∈ [DATE, ARRAY, OBJECT] → r.amf3 ≠ 0) →
      (r.next 1).read7BitValue.1 % 2 = 0 →
      w.probe out (2 * ((r.next 1).read7BitValue.1 / 2 + 1) + 1) = false →
      r.references.length ≤ (r.next 1).read7BitValue.1 / 2 →
      ∃ r1 m, readOne env fuel w t r out = some (false, r1, out)
        ∧ r1.logs = r.logs ++ [Log.error m])
    ∧ (r.amf0References.length ≤ (r.next 1).read16.1 →
      ∃ r1, readOne env fuel w AMF0_REF r out = some (false, r1, out)
        ∧ r1.logs = r.logs ++ [Log.error Msg.amf0ReferenceNotFound]) := by
  obtain ⟨data, p, a, g, S, C, R, A, L⟩ := r
  refine ⟨?_, ?_, ?_⟩
  · intro hmode hmark href hrange
    have h1 : ¬ (read7BitValueAt data (nextAt data p 1)).1 % 2 = 1 := by
      simp only [next_at, read7BitValue_at] at href; omega
    simp only [next_at, read7BitValue_at] at hrange
    have hge : (read7BitValueAt data (nextAt data p 1)).1 / 2 ≥ S.length := hrange
    have key : ∀ a' : Nat, a' ≠ 0 →
        writeOne env (readNext env fuel) fuel w STRING (AMFReader.mk data p a' g S C R A L) out
          = some (false, AMFReader.mk data (read7BitValueAt data (nextAt data p 1)).2 a' g S C R A
              (L ++ [Log.error Msg.stringReferenceNotFound]), out) := by
      intro a' ha'
      have hpk : (AMFReader.mk data p a' g S C R A L).peek ≠ AMF_LONG_STRING := hmark
      simp only [writeOne, writeString, read8_fst, read8_snd, if_neg hpk, readText, next_at,
        if_neg ha', read7BitValue_at, if_neg h1, if_pos hge, AMFReader.log]
    rw [readOne_eq]
    by_cases ha1 : a = 1
    · subst ha1
      simp only [if_true, key 2 (by decide), Option.map_some']
      exact ⟨_, rfl, rfl⟩
    · simp only [if_neg ha1, key a hmode]
      exact ⟨_, rfl, rfl⟩
  · intro t ht hmode href hprobe hrange
    rw [readOne_eq]
    by_cases ha1 : a = 1
    · subst ha1
      obtain ⟨m, hm⟩ := writeOne_reference_not_found_amf3 env (readNext env fuel) fuel w
        (AMFReader.mk data p 2 g S C R A L) out t ht (fun _ => by simp)
        (by simpa only [next_at, read7BitValue_at] using href)
        (by simpa only [next_at, read7BitValue_at] using hprobe)
        (by simpa only [next_at, read7BitValue_at] using hrange)
      simp only [if_true, hm, Option.map_some']
      refine ⟨_, m, rfl, ?_⟩
      simp only [next_at, read7BitValue_at, AMFReader.log]
    · obtain ⟨m, hm⟩ := writeOne_reference_not_found_amf3 env (readNext env fuel) fuel w
        (AMFReader.mk data p a g S C R A L) out t ht hmode href hprobe hrange
      simp only [if_neg ha1, hm]
      refine ⟨_, m, rfl, ?_⟩
      simp only [next_at, read7BitValue_at, AMFReader.log]
  · intro hrange
    simp only [next_at, read16_at] at hrange
    have hge : (read16At data (nextAt data p 1)).1 ≥ A.length := hrange
    rw [readOne_eq]
    by_cases ha1 : a = 1
    · subst ha1
      simp only [if_true, writeOne, writeAMF0Ref, next_at, read16_at, if_pos hge,
        Option.map_some', AMFReader.log]
      exact ⟨_, rfl, rfl⟩
    · simp only [if_neg ha1, writeOne, writeAMF0Ref, next_at, read16_at, if_pos hge,
        AMFReader.log]
      exact ⟨_, rfl, rfl⟩

/-- C9 fails for the trait selector (source lines 543-550): on the AMF3 object `0A 01`
(inline object, trait back-reference to index 0) followed by `01`, with an empty
class-def table and a sink that knows no reference, the error is logged but the
decoding goes on: `beginObject` and `endObject` are called and `readOne` returns
true. -/
theorem C9_classdef_reference_not_found_goes_on :
    readOne plainEnv 1 plainSink OBJECT (AMFReader.start [0x0A, 1, 1] 2) []
      = some (true,
          ⟨[0x0A, 1, 1], 3, 2, true, [], [], [2], [],
            [Log.error Msg.classDefReferenceNotFound]⟩,
          [Event.beginObject 3 none, Event.endObject]) := by
  decide

/-- An unknown marker: `followingType` returns `END`, logs one error and moves the
cursor to the end of the buffer. -/
theorem followingType_unknown_marker (r : AMFReader) :
    (r.available ≠ 0 → r.amf3 ≠ 0 → r.peek ∉ amf3Markers →
      followingType r = (END, r.poisoned (Log.error (Msg.unknownAMF3Type r.peek))))
    ∧ (r.available ≠ 0 → r.amf3 = 0 → r.peek ∉ amf0Markers →
      followingType r = (END, r.poisoned (Log.error (Msg.unknownAMF0Type r.peek)))) := by
  refine ⟨?_, ?_⟩
  · intro hav hmode hmark
    simp only [amf3Markers, List.mem_cons, List.mem_singleton, List.not_mem_nil, or_false,
      not_or] at hmark
    simp only [followingType, if_neg hav, ne_eq, hmode, not_false_eq_true, if_true,
      followingTypeAMF3, hmark, false_or, if_false, poison_eq r _ hav]
  · intro hav hmode hmark
    simp only [amf0Markers, List.mem_cons, List.mem_singleton, List.not_mem_nil, or_false,
      not_or] at hmark
    simp only [followingType, if_neg hav, ne_eq, hmode, not_true_eq_false, if_false,
      followingTypeAMF0, hmark, false_or, or_self, poison_eq r _ hav]

/-- C10, amended (source lines 109-111 and 139-151). On a fatal marker `followingType`
returns `END`, logs one line and leaves the cursor at the end of the buffer; in every
later state of the pass over the same buffer whose cursor is still at the end,
whatever else changed, `followingType` returns `END` and changes nothing, and
`readNext` returns false without a call on the sink. -/
theorem C10_poison_holds_until_reset (env : Env) (fuel : Nat) (w : Sink) (r : AMFReader)
    (out : List Event) (hfatal : fatalMarker r) :
    ∃ l : Log,
      followingType r = (END, r.poisoned l)
      ∧ (r.poisoned l).position = r.data.length
      ∧ ∀ s : AMFReader, s.data = r.data → s.position = r.data.length →
          followingType s = (END, s)
          ∧ readNext env (fuel + 1) w s out = some (false, s, out) := by
  obtain ⟨hav, hcase⟩ := hfatal
  have later : ∀ s : AMFReader, s.data = r.data → s.position = r.data.length →
      followingType s = (END, s)
      ∧ readNext env (fuel + 1) w s out = some (false, s, out) := by
    intro s hd hp
    have h0 : s.available = 0 := by simp [AMFReader.available, hd, hp]
    exact ⟨followingType_of_exhausted s h0, readNext_of_exhausted env fuel w s out h0⟩
  rcases hcase with ⟨hmode, hmark⟩ | ⟨hmode, hmark⟩
  · exact ⟨_, (followingType_unknown_marker r).1 hav hmode hmark, rfl, later⟩
  · rcases hmark with hm | hm | hm
    · refine ⟨Log.error Msg.endObjectWithoutBegin, ?_, rfl, later⟩
      simp only [followingType, if_neg hav, ne_eq, hmode, not_true_eq_false, if_false,
        followingTypeAMF0, hm, poison_eq r _ hav]
      simp [AMF_END_OBJECT, AMF_AVMPLUS_OBJECT, AMF_UNDEFINED, AMF_NULL, AMF_BOOLEAN, AMF_NUMBER,
        AMF_LONG_STRING, AMF_STRING, AMF_MIXED_ARRAY, AMF_STRICT_ARRAY, AMF_DATE,
        AMF_BEGIN_OBJECT, AMF_BEGIN_TYPED_OBJECT, AMF_REFERENCE]
    · refine ⟨Log.warn Msg.unsupportedAMF0Type, ?_, rfl, later⟩
      simp only [followingType, if_neg hav, ne_eq, hmode, not_true_eq_false, if_false,
        followingTypeAMF0, hm, poison_eq r _ hav]
      simp [AMF_END_OBJECT, AMF_AVMPLUS_OBJECT, AMF_UNDEFINED, AMF_NULL, AMF_BOOLEAN, AMF_NUMBER,
        AMF_LONG_STRING, AMF_STRING, AMF_MIXED_ARRAY, AMF_STRICT_ARRAY, AMF_DATE,
        AMF_BEGIN_OBJECT, AMF_BEGIN_TYPED_OBJECT, AMF_REFERENCE, AMF_UNSUPPORTED]
    · exact ⟨_, (followingType_unknown_marker r).2 hav hmode hm, rfl, later⟩

/-- C10 on the buffer `FF 05` in AMF0 mode. -/
theorem C10_poison_holds_until_reset_witness :
    ∃ l : Log,
      followingType (AMFReader.start [0xFF, 5] 0) = (END, (AMFReader.start [0xFF, 5] 0).poisoned l)
      ∧ ((AMFReader.start [0xFF, 5] 0).poisoned l).position = 2
      ∧ ∀ s : AMFReader, s.data = [0xFF, 5] → s.position = 2 →
          followingType s = (END, s)
          ∧ readNext plainEnv 1 plainSink s [] = some (false, s, []) :=
  C10_poison_holds_until_reset plainEnv 0 plainSink (AMFReader.start [0xFF, 5] 0) []
    ⟨by decide, Or.inr ⟨by decide, Or.inr (Or.inr (by decide))⟩⟩

/-- C10 as stated fails inside an AMF0 mixed array.  On `08 00 00 00 02 01 01 FF` (two
elements announced: a boolean, then an unknown marker) the skip of the elements meets
the unknown marker and `followingType` poisons the cursor (position 8, one error
logged); the array then rewinds to its elements (source line 399), where
`followingType` classifies the byte `01` as `BOOLEAN`, and the sink receives
`writeBoolean(true)` after the poison. -/
theorem C10_counterexample_mixed_array_rewind :
    skipElements plainEnv (readNext plainEnv 2) 2
        ⟨[8, 0, 0, 0, 2, 1, 1, 0xFF], 5, 0, true, [], [], [], [1], []⟩
      = some ⟨[8, 0, 0, 0, 2, 1, 1, 0xFF], 8, 0, true, [], [], [], [1],
          [Log.error (Msg.unknownAMF0Type 0xFF)]⟩
    ∧ (followingType ⟨[8, 0, 0, 0, 2, 1, 1, 0xFF], 5, 0, true, [], [], [], [1],
          [Log.error (Msg.unknownAMF0Type 0xFF), Log.error Msg.mixedArrayEndMarkerAbsent]⟩).1
        = BOOLEAN
    ∧ readOne plainEnv 2 plainSink ARRAY (AMFReader.start [8, 0, 0, 0, 2, 1, 1, 0xFF] 0) []
      = some (true,
          ⟨[8, 0, 0, 0, 2, 1, 1, 0xFF], 8, 0, true, [], [], [], [1],
            [Log.error (Msg.unknownAMF0Type 0xFF), Log.error Msg.mixedArrayEndMarkerAbsent,
             Log.error (Msg.unknownAMF0Type 0xFF)]⟩,
          [Event.beginObjectArray 2 2, Event.endObject, Event.writeBoolean true,
           Event.writeNull, Event.endArray]) := by
  decide

/-! ## The mode during a nested decoding -/

@[simp] theorem readBE_amf3 (n acc : Nat) (r : AMFReader) :
    (AMFReader.readBE n acc r).2.amf3 = r.amf3 := by
  rw [readBE_eq]

@[simp] theorem read16_amf3 (r : AMFReader) : r.read16.2.amf3 = r.amf3 := readBE_amf3 2 0 r
@[simp] theorem read32_amf3 (r : AMFReader) : r.read32.2.amf3 = r.amf3 := readBE_amf3 4 0 r
@[simp] theorem readNumber_amf3 (r : AMFReader) : r.readNumber.2.amf3 = r.amf3 :=
  readBE_amf3 8 0 r

theorem readText_amf3 (r : AMFReader) (nullIfEmpty : Bool) :
    (readText r nullIfEmpty).2.2.amf3 = r.amf3 := by
  simp only [readText]
  split_ifs <;>
    simp only [next_amf3, reset_amf3, log_amf3, read16_amf3, read7BitValue_amf3]

theorem followingTypeAMF3_amf3 (type : Nat) (r : AMFReader) :
    (followingTypeAMF3 type r).2.amf3 = r.amf3 := by
  unfold followingTypeAMF3
  split_ifs <;> rfl

theorem followingType_amf3 (r : AMFReader) (h : r.amf3 ≠ 0) :
    (followingType r).2.amf3 = r.amf3 := by
  unfold followingType
  split_ifs
  · rfl
  · exact followingTypeAMF3_amf3 _ _


section
variable {rn : ReadNext} (hk : KeepsMode rn)
include hk

theorem readElements_mode (w : Sink) : ∀ (n : Nat) (r : AMFReader) (out : List Event)
    (x : AMFReader × List Event),
    2 ≤ r.amf3 → readElements rn w n r out = some x → x.1.amf3 = r.amf3 := by
  intro n
  induction n with
  | zero =>
    intro r out x _ h
    simp only [readElements, Option.some.injEq] at h
    subst h
    rfl
  | succ n ih =>
    intro r out x hm h
    cases hrn : rn w r out with
    | none => simp only [readElements, hrn] at h; cases h
    | some y =>
      obtain ⟨b, r1, out1⟩ := y
      simp only [readElements, hrn] at h
      have e : r1.amf3 = r.amf3 := hk w r out _ hm hrn
      rw [ih _ _ _ (by rw [e]; exact hm) h, e]

theorem skipElements_mode (env : Env) : ∀ (n : Nat) (r : AMFReader) (x : AMFReader),
    2 ≤ r.amf3 → skipElements env rn n r = some x → x.amf3 = r.amf3 := by
  intro n
  induction n with
  | zero =>
    intro r x _ h
    simp only [skipElements, Option.some.injEq] at h
    subst h
    rfl
  | succ n ih =>
    intro r x hm h
    cases hrn : rn env.nullSink r [] with
    | none => simp only [skipElements, nextValue, hrn] at h; cases h
    | some y =>
      obtain ⟨b, r1, out1⟩ := y
      simp only [skipElements, nextValue, hrn] at h
      have e : r1.amf3 = r.amf3 := hk _ r _ _ hm hrn
      rw [ih _ _ (by rw [e]; exact hm) h, e]

theorem readProperties_mode (w : Sink) : ∀ (fuel : Nat) (r : AMFReader) (out : List Event)
    (x : AMFReader × List Event),
    2 ≤ r.amf3 → readProperties rn w fuel r out = some x → x.1.amf3 = r.amf3 := by
  intro fuel
  induction fuel with
  | zero => intro r out x _ h; simp only [readProperties] at h; cases h
  | succ fuel ih =>
    intro r out x hm h
    have et := readText_amf3 r true
    cases ht : (readText r true).1 with
    | none =>
      simp only [readProperties, ht, Option.some.injEq] at h
      subst h
      exact et
    | some value =>
      simp only [readProperties, ht] at h
      split_ifs at h with hav
      · simp only [Option.some.injEq] at h
        subst h
        exact et
      · cases hrn : rn w (readText r true).2.2
            (out ++ [Event.writePropertyName
              (cstr ((readText r true).2.2.text value (readText r true).2.1))]) with
        | none => simp only [hrn] at h; cases h
        | some y =>
          obtain ⟨b, r1, out1⟩ := y
          simp only [hrn] at h
          have e : r1.amf3 = (readText r true).2.2.amf3 :=
            hk _ _ _ _ (by rw [et]; exact hm) hrn
          rw [ih _ _ _ (by rw [e, et]; exact hm) h, e, et]

theorem readArrayProperties_mode (w : Sink) (reference size : Nat) :
    ∀ (fuel : Nat) (started : Bool) (r : AMFReader) (out : List Event)
    (x : Bool × AMFReader × List Event),
    2 ≤ r.amf3 → readArrayProperties rn w reference size fuel started r out = some x →
    x.2.1.amf3 = r.amf3 := by
  intro fuel
  induction fuel with
  | zero => intro started r out x _ h; simp only [readArrayProperties] at h; cases h
  | succ fuel ih =>
    intro started r out x hm h
    have et := readText_amf3 r true
    cases ht : (readText r true).1 with
    | none =>
      simp only [readArrayProperties, ht, Option.some.injEq] at h
      subst h
      exact et
    | some value =>
      simp only [readArrayProperties, ht] at h
      split_ifs at h with hav
      · simp only [Option.some.injEq] at h
        subst h
        exact et
      all_goals
        split at h
        · cases h
        · rename_i written r2 out2 hrn
          have e : r2.amf3 = (readText r true).2.2.amf3 :=
            hk _ _ _ _ (by rw [et]; exact hm) hrn
          rw [ih _ _ _ _ (by rw [e, et]; exact hm) h, e, et]
end

section
variable {rn : ReadNext} (hk : KeepsMode rn)
include hk

theorem readMembers_mode (w : Sink) : ∀ (fuel reset flags : Nat) (r : AMFReader)
    (out : List Event) (x : Nat × AMFReader × List Event),
    2 ≤ r.amf3 → readMembers rn w fuel reset flags r out = some x → x.2.1.amf3 = r.amf3 := by
  intro fuel
  induction fuel with
  | zero => intro reset flags r out x _ h; simp only [readMembers] at h; cases h
  | succ fuel ih =>
    intro reset flags r out x hm h
    have et := readText_amf3 r true
    cases ht : (readText r true).1 with
    | none =>
      simp only [readMembers, ht, Option.some.injEq] at h
      subst h
      exact et
    | some value =>
      simp only [readMembers, ht] at h
      by_cases hav : (readText r true).2.2.available = 0
      · simp only [hav, if_true, Option.some.injEq] at h
        subst h
        exact et
      · simp only [hav, if_false] at h
        split at h
        · cases h
        · rename_i written r2 out2 hrn
          have e : r2.amf3 = r.amf3 := by
            have := hk _ _ _ _ (by split_ifs <;> simp only [reset_amf3, et] <;> exact hm) hrn
            rw [this]
            split_ifs <;> simp only [reset_amf3, et]
          split_ifs at h
          all_goals
            rw [ih _ _ _ _ _ (by simp only [reset_amf3, e]; exact hm) h]
            simp only [reset_amf3, e]

theorem readMapEntries_mode (env : Env) (w : Sink) (ex : Bool) :
    ∀ (n : Nat) (r : AMFReader) (out : List Event) (x : AMFReader × List Event),
    2 ≤ r.amf3 → readMapEntries env rn w ex n r out = some x → x.1.amf3 = r.amf3 := by
  intro n
  induction n with
  | zero =>
    intro r out x _ h
    simp only [readMapEntries, Option.some.injEq] at h
    subst h
    rfl
  | succ n ih =>
    intro r out x hm h
    simp only [readMapEntries] at h
    split_ifs at h
    · split at h
      · cases h
      · rename_i read r1 prop hrn
        have e : r1.amf3 = r.amf3 := hk _ _ _ _ hm hrn
        split_ifs at h
        · split at h
          · cases h
          · rename_i written r2 out2 hrn2
            have e2 : r2.amf3 = r1.amf3 := hk _ _ _ _ (by rw [e]; exact hm) hrn2
            rw [ih _ _ _ (by rw [e2, e]; exact hm) h, e2, e]
        · rw [ih _ _ _ (by rw [e]; exact hm) h, e]
    · split at h
      · cases h
      · rename_i key r1 out1 hrn
        have e : r1.amf3 = r.amf3 := hk _ _ _ _ hm hrn
        split at h
        · cases h
        · rename_i written r2 out2 hrn2
          have e2 : r2.amf3 = r1.amf3 := hk _ _ _ _ (by rw [e]; exact hm) hrn2
          rw [ih _ _ _ (by rw [e2, e]; exact hm) h, e2, e]

theorem writeAMF0Ref_mode (w : Sink) (r : AMFReader) (out : List Event)
    (x : Bool × AMFReader × List Event) (hm : 2 ≤ r.amf3)
    (h : writeAMF0Ref rn w r out = some x) : x.2.1.amf3 = r.amf3 := by
  simp only [writeAMF0Ref] at h
  split_ifs at h
  · cases h; simp only [log_amf3, read16_amf3, next_amf3]
  · cases h; simp only [read16_amf3, next_amf3]
  · split at h
    · cases h
    · rename_i written r4 out1 hrn
      have e : r4.amf3 = r.amf3 := by
        have := hk _ _ _ _ (by simpa using hm) hrn
        simpa using this
      cases h
      simpa using e

theorem writeMapBody_mode (env : Env) (w : Sink) (ex : Bool) (size reset : Nat) (r : AMFReader)
    (out : List Event) (x : Bool × AMFReader × List Event) (hm : 2 ≤ r.amf3)
    (h : writeMapBody env rn w ex size reset r out = some x) : x.2.1.amf3 = r.amf3 := by
  simp only [writeMapBody] at h
  split at h
  · cases h
  · rename_i r2 out1 hl
    have e : r2.amf3 = r.amf3 := by
      have := readMapEntries_mode hk env w ex size _ out _ (by split_ifs <;> simpa using hm) hl
      rw [this]
      split_ifs <;> simp
    cases h
    split_ifs <;> simpa using e

theorem writeMap_mode (env : Env) (w : Sink) (r : AMFReader)
    (out : List Event) (x : Bool × AMFReader × List Event) (hm : 2 ≤ r.amf3)
    (h : writeMap env rn w r out = some x) : x.2.1.amf3 = r.amf3 := by
  simp only [writeMap] at h
  split_ifs at h
  · cases h; simp
  · cases h; simp
  · rw [writeMapBody_mode hk env w _ _ _ _ _ _ (by simpa using hm) h]; simp
  · rw [writeMapBody_mode hk env w _ _ _ _ _ _ (by simpa using hm) h]; simp
  · rw [writeMapBody_mode hk env w _ _ _ _ _ _ (by simpa using hm) h]; simp

theorem writeArrayElements_mode (w : Sink) (size reset : Nat) (r : AMFReader)
    (out : List Event) (x : Bool × AMFReader × List Event) (hm : 2 ≤ r.amf3)
    (h : writeArrayElements rn w size reset r out = some x) : x.2.1.amf3 = r.amf3 := by
  simp only [writeArrayElements] at h
  split at h
  · cases h
  · rename_i r1 out1 hl
    have e : r1.amf3 = r.amf3 := readElements_mode hk w size r out _ hm hl
    cases h
    split_ifs <;> simpa using e
end

theorem writeFlat_mode (env : Env) (rn : ReadNext) (fuel : Nat) (w : Sink) (t : Kind)
    (ht : t ∈ [NIL, BOOLEAN, NUMBER, STRING, DATE, BYTES]) (r : AMFReader) (out : List Event)
    (x : Bool × AMFReader × List Event)
    (h : writeOne env rn fuel w t r out = some x) : x.2.1.amf3 = r.amf3 := by
  simp only [List.mem_cons, List.mem_singleton, List.not_mem_nil, or_false] at ht
  rcases ht with rfl | rfl | rfl | rfl | rfl | rfl
  · simp only [writeOne, writeNil] at h
    cases h; simp
  · simp only [writeOne, writeBoolean] at h
    split_ifs at h <;> (cases h; simp)
  · simp only [writeOne, writeNumber] at h
    split_ifs at h <;> (cases h; simp)
  · simp only [writeOne, writeString] at h
    split_ifs at h
    · cases h; simp
    · have et := readText_amf3 (r.next 1) false
      split at h <;> (cases h; simpa using et)
  · simp only [writeOne, writeDate] at h
    split_ifs at h <;> (cases h; simp)
  · simp only [writeOne, writeBytes] at h
    split_ifs at h <;> (cases h; simp)

section
variable {rn : ReadNext} (hk : KeepsMode rn)
include hk

theorem writeArrayAMF3Body_mode (fuel : Nat) (w : Sink) (reference size reset : Nat)
    (r : AMFReader) (out : List Event) (x : Bool × AMFReader × List Event) (hm : 2 ≤ r.amf3)
    (h : writeArrayAMF3Body rn fuel w reference size reset r out = some x) :
    x.2.1.amf3 = r.amf3 := by
  simp only [writeArrayAMF3Body] at h
  split at h
  · cases h
  · rename_i started r1 out1 hl
    have e : r1.amf3 = r.amf3 := readArrayProperties_mode hk w reference size fuel _ r out _ hm hl
    rw [writeArrayElements_mode hk w size reset r1 _ x (by rw [e]; exact hm) h, e]

theorem writeArrayAMF3_mode (fuel : Nat) (w : Sink) (r : AMFReader) (out : List Event)
    (x : Bool × AMFReader × List Event) (hm : 2 ≤ r.amf3)
    (h : writeArrayAMF3 rn fuel w r out = some x) : x.2.1.amf3 = r.amf3 := by
  simp only [writeArrayAMF3] at h
  split_ifs at h
  · cases h; simp
  · cases h; simp
  · rw [writeArrayAMF3Body_mode hk _ _ _ _ _ _ _ _ (by simpa using hm) h]; simp
  · rw [writeArrayAMF3Body_mode hk _ _ _ _ _ _ _ _ (by simpa using hm) h]; simp
  · rw [writeArrayAMF3Body_mode hk _ _ _ _ _ _ _ _ (by simpa using hm) h]; simp

theorem writeObjectAMF3Body_mode (fuel : Nat) (w : Sink)
    (reference resetObject flags reset : Nat) (text : Option Nat) (size : Nat)
    (stringify : Bool) (r : AMFReader) (out : List Event)
    (x : Bool × AMFReader × List Event) (hm : 2 ≤ r.amf3)
    (h : writeObjectAMF3Body rn fuel w reference resetObject flags reset text size stringify
      r out = some x) : x.2.1.amf3 = r.amf3 := by
  simp only [writeObjectAMF3Body] at h
  by_cases hext : flags % 2 = 1
  · simp only [hext, if_true] at h
    have := hk _ _ _ _ (by split_ifs <;> simpa using hm) h
    rw [this]
    split_ifs <;> simp
  · simp only [hext, if_false] at h
    split at h
    · cases h
    · rename_i reset2 r2 out2 hl
      have e : r2.amf3 = r.amf3 := by
        have := readMembers_mode hk w fuel _ _ _ _ _ (by split_ifs <;> simpa using hm) hl
        rw [this]
        split_ifs <;> simp
      cases h
      split_ifs <;> simpa using e

theorem writeObjectAMF3ClassDef_mode (fuel : Nat) (w : Sink)
    (reference resetObject pos flags0 : Nat) (r : AMFReader) (out : List Event)
    (x : Bool × AMFReader × List Event) (hm : 2 ≤ r.amf3)
    (h : writeObjectAMF3ClassDef rn fuel w reference resetObject pos flags0 r out = some x) :
    x.2.1.amf3 = r.amf3 := by
  simp only [writeObjectAMF3ClassDef] at h
  split_ifs at h
  · rw [writeObjectAMF3Body_mode hk _ _ _ _ _ _ _ _ _ _ _ _
      (by rw [readText_amf3]; exact hm) h, readText_amf3]
  · rw [writeObjectAMF3Body_mode hk _ _ _ _ _ _ _ _ _ _ _ _
      (by rw [readText_amf3]; simpa using hm) h, readText_amf3]
    simp
  · rw [writeObjectAMF3Body_mode hk _ _ _ _ _ _ _ _ _ _ _ _ (by simpa using hm) h]
    simp

theorem writeObjectAMF3_mode (fuel : Nat) (w : Sink) (r : AMFReader) (out : List Event)
    (x : Bool × AMFReader × List Event) (hm : 2 ≤ r.amf3)
    (h : writeObjectAMF3 rn fuel w r out = some x) : x.2.1.amf3 = r.amf3 := by
  simp only [writeObjectAMF3] at h
  split_ifs at h
  · cases h; simp
  · cases h; simp
  · rw [writeObjectAMF3ClassDef_mode hk _ _ _ _ _ _ _ _ _ (by simpa using hm) h]; simp
  · rw [writeObjectAMF3ClassDef_mode hk _ _ _ _ _ _ _ _ _ (by simpa using hm) h]; simp
  · rw [writeObjectAMF3ClassDef_mode hk _ _ _ _ _ _ _ _ _ (by simpa using hm) h]; simp

/-- In AMF3-active mode `writeOne` leaves the mode as it is, whatever the kind, when the
nested `readNext` does. -/
theorem writeOne_mode (env : Env) (fuel : Nat) (w : Sink) (t : Kind) (r : AMFReader)
    (out : List Event) (x : Bool × AMFReader × List Event) (hm : 2 ≤ r.amf3)
    (h : writeOne env rn fuel w t r out = some x) : x.2.1.amf3 = r.amf3 := by
  have hne : r.amf3 ≠ 0 := by omega
  cases t with
  | NIL => exact writeFlat_mode env rn fuel w _ (by simp) r out x h
  | BOOLEAN => exact writeFlat_mode env rn fuel w _ (by simp) r out x h
  | NUMBER => exact writeFlat_mode env rn fuel w _ (by simp) r out x h
  | STRING => exact writeFlat_mode env rn fuel w _ (by simp) r out x h
  | DATE => exact writeFlat_mode env rn fuel w _ (by simp) r out x h
  | BYTES => exact writeFlat_mode env rn fuel w _ (by simp) r out x h
  | AMF0_REF => exact writeAMF0Ref_mode hk w r out x hm h
  | MAP => exact writeMap_mode hk env w r out x hm h
  | ARRAY =>
    simp only [writeOne, writeArray, if_neg hne] at h
    exact writeArrayAMF3_mode hk fuel w r out x hm h
  | OBJECT =>
    simp only [writeOne, writeObject, if_neg hne] at h
    exact writeObjectAMF3_mode hk fuel w r out x hm h
  | END =>
    simp only [writeOne, writeObject, if_neg hne] at h
    exact writeObjectAMF3_mode hk fuel w r out x hm h
end

/-- In AMF3-active mode every nested `readNext` leaves the mode as it is. -/
theorem readNext_keepsMode (env : Env) : ∀ fuel : Nat, KeepsMode (readNext env fuel) := by
  intro fuel
  induction fuel with
  | zero => intro w r out x _ h; simp only [readNext] at h; cases h
  | succ fuel ih =>
    intro w r out x hm h
    have hne : r.amf3 ≠ 0 := by omega
    have ef := followingType_amf3 r hne
    simp only [readNext] at h
    split_ifs at h
    · cases h; exact ef
    · have h1 : ¬ (followingType r).2.amf3 = 1 := by rw [ef]; omega
      simp only [readOneWith, if_neg h1] at h
      rw [writeOne_mode ih env fuel w _ _ out x (by rw [ef]; exact hm) h, ef]

/-- C2 (source lines 114-118 and 154-167). From AMF0 mode, on an AVM+ marker followed by
a byte `b`: `followingType` consumes the marker, sets `_amf3 = 1` and classifies `b` by
the AMF3 switch; `readOne` then runs `writeOne` with `_amf3 = 2`, during which every
nested `readNext` and `writeOne` itself leave `_amf3 = 2`, and leaves `_amf3 = 0` (for a
kind that reads no nested value it always returns); and from the state it returns,
`followingType` uses the AMF0 switch and `readOne` leaves the mode alone. -/
theorem C2_avmplus_escape_is_one_shot (env : Env) (fuel : Nat) (w : Sink) (r : AMFReader)
    (out : List Event) (b : Nat) (rest : List Nat)
    (hmode : r.amf3 = 0)
    (hbuf : r.data.drop r.position = AMF_AVMPLUS_OBJECT :: b :: rest) :
    (followingType r = followingTypeAMF3 (b % 256) { r with position := r.position + 1, amf3 := 1 })
    ∧ (∀ t : Kind, readOne env fuel w t { r with position := r.position + 1, amf3 := 1 } out
        = (writeOne env (readNext env fuel) fuel w t
            { r with position := r.position + 1, amf3 := 2 } out).map
            (fun x => (x.1, { x.2.1 with amf3 := 0 }, x.2.2)))
    ∧ (KeepsMode (readNext env fuel)
        ∧ ∀ (t : Kind) (x : Bool × AMFReader × List Event),
          writeOne env (readNext env fuel) fuel w t
            { r with position := r.position + 1, amf3 := 2 } out = some x → x.2.1.amf3 = 2)
    ∧ (∀ t : Kind, t ∈ [NIL, BOOLEAN, NUMBER, STRING, DATE, BYTES] →
        ∃ written r2 out2,
          readOne env fuel w t { r with position := r.position + 1, amf3 := 1 } out
            = some (written, r2, out2) ∧ r2.amf3 = 0)
    ∧ (∀ (t : Kind) (written : Bool) (r2 : AMFReader) (out2 : List Event),
        readOne env fuel w t { r with position := r.position + 1, amf3 := 1 } out
          = some (written, r2, out2) →
        r2.amf3 = 0
        ∧ followingType r2
            = (if r2.available = 0 then (END, r2) else followingTypeAMF0 r2.peek r2)
        ∧ ∀ (fuel1 : Nat) (w1 : Sink) (t1 : Kind) (out1 : List Event),
            readOne env fuel1 w1 t1 r2 out1
              = writeOne env (readNext env fuel1) fuel1 w1 t1 r2 out1) := by
  obtain ⟨data, p, a, g, S, C, R, A, L⟩ := r
  simp only at hmode hbuf
  subst hmode
  have hmap : ∀ t : Kind,
      readOne env fuel w t ⟨data, p + 1, 1, g, S, C, R, A, L⟩ out
        = (writeOne env (readNext env fuel) fuel w t ⟨data, p + 1, 2, g, S, C, R, A, L⟩ out).map
            (fun x => (x.1, { x.2.1 with amf3 := 0 }, x.2.2)) := by
    intro t
    simp only [readOne, readOneWith, if_true]
    cases writeOne env (readNext env fuel) fuel w t ⟨data, p + 1, 2, g, S, C, R, A, L⟩ out with
    | none => rfl
    | some x => rfl
  have hzero : ∀ (t : Kind) (written : Bool) (r2 : AMFReader) (out2 : List Event),
      readOne env fuel w t ⟨data, p + 1, 1, g, S, C, R, A, L⟩ out = some (written, r2, out2) →
      r2.amf3 = 0 := by
    intro t written r2 out2 h
    rw [hmap] at h
    cases hw : writeOne env (readNext env fuel) fuel w t ⟨data, p + 1, 2, g, S, C, R, A, L⟩ out with
    | none => rw [hw] at h; cases h
    | some x =>
      rw [hw] at h
      simp only [Option.map_some', Option.some.injEq, Prod.mk.injEq] at h
      rw [← h.2.1]
  refine ⟨?_, hmap, ⟨readNext_keepsMode env fuel, fun t x h =>
    writeOne_mode (readNext_keepsMode env fuel) env fuel w t _ out x (Nat.le_refl 2) h⟩, ?_, ?_⟩
  · have h0 := @peek_mk data p 0 g S C R A L _ _ hbuf
    have h1 := @peek_mk data (p + 1) 1 g S C R A L _ _ (drop_succ hbuf)
    have ha0 := available_pos_of_drop hbuf
    have ha1 := available_pos_of_drop (drop_succ hbuf)
    have hn : (AMFReader.mk data p 0 g S C R A L).next 1 = AMFReader.mk data (p + 1) 0 g S C R A L := by
      simp only [AMFReader.next, AMFReader.available]
      rw [if_neg (by omega)]
    simp only [followingType, available_mk, if_neg ha0, ne_eq, not_true_eq_false, if_false, h0,
      followingTypeAMF0, hn, h1, if_neg ha1]
    simp [AMF_AVMPLUS_OBJECT]
  · intro t ht
    obtain ⟨x, hx⟩ := writeOne_flat_returns env (readNext env fuel) fuel w t
      ⟨data, p + 1, 2, g, S, C, R, A, L⟩ out ht
    refine ⟨x.1, { x.2.1 with amf3 := 0 }, x.2.2, ?_, rfl⟩
    rw [hmap, hx]
    rfl
  · intro t written r2 out2 h
    have hz := hzero t written r2 out2 h
    refine ⟨hz, ?_, ?_⟩
    · simp only [followingType, hz, ne_eq, not_true_eq_false, if_false]
    · intro fuel1 w1 t1 out1
      simp only [readOne, readOneWith, hz]
      simp

/-- The buffer of the spec for C2: `11 03 00` and an 8-byte double decode as
`writeBoolean(true)`, under AMF3 rules, then `writeNumber(double)`, under AMF0 rules. -/
theorem C2_avmplus_escape_is_one_shot_witness :
    followingType (AMFReader.start [0x11, 3, 0, 0x40, 9, 0x21, 0xFB, 0x54, 0x44, 0x2D, 0x18] 0)
      = (BOOLEAN, ⟨[0x11, 3, 0, 0x40, 9, 0x21, 0xFB, 0x54, 0x44, 0x2D, 0x18], 1, 1, true,
          [], [], [], [], []⟩)
    ∧ readNext plainEnv 1 plainSink
        (AMFReader.start [0x11, 3, 0, 0x40, 9, 0x21, 0xFB, 0x54, 0x44, 0x2D, 0x18] 0) []
      = some (true, ⟨[0x11, 3, 0, 0x40, 9, 0x21, 0xFB, 0x54, 0x44, 0x2D, 0x18], 2, 0, true,
          [], [], [], [], []⟩, [Event.writeBoolean true])
    ∧ readNext plainEnv 1 plainSink
        ⟨[0x11, 3, 0, 0x40, 9, 0x21, 0xFB, 0x54, 0x44, 0x2D, 0x18], 2, 0, true,
          [], [], [], [], []⟩ [Event.writeBoolean true]
      = some (true, ⟨[0x11, 3, 0, 0x40, 9, 0x21, 0xFB, 0x54, 0x44, 0x2D, 0x18], 11, 0, true,
          [], [], [], [], []⟩,
          [Event.writeBoolean true, Event.writeNumber (Number.ofBits 0x400921FB54442D18)]) := by
  refine ⟨?_, by decide, by decide⟩
  rw [(C2_avmplus_escape_is_one_shot plainEnv 0 plainSink
    (AMFReader.start [0x11, 3, 0, 0x40, 9, 0x21, 0xFB, 0x54, 0x44, 0x2D, 0x18] 0) [] 3
    [0, 0x40, 9, 0x21, 0xFB, 0x54, 0x44, 0x2D, 0x18] (by decide) (by decide)).1]
  decide

theorem followingTypeAMF3_of_kind (marker : Nat) (k : Kind) (r : AMFReader)
    (h : kindOfAMF3 marker = some k) : followingTypeAMF3 marker r = (k, r) := by
  unfold kindOfAMF3 at h
  split_ifs at h with h1 h2 h3 h4 h5 h6 h7 h8 h9
  · cases h; rcases h1 with rfl | rfl <;> rfl
  · cases h; rcases h2 with rfl | rfl <;> rfl
  · cases h; rcases h3 with rfl | rfl <;> rfl
  · cases h; subst h4; rfl
  · cases h; subst h5; rfl
  · cases h; subst h6; rfl
  · cases h; subst h7; rfl
  · cases h; subst h8; rfl
  · cases h; subst h9; rfl

theorem followingTypeAMF0_of_kind (marker : Nat) (k : Kind) (r : AMFReader)
    (h : kindOfAMF0 marker = some k) : followingTypeAMF0 marker r = (k, r) := by
  unfold kindOfAMF0 at h
  split_ifs at h with h1 h2 h3 h4 h5 h6 h7 h8
  · cases h; rcases h1 with rfl | rfl <;> rfl
  · cases h; subst h2; rfl
  · cases h; subst h3; rfl
  · cases h; rcases h4 with rfl | rfl <;> rfl
  · cases h; subst h5; rfl
  · cases h; rcases h6 with rfl | rfl <;> rfl
  · cases h; rcases h7 with rfl | rfl <;> rfl
  · cases h; subst h8; rfl

/-- C16 (source lines 78-152). `followingType` only peeks: on a value marker of the
current mode other than the AVM+ escape it returns the canonical kind of the marker and
the state it was given (position, mode, capture flag, tables and log), so a second call
returns the same; on the AVM+ escape it moves the cursor by one byte, sets `_amf3 = 1`
and runs the AMF3 classification of what follows, which for an AMF3 value marker returns
its kind and changes nothing more. -/
theorem C16_followingType_peeks (r : AMFReader) (k : Kind) (hav : r.available ≠ 0) :
    (r.amf3 = 0 → kindOfAMF0 r.peek = some k →
      followingType r = (k, r) ∧ followingType (followingType r).2 = (k, r))
    ∧ (r.amf3 ≠ 0 → kindOfAMF3 r.peek = some k →
      followingType r = (k, r) ∧ followingType (followingType r).2 = (k, r))
    ∧ (r.amf3 = 0 → r.peek = AMF_AVMPLUS_OBJECT →
      followingType r
        = (if ({ r with position := r.position + 1, amf3 := 1 } : AMFReader).available = 0
            then (END, { r with position := r.position + 1, amf3 := 1 })
           else followingTypeAMF3
              ({ r with position := r.position + 1, amf3 := 1 } : AMFReader).peek
              { r with position := r.position + 1, amf3 := 1 })
      ∧ (({ r with position := r.position + 1, amf3 := 1 } : AMFReader).available ≠ 0 →
          kindOfAMF3 ({ r with position := r.position + 1, amf3 := 1 } : AMFReader).peek
            = some k →
          followingType r = (k, { r with position := r.position + 1, amf3 := 1 }))) := by
  refine ⟨?_, ?_, ?_⟩
  · intro hmode hk
    have e : followingType r = (k, r) := by
      simp only [followingType, if_neg hav, hmode, ne_eq, not_true_eq_false, if_false,
        followingTypeAMF0_of_kind _ _ _ hk]
    exact ⟨e, by rw [e]; exact e⟩
  · intro hmode hk
    have e : followingType r = (k, r) := by
      simp only [followingType, if_neg hav, hmode, ne_eq, not_false_eq_true, if_true,
        followingTypeAMF3_of_kind _ _ _ hk]
    exact ⟨e, by rw [e]; exact e⟩
  · intro hmode hesc
    have hn : r.next 1 = { r with position := r.position + 1 } := by
      have : ¬ 1 > r.available := by omega
      simp only [AMFReader.next, if_neg this]
    have e : followingType r
        = (if ({ r with position := r.position + 1, amf3 := 1 } : AMFReader).available = 0
            then (END, { r with position := r.position + 1, amf3 := 1 })
           else followingTypeAMF3
              ({ r with position := r.position + 1, amf3 := 1 } : AMFReader).peek
              { r with position := r.position + 1, amf3 := 1 }) := by
      simp only [followingType, if_neg hav, hmode, ne_eq, not_true_eq_false, if_false,
        followingTypeAMF0, hesc, if_true, hn]
    refine ⟨e, ?_⟩
    intro hav1 hk
    rw [e, if_neg hav1, followingTypeAMF3_of_kind _ _ _ hk]

/-- C16 on `05` in AMF0 mode and on `11 03` (escape, then AMF3 true). -/
theorem C16_followingType_peeks_witness :
    followingType (AMFReader.start [5] 0) = (NIL, AMFReader.start [5] 0)
    ∧ followingType (AMFReader.start [0x11, 3] 0)
      = (BOOLEAN, ⟨[0x11, 3], 1, 1, true, [], [], [], [], []⟩) :=
  ⟨((C16_followingType_peeks (AMFReader.start [5] 0) NIL (by decide)).1
      (by decide) (by decide)).1,
   ((C16_followingType_peeks (AMFReader.start [0x11, 3] 0) BOOLEAN (by decide)).2.2
      (by decide) (by decide)).2 (by decide) (by decide)⟩

/-- C12 fails (source lines 474-477 and 183-186): the anchor of an AMF0 object is the
position after its marker, while the reference opcode seeks to the anchor and calls
`readNext`, which expects a marker there.  On `03 00 01 'a' 05 00 00 09` (the object
`{a: null}`) followed by `07 00 00`, the object is decoded and registered at position 1;
the reference then decodes the bytes from position 1 as a number and the sink receives
`writeNumber` instead of the object.  The cursor does end after the opcode. -/
theorem C12_amf0_reference_decodes_from_inside_the_object :
    readNext plainEnv 3 plainSink (AMFReader.start [3, 0, 1, 97, 5, 0, 0, 9, 7, 0, 0] 0) []
      = some (true, ⟨[3, 0, 1, 97, 5, 0, 0, 9, 7, 0, 0], 8, 0, true, [], [], [], [1], []⟩,
          [Event.beginObject 2 none, Event.writePropertyName [97], Event.writeNull,
           Event.endObject])
    ∧ readNext plainEnv 3 plainSink
        ⟨[3, 0, 1, 97, 5, 0, 0, 9, 7, 0, 0], 8, 0, true, [], [], [], [1], []⟩ []
      = some (true, ⟨[3, 0, 1, 97, 5, 0, 0, 9, 7, 0, 0], 11, 0, true, [], [], [], [1], []⟩,
          [Event.writeNumber (Number.ofBits 0x0161050000090700)]) := by
  decide

/-- C13 fails (source lines 282-285): the back-reference of an AMF3 date seeks to the
anchor, which is the position of the header, and reads the double there without reading
the header again (the byte-array case, line 255, does read it).  On `08 01` + the
double 1000.0, followed by `08 00`, the inline date is written with the bits of 1000.0
and the back-reference with the bits `01 40 8F 40 00 00 00 00`, a double below 1.  The
cursor does end after the back-reference header. -/
theorem C13_date_back_reference_reads_the_header_as_payload :
    readNext plainEnv 1 plainSink
        (AMFReader.start [8, 1, 0x40, 0x8F, 0x40, 0, 0, 0, 0, 0, 8, 0] 2) []
      = some (true,
          ⟨[8, 1, 0x40, 0x8F, 0x40, 0, 0, 0, 0, 0, 8, 0], 10, 2, true, [], [], [1], [], []⟩,
          [Event.writeDate 3 0x408F400000000000])
    ∧ readNext plainEnv 1 plainSink
        ⟨[8, 1, 0x40, 0x8F, 0x40, 0, 0, 0, 0, 0, 8, 0], 10, 2, true, [], [], [1], [], []⟩ []
      = some (true,
          ⟨[8, 1, 0x40, 0x8F, 0x40, 0, 0, 0, 0, 0, 8, 0], 12, 2, true, [], [], [1], [], []⟩,
          [Event.writeDate 3 0x01408F4000000000]) := by
  decide

/-- C14 fails (source lines 508-509, 540 and 545-547): `pos` is taken after the flags
of the object, so the class-def anchor designates the class name, while the trait
back-reference reads flags at the anchor.  On `0A 0B 03 'A' 01` (inline object, inline
trait named "A", dynamic, no sealed member) followed by `0A 01 01` (inline object, trait
back-reference to index 0), the first object is begun with the class name "A" and the
second one without a class name. -/
theorem C14_classdef_back_reference_loses_the_class_name :
    readNext plainEnv 2 plainSink (AMFReader.start [0x0A, 0x0B, 3, 65, 1, 0x0A, 1, 1] 2) []
      = some (true, ⟨[0x0A, 0x0B, 3, 65, 1, 0x0A, 1, 1], 5, 2, true, [2], [2], [2], [], []⟩,
          [Event.beginObject 3 (some [65]), Event.endObject])
    ∧ readNext plainEnv 2 plainSink
        ⟨[0x0A, 0x0B, 3, 65, 1, 0x0A, 1, 1], 5, 2, true, [2], [2], [2], [], []⟩ []
      = some (true,
          ⟨[0x0A, 0x0B, 3, 65, 1, 0x0A, 1, 1], 8, 2, true, [2, 3], [2], [2, 7], [], []⟩,
          [Event.beginObject 5 none, Event.endObject]) := by
  decide

/-- C17 fails on the externalizable path (source lines 552-557), which returns without
`packet.reset(resetObject)`.  On `0A 07 07 01 01 01 01` (an inline object with an
externalizable trait) followed by the back-reference `0A 00` and a sibling `03`, the
back-reference, whose header ends at position 9, leaves the cursor at position 5,
inside the anchored object. -/
theorem C17_externalizable_back_reference_is_not_restored :
    readNext plainEnv 2 plainSink (AMFReader.start [0x0A, 7, 7, 1, 1, 1, 1, 0x0A, 0, 3] 2) []
      = some (true, ⟨[0x0A, 7, 7, 1, 1, 1, 1, 0x0A, 0, 3], 7, 2, true, [2], [2], [2], [], []⟩,
          [Event.writeNull])
    ∧ ((⟨[0x0A, 7, 7, 1, 1, 1, 1, 0x0A, 0, 3], 7, 2, true, [2], [2], [2], [], []⟩
          : AMFReader).next 1).read7BitValue
      = (0, ⟨[0x0A, 7, 7, 1, 1, 1, 1, 0x0A, 0, 3], 9, 2, true, [2], [2], [2], [], []⟩)
    ∧ readOne plainEnv 1 plainSink OBJECT
        ⟨[0x0A, 7, 7, 1, 1, 1, 1, 0x0A, 0, 3], 7, 2, true, [2], [2], [2], [], []⟩ []
      = some (true,
          ⟨[0x0A, 7, 7, 1, 1, 1, 1, 0x0A, 0, 3], 5, 2, true, [2], [2, 9], [2], [], []⟩,
          [Event.writeNull]) := by
  decide

/-- C11 fails through the same path as C17 (source lines 552-557).  On
`0A 07 07 01 01 01 01 0A 00 02` the first object is decoded up to position 7; from
there, with three bytes available,
`followingType` returns `OBJECT` and `readOne` ends at position 5: before the position
where the value started, with five bytes available.  Two more steps decode the bytes at
5 and 6 and bring the cursor back to position 7: a caller that reads value after value
never reaches the end. -/
theorem C11_externalizable_back_reference_moves_backwards :
    readNext plainEnv 2 plainSink (AMFReader.start [0x0A, 7, 7, 1, 1, 1, 1, 0x0A, 0, 2] 2) []
      = some (true, ⟨[0x0A, 7, 7, 1, 1, 1, 1, 0x0A, 0, 2], 7, 2, true, [2], [2], [2], [], []⟩,
          [Event.writeNull])
    ∧ followingType ⟨[0x0A, 7, 7, 1, 1, 1, 1, 0x0A, 0, 2], 7, 2, true, [2], [2], [2], [], []⟩
      = (OBJECT, ⟨[0x0A, 7, 7, 1, 1, 1, 1, 0x0A, 0, 2], 7, 2, true, [2], [2], [2], [], []⟩)
    ∧ readOne plainEnv 1 plainSink OBJECT
        ⟨[0x0A, 7, 7, 1, 1, 1, 1, 0x0A, 0, 2], 7, 2, true, [2], [2], [2], [], []⟩ []
      = some (true,
          ⟨[0x0A, 7, 7, 1, 1, 1, 1, 0x0A, 0, 2], 5, 2, true, [2], [2, 9], [2], [], []⟩,
          [Event.writeNull])
    ∧ (⟨[0x0A, 7, 7, 1, 1, 1, 1, 0x0A, 0, 2], 5, 2, true, [2], [2, 9], [2], [], []⟩
        : AMFReader).available = 5
    ∧ readNext plainEnv 1 plainSink
        ⟨[0x0A, 7, 7, 1, 1, 1, 1, 0x0A, 0, 2], 5, 2, true, [2], [2, 9], [2], [], []⟩ []
      = some (true,
          ⟨[0x0A, 7, 7, 1, 1, 1, 1, 0x0A, 0, 2], 6, 2, true, [2], [2, 9], [2], [], []⟩,
          [Event.writeNull])
    ∧ readNext plainEnv 1 plainSink
        ⟨[0x0A, 7, 7, 1, 1, 1, 1, 0x0A, 0, 2], 6, 2, true, [2], [2, 9], [2], [], []⟩ []
      = some (true,
          ⟨[0x0A, 7, 7, 1, 1, 1, 1, 0x0A, 0, 2], 7, 2, true, [2], [2, 9], [2], [], []⟩,
          [Event.writeNull]) := by
  decide

/-- C19 fails (source lines 412-423): the back-reference of an AMF3 array decodes the
anchored body without touching `_referencing` (the AMF0 reference, lines 184-187, does
set it to false and restores it).  On `09 03 01` + an inline date, followed by the
back-reference `09 00`, the object table holds `[1, 4]` before the back-reference and
`[1, 4, 4]` after it: the date of the body is registered again; the capture flag is
true before and after. -/
theorem C19_array_back_reference_registers_again :
    readNext plainEnv 2 plainSink
        (AMFReader.start [9, 3, 1, 8, 1, 0x40, 0x8F, 0x40, 0, 0, 0, 0, 0, 9, 0] 2) []
      = some (true,
          ⟨[9, 3, 1, 8, 1, 0x40, 0x8F, 0x40, 0, 0, 0, 0, 0, 9, 0], 13, 2, true, [], [], [1, 4],
            [], []⟩,
          [Event.beginArray 3 1, Event.writeDate 5 0x408F400000000000, Event.endArray])
    ∧ readNext plainEnv 2 plainSink
        ⟨[9, 3, 1, 8, 1, 0x40, 0x8F, 0x40, 0, 0, 0, 0, 0, 9, 0], 13, 2, true, [], [], [1, 4],
          [], []⟩ []
      = some (true,
          ⟨[9, 3, 1, 8, 1, 0x40, 0x8F, 0x40, 0, 0, 0, 0, 0, 9, 0], 15, 2, true, [], [],
            [1, 4, 4], [], []⟩,
          [Event.beginArray 3 1, Event.writeDate 7 0x408F400000000000, Event.endArray]) := by
  decide

/-! ## What a decoding may change -/

theorem Step.refl (r : AMFReader) : Step r r :=
  ⟨rfl, rfl, List.prefix_rfl, fun _ h => Or.inl h, List.prefix_rfl, List.prefix_rfl,
    List.prefix_rfl, fun _ => ⟨rfl, rfl⟩, List.prefix_rfl⟩

theorem Step.trans {r1 r2 r3 : AMFReader} (h12 : Step r1 r2) (h23 : Step r2 r3) : Step r1 r3 := by
  obtain ⟨d1, g1, s1, k1, c1, o1, a1, f1, l1⟩ := h12
  obtain ⟨d2, g2, s2, k2, c2, o2, a2, f2, l2⟩ := h23
  refine ⟨d2.trans d1, g2.trans g1, s1.trans s2, ?_, c1.trans c2, o1.trans o2, a1.trans a2, ?_,
    l1.trans l2⟩
  · intro e he
    rcases k2 e he with h | h
    · exact k1 e h
    · exact Or.inr (d1 ▸ h)
  · intro hg
    obtain ⟨x1, y1⟩ := f1 hg
    obtain ⟨x2, y2⟩ := f2 (g1.trans hg)
    exact ⟨x2.trans x1, y2.trans y1⟩

@[simp] theorem Step.self (r : AMFReader) : Step r r ↔ True := iff_of_true (Step.refl r) trivial

@[simp] theorem Step.next_right (r r' : AMFReader) (n : Nat) :
    Step r (r'.next n) ↔ Step r r' := Iff.rfl
@[simp] theorem Step.reset_right (r r' : AMFReader) (n : Nat) :
    Step r (r'.reset n) ↔ Step r r' := Iff.rfl
@[simp] theorem Step.next_left (r r' : AMFReader) (n : Nat) :
    Step (r.next n) r' ↔ Step r r' := Iff.rfl
@[simp] theorem Step.reset_left (r r' : AMFReader) (n : Nat) :
    Step (r.reset n) r' ↔ Step r r' := Iff.rfl
@[simp] theorem Step.amf3_right (r r' : AMFReader) (a : Nat) :
    Step r { r' with amf3 := a } ↔ Step r r' := Iff.rfl
@[simp] theorem Step.amf3_left (r r' : AMFReader) (a : Nat) :
    Step { r with amf3 := a } r' ↔ Step r r' := Iff.rfl
@[simp] theorem Step.position_right (r r' : AMFReader) (p : Nat) :
    Step r { r' with position := p } ↔ Step r r' := Iff.rfl
@[simp] theorem Step.position_left (r r' : AMFReader) (p : Nat) :
    Step { r with position := p } r' ↔ Step r r' := Iff.rfl

@[simp] theorem Step.readBE_right (r r' : AMFReader) (n acc : Nat) :
    Step r (AMFReader.readBE n acc r').2 ↔ Step r r' := by
  rw [readBE_eq]; exact Iff.rfl
@[simp] theorem Step.readBE_left (r r' : AMFReader) (n acc : Nat) :
    Step (AMFReader.readBE n acc r).2 r' ↔ Step r r' := by
  rw [readBE_eq]; exact Iff.rfl
@[simp] theorem Step.read16_right (r r' : AMFReader) : Step r r'.read16.2 ↔ Step r r' :=
  Step.readBE_right r r' 2 0
@[simp] theorem Step.read16_left (r r' : AMFReader) : Step r.read16.2 r' ↔ Step r r' :=
  Step.readBE_left r r' 2 0
@[simp] theorem Step.read32_right (r r' : AMFReader) : Step r r'.read32.2 ↔ Step r r' :=
  Step.readBE_right r r' 4 0
@[simp] theorem Step.read32_left (r r' : AMFReader) : Step r.read32.2 r' ↔ Step r r' :=
  Step.readBE_left r r' 4 0
@[simp] theorem Step.readNumber_right (r r' : AMFReader) : Step r r'.readNumber.2 ↔ Step r r' :=
  Step.readBE_right r r' 8 0
@[simp] theorem Step.readNumber_left (r r' : AMFReader) : Step r.readNumber.2 r' ↔ Step r r' :=
  Step.readBE_left r r' 8 0
@[simp] theorem Step.read7BitValue_right (r r' : AMFReader) :
    Step r r'.read7BitValue.2 ↔ Step r r' := by
  rw [read7BitValue_eq]; exact Iff.rfl
@[simp] theorem Step.read7BitValue_left (r r' : AMFReader) :
    Step r.read7BitValue.2 r' ↔ Step r r' := by
  rw [read7BitValue_eq]; exact Iff.rfl

theorem Step.log (r : AMFReader) (l : Log) : Step r (r.log l) :=
  ⟨rfl, rfl, List.prefix_rfl, fun _ h => Or.inl h, List.prefix_rfl, List.prefix_rfl,
    List.prefix_rfl, fun _ => ⟨rfl, rfl⟩, List.prefix_append _ _⟩

theorem Step.log_right {r r' : AMFReader} (l : Log) (h : Step r r') : Step r (r'.log l) :=
  h.trans (Step.log r' l)

theorem Step.pushClassDef (r : AMFReader) (p : Nat) :
    Step r { r with classDefReferences := r.classDefReferences ++ [p] } :=
  ⟨rfl, rfl, List.prefix_rfl, fun _ h => Or.inl h, List.prefix_append _ _, List.prefix_rfl,
    List.prefix_rfl, fun _ => ⟨rfl, rfl⟩, List.prefix_rfl⟩

theorem Step.pushReference (r : AMFReader) (p : Nat) (h : r.referencing = true) :
    Step r { r with references := r.references ++ [p] } :=
  ⟨rfl, rfl, List.prefix_rfl, fun _ h => Or.inl h, List.prefix_rfl, List.prefix_append _ _,
    List.prefix_rfl, (fun hf => by rw [h] at hf; cases hf), List.prefix_rfl⟩

theorem Step.pushAmf0 (r : AMFReader) (p : Nat) (h : r.referencing = true) :
    Step r { r with amf0References := r.amf0References ++ [p] } :=
  ⟨rfl, rfl, List.prefix_rfl, fun _ h => Or.inl h, List.prefix_rfl, List.prefix_rfl,
    List.prefix_append _ _, (fun hf => by rw [h] at hf; cases hf), List.prefix_rfl⟩

theorem Step.pushString (r : AMFReader) (e : Nat) (h : GoodAnchor r.data e) :
    Step r { r with stringReferences := r.stringReferences ++ [e] } := by
  refine ⟨rfl, rfl, List.prefix_append _ _, ?_, List.prefix_rfl, List.prefix_rfl,
    List.prefix_rfl, fun _ => ⟨rfl, rfl⟩, List.prefix_rfl⟩
  intro x hx
  simp only [List.mem_append, List.mem_singleton] at hx
  rcases hx with hx | rfl
  · exact Or.inl hx
  · exact Or.inr h

/-- The capture flag set to false for a nested decoding and restored after it. -/
theorem Step.restore {r r' : AMFReader}
    (h : Step { r with referencing := false } r') :
    Step r { r' with referencing := r.referencing } := by
  obtain ⟨d, g, s, k, c, o, a, f, l⟩ := h
  obtain ⟨x, y⟩ := f rfl
  exact ⟨d, rfl, s, k, c, x ▸ List.prefix_rfl, y ▸ List.prefix_rfl, fun _ => ⟨x, y⟩, l⟩

theorem read7BitValue_fst_at (r : AMFReader) :
    r.read7BitValue.1 = (read7BitValueAt r.data r.position).1 := by
  obtain ⟨data, p, a, g, S, C, R, A, L⟩ := r
  rw [read7BitValue_at]

theorem position_lt_of_read7BitValue (r : AMFReader) (h : r.read7BitValue.1 ≠ 0) :
    r.position < r.data.length := by
  by_contra hc
  apply h
  have hp : r.peek = 0 := by
    simp only [AMFReader.peek]
    rw [List.getD_eq_default _ _ (by omega)]
  rw [AMFReader.read7BitValue, read8_fst, hp, read7BitLoop_stop _ _ _ _ _ (by omega)]
  rfl

theorem Step.pushString_right {r r' : AMFReader} (e : Nat) (h : Step r r')
    (hg : GoodAnchor r'.data e) :
    Step r { r' with stringReferences := r'.stringReferences ++ [e] } :=
  h.trans (Step.pushString r' e hg)

theorem Step.pushClassDef_right {r r' : AMFReader} (p : Nat) (h : Step r r') :
    Step r { r' with classDefReferences := r'.classDefReferences ++ [p] } :=
  h.trans (Step.pushClassDef r' p)

theorem Step.pushReference_right {r r' : AMFReader} (p : Nat) (h : Step r r')
    (hg : r'.referencing = true) :
    Step r { r' with references := r'.references ++ [p] } :=
  h.trans (Step.pushReference r' p hg)

theorem Step.pushAmf0_right {r r' : AMFReader} (p : Nat) (h : Step r r')
    (hg : r'.referencing = true) :
    Step r { r' with amf0References := r'.amf0References ++ [p] } :=
  h.trans (Step.pushAmf0 r' p hg)

theorem goodAnchor_of_header (r : AMFReader) (h1 : r.read7BitValue.1 % 2 = 1)
    (h2 : r.read7BitValue.1 / 2 > 0) : GoodAnchor r.read7BitValue.2.data r.position := by
  have hd : r.read7BitValue.2.data = r.data := by rw [read7BitValue_eq]
  rw [hd]
  have hv : r.read7BitValue.1 ≠ 0 := by omega
  exact ⟨position_lt_of_read7BitValue r hv, by rw [← read7BitValue_fst_at]; exact h1,
    by rw [← read7BitValue_fst_at]; exact h2⟩

theorem readText_step (r : AMFReader) (nullIfEmpty : Bool) :
    Step r (readText r nullIfEmpty).2.2 := by
  simp only [readText]
  split_ifs
  all_goals first
    | (simp; done)
    | exact Step.log_right _ (by simp)
    | exact Step.pushString_right _ (by simp) (goodAnchor_of_header r (by assumption) (by assumption))

theorem prefix_ite_append (b : Bool) (o e : List Event) :
    o <+: (if b then o else o ++ e) := by
  split_ifs
  · exact List.prefix_rfl
  · exact List.prefix_append _ _

theorem prefix_of_append {o e o' : List Event} (h : o ++ e <+: o') : o <+: o' :=
  (List.prefix_append o e).trans h

section
variable {rn : ReadNext} (hf : Frames rn)
include hf

theorem readElements_step (w : Sink) : ∀ (n : Nat) (r : AMFReader) (out : List Event)
    (x : AMFReader × List Event),
    readElements rn w n r out = some x → Step r x.1 ∧ out <+: x.2 := by
  intro n
  induction n with
  | zero =>
    intro r out x h
    simp only [readElements, Option.some.injEq] at h
    subst h
    exact ⟨Step.refl _, List.prefix_rfl⟩
  | succ n ih =>
    intro r out x h
    cases hrn : rn w r out with
    | none => simp only [readElements, hrn] at h; cases h
    | some y =>
      obtain ⟨b, r1, out1⟩ := y
      simp only [readElements, hrn] at h
      obtain ⟨s1, p1⟩ := hf w r out _ hrn
      obtain ⟨s2, p2⟩ := ih _ _ _ h
      exact ⟨s1.trans s2, p1.trans ((prefix_ite_append _ _ _).trans p2)⟩

theorem skipElements_step (env : Env) : ∀ (n : Nat) (r : AMFReader) (x : AMFReader),
    skipElements env rn n r = some x → Step r x := by
  intro n
  induction n with
  | zero =>
    intro r x h
    simp only [skipElements, Option.some.injEq] at h
    subst h
    exact Step.refl _
  | succ n ih =>
    intro r x h
    cases hrn : rn env.nullSink r [] with
    | none => simp only [skipElements, nextValue, hrn] at h; cases h
    | some y =>
      obtain ⟨b, r1, out1⟩ := y
      simp only [skipElements, nextValue, hrn] at h
      exact (hf _ r _ _ hrn).1.trans (ih _ _ h)

theorem readProperties_step (w : Sink) : ∀ (fuel : Nat) (r : AMFReader) (out : List Event)
    (x : AMFReader × List Event),
    readProperties rn w fuel r out = some x → Step r x.1 ∧ out <+: x.2 := by
  intro fuel
  induction fuel with
  | zero => intro r out x h; simp only [readProperties] at h; cases h
  | succ fuel ih =>
    intro r out x h
    have et := readText_step r true
    cases ht : (readText r true).1 with
    | none =>
      simp only [readProperties, ht, Option.some.injEq] at h
      subst h
      exact ⟨et, List.prefix_rfl⟩
    | some value =>
      simp only [readProperties, ht] at h
      split_ifs at h with hav
      · simp only [Option.some.injEq] at h
        subst h
        exact ⟨et, List.prefix_rfl⟩
      · split at h
        · cases h
        · rename_i written r2 out2 hrn
          obtain ⟨s1, p1⟩ := hf _ _ _ _ hrn
          obtain ⟨s2, p2⟩ := ih _ _ _ h
          exact ⟨(et.trans s1).trans s2,
            (prefix_of_append p1).trans ((prefix_ite_append _ _ _).trans p2)⟩

theorem readArrayProperties_step (w : Sink) (reference size : Nat) :
    ∀ (fuel : Nat) (started : Bool) (r : AMFReader) (out : List Event)
    (x : Bool × AMFReader × List Event),
    readArrayProperties rn w reference size fuel started r out = some x →
    Step r x.2.1 ∧ out <+: x.2.2 := by
  intro fuel
  induction fuel with
  | zero => intro started r out x h; simp only [readArrayProperties] at h; cases h
  | succ fuel ih =>
    intro started r out x h
    have et := readText_step r true
    cases ht : (readText r true).1 with
    | none =>
      simp only [readArrayProperties, ht, Option.some.injEq] at h
      subst h
      exact ⟨et, List.prefix_rfl⟩
    | some value =>
      simp only [readArrayProperties, ht] at h
      split_ifs at h with hav
      · simp only [Option.some.injEq] at h
        subst h
        exact ⟨et, List.prefix_rfl⟩
      all_goals
        split at h
        · cases h
        · rename_i written r2 out2 hrn
          obtain ⟨s1, p1⟩ := hf _ _ _ _ hrn
          obtain ⟨s2, p2⟩ := ih _ _ _ _ h
          refine ⟨(et.trans s1).trans s2, ?_⟩
          first
            | exact (prefix_of_append p1).trans ((prefix_ite_append _ _ _).trans p2)
            | exact (prefix_of_append (prefix_of_append p1)).trans
                ((prefix_ite_append _ _ _).trans p2)

theorem readMembers_step (w : Sink) : ∀ (fuel reset flags : Nat) (r : AMFReader)
    (out : List Event) (x : Nat × AMFReader × List Event),
    readMembers rn w fuel reset flags r out = some x → Step r x.2.1 ∧ out <+: x.2.2 := by
  intro fuel
  induction fuel with
  | zero => intro reset flags r out x h; simp only [readMembers] at h; cases h
  | succ fuel ih =>
    intro reset flags r out x h
    have et := readText_step r true
    cases ht : (readText r true).1 with
    | none =>
      simp only [readMembers, ht, Option.some.injEq] at h
      subst h
      exact ⟨et, List.prefix_rfl⟩
    | some value =>
      simp only [readMembers, ht] at h
      by_cases hav : (readText r true).2.2.available = 0
      · simp only [hav, if_true, Option.some.injEq] at h
        subst h
        exact ⟨et, List.prefix_rfl⟩
      · simp only [hav, if_false] at h
        split at h
        · cases h
        · rename_i written r2 out2 hrn
          obtain ⟨s1, p1⟩ := hf _ _ _ _ hrn
          have s01 : Step r r2 := by
            refine et.trans ?_
            split_ifs at s1
            · exact (Step.reset_left _ _ _).1 s1
            · exact s1
          split_ifs at h
          all_goals
            obtain ⟨s2, p2⟩ := ih _ _ _ _ _ h
            have p02 : out <+: x.2.2 := by
              first
                | exact (prefix_of_append p1).trans p2
                | exact (prefix_of_append p1).trans (prefix_of_append p2)
            exact ⟨s01.trans s2, p02⟩

theorem readMapEntries_step (env : Env) (w : Sink) (ex : Bool) :
    ∀ (n : Nat) (r : AMFReader) (out : List Event) (x : AMFReader × List Event),
    readMapEntries env rn w ex n r out = some x → Step r x.1 ∧ out <+: x.2 := by
  intro n
  induction n with
  | zero =>
    intro r out x h
    simp only [readMapEntries, Option.some.injEq] at h
    subst h
    exact ⟨Step.refl _, List.prefix_rfl⟩
  | succ n ih =>
    intro r out x h
    simp only [readMapEntries] at h
    split_ifs at h
    · split at h
      · cases h
      · rename_i read r1 prop hrn
        obtain ⟨s1, _⟩ := hf _ _ _ _ hrn
        split_ifs at h
        · split at h
          · cases h
          · rename_i written r2 out2 hrn2
            obtain ⟨s2, p2⟩ := hf _ _ _ _ hrn2
            obtain ⟨s3, p3⟩ := ih _ _ _ h
            exact ⟨(s1.trans s2).trans s3,
              (prefix_of_append p2).trans ((prefix_ite_append _ _ _).trans p3)⟩
        · obtain ⟨s3, p3⟩ := ih _ _ _ h
          exact ⟨s1.trans s3, p3⟩
    · split at h
      · cases h
      · rename_i key r1 out1 hrn
        obtain ⟨s1, p1⟩ := hf _ _ _ _ hrn
        split at h
        · cases h
        · rename_i written r2 out2 hrn2
          obtain ⟨s2, p2⟩ := hf _ _ _ _ hrn2
          obtain ⟨s3, p3⟩ := ih _ _ _ h
          exact ⟨(s1.trans s2).trans s3,
            p1.trans ((prefix_ite_append _ _ _).trans (p2.trans
              ((prefix_ite_append _ _ _).trans p3)))⟩
end

section
variable {rn : ReadNext} (hf : Frames rn)
include hf

theorem writeAMF0Ref_step (w : Sink) (r : AMFReader) (out : List Event)
    (x : Bool × AMFReader × List Event)
    (h : writeAMF0Ref rn w r out = some x) : Step r x.2.1 ∧ out <+: x.2.2 := by
  simp only [writeAMF0Ref] at h
  split_ifs at h
  · cases h; exact ⟨Step.log_right _ (by simp), List.prefix_rfl⟩
  · cases h; exact ⟨by simp, List.prefix_rfl⟩
  · split at h
    · cases h
    · rename_i written r4 out1 hrn
      obtain ⟨s1, p1⟩ := hf _ _ _ _ hrn
      cases h
      refine ⟨?_, p1⟩
      have s2 := Step.restore s1
      simp only [Step.reset_right]
      have s0 : Step r ((r.next 1).read16.2.reset
          ((r.next 1).read16.2.amf0References.getD (r.next 1).read16.1 0)) := by simp
      exact s0.trans s2

theorem writeMapBody_step (env : Env) (w : Sink) (ex : Bool) (size reset : Nat) (r : AMFReader)
    (out : List Event) (x : Bool × AMFReader × List Event)
    (h : writeMapBody env rn w ex size reset r out = some x) :
    Step r x.2.1 ∧ out <+: x.2.2 := by
  simp only [writeMapBody] at h
  split at h
  · cases h
  · rename_i r2 out1 hl
    obtain ⟨s1, p1⟩ := readMapEntries_step hf env w ex size _ out _ hl
    cases h
    refine ⟨?_, p1.trans (List.prefix_append _ _)⟩
    have s0 : Step r (if ex = true then r.log (Log.warn Msg.mapException) else r) := by
      split_ifs
      · exact Step.log _ _
      · exact Step.refl _
    have s2 := s0.trans s1
    split_ifs
    · simpa using s2
    · exact s2

theorem writeArrayElements_step (w : Sink) (size reset : Nat) (r : AMFReader)
    (out : List Event) (x : Bool × AMFReader × List Event)
    (h : writeArrayElements rn w size reset r out = some x) :
    Step r x.2.1 ∧ out <+: x.2.2 := by
  simp only [writeArrayElements] at h
  split at h
  · cases h
  · rename_i r1 out1 hl
    obtain ⟨s1, p1⟩ := readElements_step hf w size r out _ hl
    cases h
    refine ⟨?_, p1.trans (List.prefix_append _ _)⟩
    split_ifs
    · simpa using s1
    · exact s1

theorem writeMap_step (env : Env) (w : Sink) (r : AMFReader)
    (out : List Event) (x : Bool × AMFReader × List Event)
    (h : writeMap env rn w r out = some x) : Step r x.2.1 ∧ out <+: x.2.2 := by
  simp only [writeMap] at h
  split_ifs at h with h1 h2 h3 h4
  · cases h; exact ⟨by simp, List.prefix_rfl⟩
  · cases h; exact ⟨Step.log_right _ (by simp), List.prefix_rfl⟩
  · obtain ⟨s1, p1⟩ := writeMapBody_step hf env w _ _ _ _ _ _ h
    exact ⟨by simpa using s1, prefix_of_append p1⟩
  · obtain ⟨s1, p1⟩ := writeMapBody_step hf env w _ _ _ _ _ _ h
    refine ⟨?_, prefix_of_append p1⟩
    have s0 : Step r { (r.next 1).read7BitValue.2 with
        references := (r.next 1).read7BitValue.2.references ++ [(r.next 1).position] } :=
      Step.pushReference_right _ (by simp) h4
    exact s0.trans (by simpa using s1)
  · obtain ⟨s1, p1⟩ := writeMapBody_step hf env w _ _ _ _ _ _ h
    exact ⟨by simpa using s1, prefix_of_append p1⟩
end

theorem writeFlat_step (env : Env) (rn : ReadNext) (fuel : Nat) (w : Sink) (t : Kind)
    (ht : t ∈ [NIL, BOOLEAN, NUMBER, STRING, DATE, BYTES]) (r : AMFReader) (out : List Event)
    (x : Bool × AMFReader × List Event)
    (h : writeOne env rn fuel w t r out = some x) : Step r x.2.1 ∧ out <+: x.2.2 := by
  simp only [List.mem_cons, List.mem_singleton, List.not_mem_nil, or_false] at ht
  rcases ht with rfl | rfl | rfl | rfl | rfl | rfl
  · simp only [writeOne, writeNil] at h
    cases h; exact ⟨by simp, List.prefix_append _ _⟩
  · simp only [writeOne, writeBoolean] at h
    split_ifs at h <;> (cases h; exact ⟨by simp, List.prefix_append _ _⟩)
  · simp only [writeOne, writeNumber] at h
    split_ifs at h <;> (cases h; exact ⟨by simp, List.prefix_append _ _⟩)
  · simp only [writeOne, writeString] at h
    split_ifs at h
    · cases h; exact ⟨by simp, List.prefix_append _ _⟩
    · have et := readText_step (r.next 1) false
      split at h
      · cases h; exact ⟨by simpa using et, List.prefix_rfl⟩
      · cases h; exact ⟨by simpa using et, List.prefix_append _ _⟩
  · simp only [writeOne, writeDate] at h
    split_ifs at h with h1 h2 h3 h4 h5
    · cases h
      refine ⟨?_, List.prefix_append _ _⟩
      simp only [Step.readNumber_right]
      exact Step.pushReference_right _ (by simp) h3
    · cases h; exact ⟨by simp, List.prefix_append _ _⟩
    · cases h; exact ⟨by simp, List.prefix_rfl⟩
    · cases h; exact ⟨Step.log_right _ (by simp), List.prefix_rfl⟩
    · cases h; exact ⟨by simp, List.prefix_append _ _⟩
    · cases h; exact ⟨by simp, List.prefix_append _ _⟩
  · simp only [writeOne, writeBytes] at h
    split_ifs at h with h1 h2 h3 h4
    · cases h
      refine ⟨?_, List.prefix_append _ _⟩
      simp only [Step.next_right]
      exact Step.pushReference_right _ (by simp) h2
    · cases h; exact ⟨by simp, List.prefix_append _ _⟩
    · cases h; exact ⟨by simp, List.prefix_rfl⟩
    · cases h; exact ⟨Step.log_right _ (by simp), List.prefix_rfl⟩
    · cases h; exact ⟨by simp, List.prefix_append _ _⟩

section
variable {rn : ReadNext} (hf : Frames rn)
include hf

theorem writeArrayAMF0_step (env : Env) (fuel : Nat) (w : Sink) (r : AMFReader)
    (out : List Event) (x : Bool × AMFReader × List Event)
    (h : writeArrayAMF0 env rn fuel w r out = some x) : Step r x.2.1 ∧ out <+: x.2.2 := by
  simp only [writeArrayAMF0, read8_snd] at h
  by_cases hg : (r.next 1).referencing = true
  · simp only [if_pos hg] at h
    have s0 : Step r { r.next 1 with
        amf0References := (r.next 1).amf0References ++ [(r.next 1).position] } :=
      Step.pushAmf0_right _ (by simp) hg
    split_ifs at h
    · obtain ⟨s1, p1⟩ := writeArrayElements_step hf w _ _ _ _ _ h
      exact ⟨s0.trans ((Step.read32_left _ _).1 s1), prefix_of_append p1⟩
    · split at h
      · cases h
      · rename_i r4 hs
        have s1 := (Step.read32_left _ _).1 (skipElements_step hf env _ _ _ hs)
        split at h
        · cases h
        · rename_i r5 out2 hp
          obtain ⟨s2, p2⟩ := readProperties_step hf w _ _ _ _ hp
          obtain ⟨s3, p3⟩ := writeArrayElements_step hf w _ _ _ _ _ h
          refine ⟨?_, (prefix_of_append p2).trans (prefix_of_append p3)⟩
          have s12 : Step r r5 := (s0.trans s1).trans s2
          refine s12.trans (Step.trans ?_ s3)
          simp only [Step.reset_right]
          split_ifs
          · exact Step.log_right _ (by simp)
          · simp
  · simp only [if_neg hg] at h
    have s0 : Step r (r.next 1) := by simp
    split_ifs at h
    · obtain ⟨s1, p1⟩ := writeArrayElements_step hf w _ _ _ _ _ h
      exact ⟨s0.trans ((Step.read32_left _ _).1 s1), prefix_of_append p1⟩
    · split at h
      · cases h
      · rename_i r4 hs
        have s1 := (Step.read32_left _ _).1 (skipElements_step hf env _ _ _ hs)
        split at h
        · cases h
        · rename_i r5 out2 hp
          obtain ⟨s2, p2⟩ := readProperties_step hf w _ _ _ _ hp
          obtain ⟨s3, p3⟩ := writeArrayElements_step hf w _ _ _ _ _ h
          refine ⟨?_, (prefix_of_append p2).trans (prefix_of_append p3)⟩
          have s12 : Step r r5 := (s0.trans s1).trans s2
          refine s12.trans (Step.trans ?_ s3)
          simp only [Step.reset_right]
          split_ifs
          · exact Step.log_right _ (by simp)
          · simp

theorem writeArrayAMF3Body_step (fuel : Nat) (w : Sink) (reference size reset : Nat)
    (r : AMFReader) (out : List Event) (x : Bool × AMFReader × List Event)
    (h : writeArrayAMF3Body rn fuel w reference size reset r out = some x) :
    Step r x.2.1 ∧ out <+: x.2.2 := by
  simp only [writeArrayAMF3Body] at h
  split at h
  · cases h
  · rename_i started r1 out1 hl
    obtain ⟨s1, p1⟩ := readArrayProperties_step hf w reference size fuel _ r out _ hl
    obtain ⟨s2, p2⟩ := writeArrayElements_step hf w size reset r1 _ x h
    refine ⟨s1.trans s2, p1.trans ?_⟩
    split_ifs at p2
    · exact prefix_of_append p2
    · exact prefix_of_append p2

theorem writeArrayAMF3_step (fuel : Nat) (w : Sink) (r : AMFReader) (out : List Event)
    (x : Bool × AMFReader × List Event)
    (h : writeArrayAMF3 rn fuel w r out = some x) : Step r x.2.1 ∧ out <+: x.2.2 := by
  simp only [writeArrayAMF3] at h
  split_ifs at h with h1 h2 h3 h4
  · cases h; exact ⟨by simp, List.prefix_rfl⟩
  · cases h; exact ⟨Step.log_right _ (by simp), List.prefix_rfl⟩
  · obtain ⟨s1, p1⟩ := writeArrayAMF3Body_step hf _ _ _ _ _ _ _ _ h
    exact ⟨by simpa using s1, p1⟩
  · obtain ⟨s1, p1⟩ := writeArrayAMF3Body_step hf _ _ _ _ _ _ _ _ h
    refine ⟨?_, p1⟩
    have s0 : Step r { (r.next 1).read7BitValue.2 with
        references := (r.next 1).read7BitValue.2.references ++ [(r.next 1).position] } :=
      Step.pushReference_right _ (by simp) h4
    exact s0.trans s1
  · obtain ⟨s1, p1⟩ := writeArrayAMF3Body_step hf _ _ _ _ _ _ _ _ h
    exact ⟨by simpa using s1, p1⟩
end

theorem followingTypeAMF3_step (type : Nat) (r : AMFReader) :
    Step r (followingTypeAMF3 type r).2 := by
  unfold followingTypeAMF3
  split_ifs
  all_goals first
    | exact Step.refl _
    | exact (Step.next_right _ _ _).2 (Step.log _ _)

theorem followingTypeAMF0_step (type : Nat) (r : AMFReader) :
    Step r (followingTypeAMF0 type r).2 := by
  simp only [followingTypeAMF0]
  by_cases h : type = AMF_AVMPLUS_OBJECT
  · rw [if_pos h]
    have s0 : Step r ({ r.next 1 with amf3 := 1 } : AMFReader) :=
      (Step.amf3_right _ _ _).2 ((Step.next_right _ _ _).2 (Step.refl _))
    split_ifs
    · exact s0
    · exact s0.trans (followingTypeAMF3_step _ _)
  · rw [if_neg h]
    repeat' split
    all_goals first
      | exact Step.refl _
      | exact (Step.next_right _ _ _).2 (Step.log _ _)

theorem followingType_step (r : AMFReader) : Step r (followingType r).2 := by
  unfold followingType
  split_ifs
  · exact Step.refl _
  · exact followingTypeAMF3_step _ _
  · exact followingTypeAMF0_step _ _

section
variable {rn : ReadNext} (hf : Frames rn)
include hf

theorem writeObjectAMF0_step (fuel : Nat) (w : Sink) (r : AMFReader)
    (out : List Event) (x : Bool × AMFReader × List Event)
    (h : writeObjectAMF0 rn fuel w r out = some x) : Step r x.2.1 ∧ out <+: x.2.2 := by
  simp only [writeObjectAMF0, read8_snd] at h
  split at h
  · cases h
  · rename_i r4 out2 hp
    obtain ⟨s2, p2⟩ := readProperties_step hf w _ _ _ _ hp
    cases h
    have s0 : Step r (if (r.next 1).referencing = true then
        { r.next 1 with amf0References := (r.next 1).amf0References ++ [(r.next 1).position] }
        else r.next 1) := by
      split_ifs with hg
      · exact Step.pushAmf0_right _ (by simp) hg
      · simp
    constructor
    · refine Step.trans (Step.trans s0 ?_) (Step.trans s2 ?_)
      · split_ifs
        all_goals first
          | exact Step.refl _
          | exact readText_step _ _
      · split_ifs
        · exact Step.log_right _ (by simp)
        · simp
    · refine List.IsPrefix.trans ?_ (p2.trans (List.prefix_append _ _))
      split
      · exact List.prefix_append _ _
      · split_ifs <;> exact List.prefix_append _ _

theorem writeObjectAMF3Body_step (fuel : Nat) (w : Sink)
    (reference resetObject flags reset : Nat) (text : Option Nat) (size : Nat)
    (stringify : Bool) (r : AMFReader) (out : List Event)
    (x : Bool × AMFReader × List Event)
    (h : writeObjectAMF3Body rn fuel w reference resetObject flags reset text size stringify
      r out = some x) : Step r x.2.1 ∧ out <+: x.2.2 := by
  simp only [writeObjectAMF3Body] at h
  by_cases hext : flags % 2 = 1
  · simp only [hext, if_true] at h
    obtain ⟨s1, p1⟩ := hf _ _ _ _ h
    refine ⟨?_, p1⟩
    split_ifs at s1
    · exact (Step.reset_left _ _ _).1 s1
    · exact s1
  · simp only [hext, if_false] at h
    split at h
    · cases h
    · rename_i reset2 r2 out2 hl
      obtain ⟨s1, p1⟩ := readMembers_step hf w fuel _ _ _ _ _ hl
      cases h
      constructor
      · have s2 : Step r r2 := by
          split_ifs at s1
          · exact (Step.reset_left _ _ _).1 s1
          · exact s1
        split_ifs <;> exact s2
      · refine List.IsPrefix.trans ?_ (p1.trans (List.prefix_append _ _))
        split
        · exact List.prefix_append _ _
        · split_ifs <;> exact List.prefix_append _ _

theorem writeObjectAMF3ClassDef_step (fuel : Nat) (w : Sink)
    (reference resetObject pos flags0 : Nat) (r : AMFReader) (out : List Event)
    (x : Bool × AMFReader × List Event)
    (h : writeObjectAMF3ClassDef rn fuel w reference resetObject pos flags0 r out = some x) :
    Step r x.2.1 ∧ out <+: x.2.2 := by
  simp only [writeObjectAMF3ClassDef] at h
  split_ifs at h
  · obtain ⟨s1, p1⟩ := writeObjectAMF3Body_step hf _ _ _ _ _ _ _ _ _ _ _ _ h
    exact ⟨((Step.pushClassDef r pos).trans (readText_step _ _)).trans s1, p1⟩
  · obtain ⟨s1, p1⟩ := writeObjectAMF3Body_step hf _ _ _ _ _ _ _ _ _ _ _ _ h
    refine ⟨Step.trans ?_ ((readText_step _ _).trans s1), p1⟩
    simp
  · obtain ⟨s1, p1⟩ := writeObjectAMF3Body_step hf _ _ _ _ _ _ _ _ _ _ _ _ h
    exact ⟨(Step.log _ _).trans s1, p1⟩

theorem writeObjectAMF3_step (fuel : Nat) (w : Sink) (r : AMFReader) (out : List Event)
    (x : Bool × AMFReader × List Event)
    (h : writeObjectAMF3 rn fuel w r out = some x) : Step r x.2.1 ∧ out <+: x.2.2 := by
  simp only [writeObjectAMF3] at h
  split_ifs at h with h1 h2 h3 h4
  · cases h; exact ⟨by simp, List.prefix_rfl⟩
  · cases h; exact ⟨Step.log_right _ (by simp), List.prefix_rfl⟩
  · obtain ⟨s1, p1⟩ := writeObjectAMF3ClassDef_step hf _ _ _ _ _ _ _ _ _ h
    exact ⟨by simpa using s1, p1⟩
  · obtain ⟨s1, p1⟩ := writeObjectAMF3ClassDef_step hf _ _ _ _ _ _ _ _ _ h
    refine ⟨?_, p1⟩
    have s0 : Step r { (r.next 1).read7BitValue.2 with
        references := (r.next 1).read7BitValue.2.references ++
          [(r.next 1).read7BitValue.2.position] } :=
      Step.pushReference_right _ (by simp) h4
    exact s0.trans s1
  · obtain ⟨s1, p1⟩ := writeObjectAMF3ClassDef_step hf _ _ _ _ _ _ _ _ _ h
    exact ⟨by simpa using s1, p1⟩

/-- Whatever the kind, `writeOne` makes a `Step` and extends the calls received, when the
nested `readNext` does. -/
theorem writeOne_step (env : Env) (fuel : Nat) (w : Sink) (t : Kind) (r : AMFReader)
    (out : List Event) (x : Bool × AMFReader × List Event)
    (h : writeOne env rn fuel w t r out = some x) : Step r x.2.1 ∧ out <+: x.2.2 := by
  have hobj : writeObject rn fuel w r out = some x → Step r x.2.1 ∧ out <+: x.2.2 := by
    intro h
    simp only [writeObject] at h
    split_ifs at h
    · exact writeObjectAMF0_step hf fuel w r out x h
    · exact writeObjectAMF3_step hf fuel w r out x h
  cases t with
  | NIL => exact writeFlat_step env rn fuel w _ (by simp) r out x h
  | BOOLEAN => exact writeFlat_step env rn fuel w _ (by simp) r out x h
  | NUMBER => exact writeFlat_step env rn fuel w _ (by simp) r out x h
  | STRING => exact writeFlat_step env rn fuel w _ (by simp) r out x h
  | DATE => exact writeFlat_step env rn fuel w _ (by simp) r out x h
  | BYTES => exact writeFlat_step env rn fuel w _ (by simp) r out x h
  | AMF0_REF => exact writeAMF0Ref_step hf w r out x h
  | MAP => exact writeMap_step hf env w r out x h
  | ARRAY =>
    simp only [writeOne, writeArray] at h
    split_ifs at h
    · exact writeArrayAMF0_step hf env fuel w r out x h
    · exact writeArrayAMF3_step hf fuel w r out x h
  | OBJECT => exact hobj h
  | END => exact hobj h

theorem readOneWith_step (env : Env) (fuel : Nat) (w : Sink) (t : Kind) (r : AMFReader)
    (out : List Event) (x : Bool × AMFReader × List Event)
    (h : readOneWith (writeOne env rn fuel w) t r out = some x) :
    Step r x.2.1 ∧ out <+: x.2.2 := by
  simp only [readOneWith] at h
  split_ifs at h
  · split at h
    · cases h
    · rename_i written r1 out1 hw
      obtain ⟨s1, p1⟩ := writeOne_step hf env fuel w t _ out _ hw
      cases h
      exact ⟨(Step.amf3_right _ _ _).2 ((Step.amf3_left _ _ _).1 s1), p1⟩
  · exact writeOne_step hf env fuel w t r out x h
end

/-- Every `readNext` makes a `Step` and extends the calls received. -/
theorem readNext_frames (env : Env) : ∀ fuel : Nat, Frames (readNext env fuel) := by
  intro fuel
  induction fuel with
  | zero => intro w r out x h; simp only [readNext] at h; cases h
  | succ fuel ih =>
    intro w r out x h
    have s0 := followingType_step r
    simp only [readNext] at h
    split_ifs at h
    · cases h; exact ⟨s0, List.prefix_rfl⟩
    · obtain ⟨s1, p1⟩ := readOneWith_step ih env fuel w _ _ out x h
      exact ⟨s0.trans s1, p1⟩

theorem readOne_step (env : Env) (fuel : Nat) (w : Sink) (t : Kind) (r : AMFReader)
    (out : List Event) (x : Bool × AMFReader × List Event)
    (h : readOne env fuel w t r out = some x) : Step r x.2.1 ∧ out <+: x.2.2 :=
  readOneWith_step (readNext_frames env fuel) env fuel w t r out x h

@[simp] theorem read7BitValue_stringReferences (r : AMFReader) :
    r.read7BitValue.2.stringReferences = r.stringReferences := by
  rw [read7BitValue_eq]

@[simp] theorem read7BitValue_data (r : AMFReader) : r.read7BitValue.2.data = r.data := by
  rw [read7BitValue_eq]

/-- C15 (source lines 45-76). In AMF3 mode `readText`, whether it reads a string value or
a property name, leaves the string table as it is on a zero-length inline string and on a
back-reference, and appends exactly one entry, the position of the header, on a non-empty
inline string; the same holds of a string value read by `writeOne`.  Hence, when every
entry of the table is the header of an inline string of length at least one, this is so
after `readText` and after any `readNext`, and a back-reference within the table yields
a string of length at least one. -/
theorem C15_empty_string_is_never_registered (env : Env) (rn : ReadNext) (fuel : Nat) (w : Sink)
    (r : AMFReader) (nullIfEmpty : Bool) (out : List Event) (hmode : r.amf3 ≠ 0) :
    (r.read7BitValue.1 % 2 = 1 → r.read7BitValue.1 / 2 = 0 →
        (readText r nullIfEmpty).2.1 = 0
        ∧ (readText r nullIfEmpty).2.2.stringReferences = r.stringReferences)
    ∧ (r.read7BitValue.1 % 2 = 1 → 0 < r.read7BitValue.1 / 2 →
        (readText r nullIfEmpty).2.1 = r.read7BitValue.1 / 2
        ∧ (readText r nullIfEmpty).2.2.stringReferences = r.stringReferences ++ [r.position])
    ∧ (r.read7BitValue.1 % 2 = 0 →
        (readText r nullIfEmpty).2.2.stringReferences = r.stringReferences)
    ∧ (r.peek ≠ AMF_LONG_STRING → (r.next 1).read7BitValue.1 % 2 = 1 →
        (r.next 1).read7BitValue.1 / 2 = 0 →
        writeOne env rn fuel w STRING r out
          = some (true, (r.next 1).read7BitValue.2, out ++ [Event.writeString [] 0]))
    ∧ ((∀ e ∈ r.stringReferences, GoodAnchor r.data e) →
        (∀ e ∈ (readText r nullIfEmpty).2.2.stringReferences, GoodAnchor r.data e)
        ∧ (r.read7BitValue.1 % 2 = 0 → r.read7BitValue.1 / 2 < r.stringReferences.length →
            1 ≤ (readText r nullIfEmpty).2.1)
        ∧ (∀ (out' : List Event) (x : Bool × AMFReader × List Event),
            readNext env fuel w r out' = some x →
            x.2.1.data = r.data ∧ ∀ e ∈ x.2.1.stringReferences, GoodAnchor x.2.1.data e)) := by
  refine ⟨?_, ?_, ?_, ?_, ?_⟩
  · intro h1 h2
    have h3 : ¬ r.read7BitValue.1 / 2 > 0 := by omega
    simp only [readText, if_neg hmode, if_pos h1, if_neg h3]
    exact ⟨h2, read7BitValue_stringReferences r⟩
  · intro h1 h2
    simp only [readText, if_neg hmode, if_pos h1, if_pos h2, next_stringReferences,
      read7BitValue_stringReferences, and_self]
  · intro h1
    have h3 : ¬ r.read7BitValue.1 % 2 = 1 := by omega
    simp only [readText, if_neg hmode, if_neg h3]
    split_ifs <;> simp
  · intro hp h1 h2
    have hm : ¬ (r.next 1).amf3 = 0 := hmode
    have h3 : ¬ (r.next 1).read7BitValue.1 / 2 > 0 := by omega
    simp only [writeOne, writeString, read8_fst, read8_snd, if_neg hp, readText, if_neg hm,
      if_pos h1, if_neg h3, Bool.false_eq_true, false_and, if_false, AMFReader.text]
    rw [h2, List.take_zero]
  · intro hgood
    have hs := readText_step r nullIfEmpty
    refine ⟨?_, ?_, ?_⟩
    · intro e he
      rcases hs.2.2.2.1 e he with h | h
      · exact hgood e h
      · exact h
    · intro h1 h2
      have h3 : ¬ r.read7BitValue.1 % 2 = 1 := by omega
      have h4 : ¬ r.read7BitValue.1 / 2 ≥ r.stringReferences.length := by omega
      have hmem : r.stringReferences.getD (r.read7BitValue.1 / 2) 0 ∈ r.stringReferences := by
        rw [List.getD_eq_getElem _ _ h2]
        exact List.getElem_mem _
      obtain ⟨hlt, _, hsize⟩ := hgood _ hmem
      have key : (r.read7BitValue.2.reset
          (r.stringReferences.getD (r.read7BitValue.1 / 2) 0)).read7BitValue.1
          = (read7BitValueAt r.data (r.stringReferences.getD (r.read7BitValue.1 / 2) 0)).1 := by
        rw [read7BitValue_fst_at]
        have hpos : (r.read7BitValue.2.reset
            (r.stringReferences.getD (r.read7BitValue.1 / 2) 0)).position
            = r.stringReferences.getD (r.read7BitValue.1 / 2) 0 := by
          simp only [AMFReader.reset, read7BitValue_data]
          rw [if_neg (by omega)]
        have hd : (r.read7BitValue.2.reset
            (r.stringReferences.getD (r.read7BitValue.1 / 2) 0)).data = r.data := by
          simp only [AMFReader.reset, read7BitValue_data]
        rw [hpos, hd]
      simp only [readText, if_neg hmode, if_neg h3, read7BitValue_stringReferences, if_neg h4,
        key]
      exact hsize
    · intro out' x hx
      obtain ⟨hd, _, _, hk, _⟩ := (readNext_frames env fuel w r out' x hx).1
      refine ⟨hd, ?_⟩
      intro e he
      rw [hd]
      rcases hk e he with h | h
      · exact hgood e h
      · exact h

/-- C15 on the buffer `01 03 'a' 00`: the empty inline string at 0 is not registered,
the inline string "a" at 1 is registered once, and the back-reference at 3 to the entry
0 of the table `[1]` yields a string of length at least one. -/
theorem C15_empty_string_is_never_registered_witness :
    (readText ⟨[1, 3, 97, 0], 0, 2, true, [], [], [], [], []⟩ true).2.2.stringReferences = []
    ∧ (readText ⟨[1, 3, 97, 0], 1, 2, true, [], [], [], [], []⟩ true).2.2.stringReferences = [1]
    ∧ 1 ≤ (readText ⟨[1, 3, 97, 0], 3, 2, true, [1], [], [], [], []⟩ true).2.1 :=
  ⟨((C15_empty_string_is_never_registered plainEnv (readNext plainEnv 0) 1 plainSink
      ⟨[1, 3, 97, 0], 0, 2, true, [], [], [], [], []⟩ true [] (by decide)).1
      (by decide) (by decide)).2,
   ((C15_empty_string_is_never_registered plainEnv (readNext plainEnv 0) 1 plainSink
      ⟨[1, 3, 97, 0], 1, 2, true, [], [], [], [], []⟩ true [] (by decide)).2.1
      (by decide) (by decide)).2,
   ((C15_empty_string_is_never_registered plainEnv (readNext plainEnv 0) 1 plainSink
      ⟨[1, 3, 97, 0], 3, 2, true, [1], [], [], [], []⟩ true [] (by decide)).2.2.2.2
      (by decide)).2.1 (by decide) (by decide)⟩

/-- C18 as stated fails: with the capture flag false, the AMF3 string `06 03 'a'` is
registered in the string table, and the object `0A 0B 03 'A' 01`, whose trait is defined
inline, is registered in the class-def table and its class name in the string table
(source lines 61 and 540 do not test `_referencing`); the object table is not touched. -/
theorem C18_counterexample_string_and_classdef_registered :
    readNext plainEnv 1 plainSink ⟨[6, 3, 97], 0, 2, false, [], [], [], [], []⟩ []
      = some (true, ⟨[6, 3, 97], 3, 2, false, [1], [], [], [], []⟩,
          [Event.writeString [97] 1])
    ∧ readNext plainEnv 2 plainSink ⟨[0x0A, 0x0B, 3, 65, 1], 0, 2, false, [], [], [], [], []⟩ []
      = some (true, ⟨[0x0A, 0x0B, 3, 65, 1], 5, 2, false, [2], [2], [], [], []⟩,
          [Event.beginObject 0 (some [65]), Event.endObject]) := by
  decide

/-- C18, amended (source lines 61, 176-189, 244-247, 272-275, 303-306, 363-366, 407-410,
474-477, 510-513, 540). With the capture flag false, decoding any value, by `readNext`
or by `readOne` for any kind, in either mode and for every sink, leaves the object table
and the legacy table unchanged and the flag false; the string table and the class-def
table keep their entries and may only grow at their end. -/
theorem C18_capture_off_keeps_object_and_legacy_tables (env : Env) (fuel : Nat) (w : Sink)
    (r : AMFReader) (out : List Event) (hcap : r.referencing = false) :
    (∀ x, readNext env fuel w r out = some x →
      x.2.1.references = r.references ∧ x.2.1.amf0References = r.amf0References
      ∧ x.2.1.referencing = false
      ∧ r.stringReferences <+: x.2.1.stringReferences
      ∧ r.classDefReferences <+: x.2.1.classDefReferences)
    ∧ (∀ (t : Kind) x, readOne env fuel w t r out = some x →
      x.2.1.references = r.references ∧ x.2.1.amf0References = r.amf0References
      ∧ x.2.1.referencing = false
      ∧ r.stringReferences <+: x.2.1.stringReferences
      ∧ r.classDefReferences <+: x.2.1.classDefReferences) := by
  constructor
  · intro x h
    obtain ⟨_, hg, hs, _, hc, _, _, hf, _⟩ := (readNext_frames env fuel w r out x h).1
    exact ⟨(hf hcap).1, (hf hcap).2, hg.trans hcap, hs, hc⟩
  · intro t x h
    obtain ⟨_, hg, hs, _, hc, _, _, hf, _⟩ := (readOne_step env fuel w t r out x h).1
    exact ⟨(hf hcap).1, (hf hcap).2, hg.trans hcap, hs, hc⟩

/-- C18, amended, on the AMF3 array `09 03 01 08 01 <double>` of one inline date, with
the capture flag false and the object table `[7]`: the table is `[7]` afterwards. -/
theorem C18_capture_off_keeps_object_and_legacy_tables_witness :
    readNext plainEnv 2 plainSink
        ⟨[9, 3, 1, 8, 1, 0x40, 0x8F, 0x40, 0, 0, 0, 0, 0], 0, 2, false, [], [], [7], [], []⟩ []
      = some (true,
          ⟨[9, 3, 1, 8, 1, 0x40, 0x8F, 0x40, 0, 0, 0, 0, 0], 13, 2, false, [], [], [7], [], []⟩,
          [Event.beginArray 0 1, Event.writeDate 0 0x408F400000000000, Event.endArray])
    ∧ (⟨[9, 3, 1, 8, 1, 0x40, 0x8F, 0x40, 0, 0, 0, 0, 0], 13, 2, false, [], [], [7], [], []⟩ :
        AMFReader).references = [7] :=
  ⟨by decide,
   ((C18_capture_off_keeps_object_and_legacy_tables plainEnv 2 plainSink
      ⟨[9, 3, 1, 8, 1, 0x40, 0x8F, 0x40, 0, 0, 0, 0, 0], 0, 2, false, [], [], [7], [], []⟩ []
      rfl).1
      (true,
        ⟨[9, 3, 1, 8, 1, 0x40, 0x8F, 0x40, 0, 0, 0, 0, 0], 13, 2, false, [], [], [7], [], []⟩,
        [Event.beginArray 0 1, Event.writeDate 0 0x408F400000000000, Event.endArray])
      (by decide)).1⟩

/-! ## The reference ids -/

theorem BeginsWith.of_first {out out' : List Event} {id : Nat} (e : Event)
    (h : out ++ [e] <+: out') (he : e.reference = some id) : BeginsWith out id out' :=
  ⟨e, he, h⟩

theorem readArrayProperties_started {rn : ReadNext} (w : Sink) (reference size : Nat) :
    ∀ (fuel : Nat) (r : AMFReader) (out : List Event) (x : Bool × AMFReader × List Event),
    readArrayProperties rn w reference size fuel true r out = some x → x.1 = true := by
  intro fuel
  induction fuel with
  | zero => intro r out x h; simp only [readArrayProperties] at h; cases h
  | succ fuel ih =>
    intro r out x h
    cases ht : (readText r true).1 with
    | none =>
      simp only [readArrayProperties, ht, Option.some.injEq] at h
      subst h
      rfl
    | some value =>
      simp only [readArrayProperties, ht] at h
      split_ifs at h with hav
      · simp only [Option.some.injEq] at h
        subst h
        rfl
      all_goals
        split at h
        · cases h
        · exact ih _ _ _ h

section
variable {rn : ReadNext} (hf : Frames rn)
include hf

theorem readArrayProperties_first (w : Sink) (reference size : Nat)
    (fuel : Nat) (r : AMFReader) (out : List Event) (x : Bool × AMFReader × List Event)
    (h : readArrayProperties rn w reference size fuel false r out = some x) :
    (x.1 = false ∧ x.2.2 = out)
    ∨ (x.1 = true ∧ out ++ [Event.beginObjectArray reference size] <+: x.2.2) := by
  cases fuel with
  | zero => simp only [readArrayProperties] at h; cases h
  | succ fuel =>
    cases ht : (readText r true).1 with
    | none =>
      simp only [readArrayProperties, ht, Option.some.injEq] at h
      subst h
      exact Or.inl ⟨rfl, rfl⟩
    | some value =>
      simp only [readArrayProperties, ht] at h
      split_ifs at h with hav
      · simp only [Option.some.injEq] at h
        subst h
        exact Or.inl ⟨rfl, rfl⟩
      all_goals
        split at h
        · cases h
        · rename_i written r2 out2 hrn
          obtain ⟨_, p1⟩ := hf _ _ _ _ hrn
          obtain ⟨_, p2⟩ := readArrayProperties_step hf w reference size _ _ _ _ _ h
          refine Or.inr ⟨readArrayProperties_started w reference size _ _ _ _ h, ?_⟩
          simp only [Bool.false_eq_true, if_false] at p1
          first
            | exact (prefix_of_append p1).trans ((prefix_ite_append _ _ _).trans p2)
            | contradiction

theorem writeArrayAMF3Body_first (fuel : Nat) (w : Sink) (reference size reset : Nat)
    (r : AMFReader) (out : List Event) (x : Bool × AMFReader × List Event)
    (h : writeArrayAMF3Body rn fuel w reference size reset r out = some x) :
    BeginsWith out reference x.2.2 := by
  simp only [writeArrayAMF3Body] at h
  split at h
  · cases h
  · rename_i started r1 out1 hl
    obtain ⟨_, p2⟩ := writeArrayElements_step hf w size reset r1 _ x h
    rcases readArrayProperties_first hf w reference size fuel r out _ hl with ⟨h1, h2⟩ | ⟨h1, h2⟩
    · simp only at h1 h2
      subst h1 h2
      simp only [Bool.false_eq_true, if_false] at p2
      exact BeginsWith.of_first _ p2 rfl
    · simp only at h1 h2
      subst h1
      simp only [if_true] at p2
      exact BeginsWith.of_first _ (h2.trans (prefix_of_append p2)) rfl

theorem writeObjectAMF3Body_first (fuel : Nat) (w : Sink)
    (reference resetObject flags reset : Nat) (text : Option Nat) (size : Nat)
    (stringify : Bool) (r : AMFReader) (out : List Event)
    (x : Bool × AMFReader × List Event) (hext : ¬ flags % 2 = 1)
    (h : writeObjectAMF3Body rn fuel w reference resetObject flags reset text size stringify
      r out = some x) :
    BeginsWith out reference x.2.2 := by
  simp only [writeObjectAMF3Body, if_neg hext] at h
  split at h
  · cases h
  · rename_i reset2 r2 out2 hl
    obtain ⟨_, p1⟩ := readMembers_step hf w fuel _ _ _ _ _ hl
    cases h
    have p2 : out2 <+: out2 ++ [Event.endObject] := List.prefix_append _ _
    split at p1
    · exact BeginsWith.of_first _ (p1.trans p2) rfl
    · split_ifs at p1 <;> exact BeginsWith.of_first _ (p1.trans p2) rfl

theorem writeObjectAMF3ClassDef_first (fuel : Nat) (w : Sink)
    (reference resetObject pos flags0 : Nat) (r : AMFReader) (out : List Event)
    (x : Bool × AMFReader × List Event) (hext : traitExternal flags0 r = false)
    (h : writeObjectAMF3ClassDef rn fuel w reference resetObject pos flags0 r out = some x) :
    BeginsWith out reference x.2.2 := by
  simp only [writeObjectAMF3ClassDef] at h
  simp only [traitExternal] at hext
  split_ifs at h hext with h1 h2
  · exact writeObjectAMF3Body_first hf _ _ _ _ _ _ _ _ _ _ _ _ (by simpa using hext) h
  · exact writeObjectAMF3Body_first hf _ _ _ _ _ _ _ _ _ _ _ _ (by simpa using hext) h
  · exact writeObjectAMF3Body_first hf _ _ _ _ _ _ _ _ _ _ _ _ (by simpa using hext) h
end

theorem Step.references_grow {r r' : AMFReader} (h : Step r r') :
    r.references <+: r'.references := h.2.2.2.2.2.1

theorem Step.amf0References_grow {r r' : AMFReader} (h : Step r r') :
    r.amf0References <+: r'.amf0References := h.2.2.2.2.2.2.1

theorem traitExternal_references (flags0 : Nat) (r : AMFReader) (table : List Nat) :
    traitExternal flags0 { r with references := table } = traitExternal flags0 r := by
  simp only [traitExternal, read7BitValue_fst_at]
  rfl

@[simp] theorem readBE_references (n acc : Nat) (r : AMFReader) :
    (AMFReader.readBE n acc r).2.references = r.references := by
  rw [readBE_eq]

@[simp] theorem readNumber_references (r : AMFReader) :
    r.readNumber.2.references = r.references := readBE_references 8 0 r

section
variable {rn : ReadNext} (hf : Frames rn)
include hf

/-- An inline AMF3 value of the object table, decoded with the capture flag on, is
registered at the end of the table and its first call carries the id of that entry. -/
theorem writeOne_inline_registered (env : Env) (fuel : Nat) (w : Sink)
    (r : AMFReader) (out : List Event) (t : Kind) (ht : t ∈ [BYTES, MAP, DATE, ARRAY, OBJECT])
    (hmode : t ∈ [DATE, ARRAY, OBJECT] → r.amf3 ≠ 0)
    (h1 : (r.next 1).read7BitValue.1 % 2 = 1) (hg : r.referencing = true)
    (x : Bool × AMFReader × List Event) (h : writeOne env rn fuel w t r out = some x) :
    (∃ pos, r.references ++ [pos] <+: x.2.1.references)
    ∧ ((t = OBJECT → objectExternal r = false) →
        BeginsWith out (objectId r.references.length) x.2.2) := by
  have hg2 : (r.next 1).read7BitValue.2.referencing = true := by simpa using hg
  simp only [List.mem_cons, List.mem_singleton, List.not_mem_nil, or_false] at ht hmode
  rcases ht with rfl | rfl | rfl | rfl | rfl
  · simp only [writeOne, writeBytes, if_pos h1, if_pos hg2] at h
    cases h
    exact ⟨⟨(r.next 1).position, by simp⟩,
      fun _ => BeginsWith.of_first _ List.prefix_rfl (by simp [Event.reference, objectId])⟩
  · simp only [writeOne, writeMap, ne_eq, h1, not_true_eq_false, if_false, if_pos hg2] at h
    obtain ⟨s1, p1⟩ := writeMapBody_step hf env w _ _ _ _ _ _ h
    exact ⟨⟨_, by simpa using s1.references_grow⟩,
      fun _ => BeginsWith.of_first _ p1 (by simp [Event.reference, objectId])⟩
  · have hm := hmode (Or.inl rfl)
    simp only [writeOne, writeDate, next_amf3, ne_eq, hm, not_false_eq_true, if_true, if_pos h1,
      if_pos hg2] at h
    cases h
    exact ⟨⟨(r.next 1).position, by simp⟩,
      fun _ => BeginsWith.of_first _ List.prefix_rfl (by simp [Event.reference, objectId])⟩
  · have hm := hmode (Or.inr (Or.inl rfl))
    simp only [writeOne, writeArray, if_neg hm, writeArrayAMF3, ne_eq, h1, not_true_eq_false,
      if_false, if_pos hg2] at h
    obtain ⟨s1, _⟩ := writeArrayAMF3Body_step hf _ _ _ _ _ _ _ _ h
    have b := writeArrayAMF3Body_first hf _ _ _ _ _ _ _ _ h
    refine ⟨⟨_, by simpa using s1.references_grow⟩, fun _ => ?_⟩
    simpa [objectId] using b
  · have hm := hmode (Or.inr (Or.inr rfl))
    simp only [writeOne, writeObject, if_neg hm, writeObjectAMF3, ne_eq, h1, not_true_eq_false,
      if_false, if_pos hg2] at h
    obtain ⟨s1, _⟩ := writeObjectAMF3ClassDef_step hf _ _ _ _ _ _ _ _ _ h
    refine ⟨⟨_, by simpa using s1.references_grow⟩, fun hobj => ?_⟩
    have hext := hobj rfl
    simp only [objectExternal, if_pos h1] at hext
    have b := writeObjectAMF3ClassDef_first hf _ _ _ _ _ _ _ _ _
      (by rw [traitExternal_references]; exact hext) h
    simpa [objectId] using b

/-- An inline AMF3 value of the object table, decoded with the capture flag off, makes
its first call with the id `0`. -/
theorem writeOne_inline_unregistered (env : Env) (fuel : Nat) (w : Sink)
    (r : AMFReader) (out : List Event) (t : Kind) (ht : t ∈ [BYTES, MAP, DATE, ARRAY, OBJECT])
    (hmode : t ∈ [DATE, ARRAY, OBJECT] → r.amf3 ≠ 0)
    (h1 : (r.next 1).read7BitValue.1 % 2 = 1) (hg : r.referencing = false)
    (hobj : t = OBJECT → objectExternal r = false)
    (x : Bool × AMFReader × List Event) (h : writeOne env rn fuel w t r out = some x) :
    BeginsWith out 0 x.2.2 := by
  have hg2 : ¬ (r.next 1).read7BitValue.2.referencing = true := by simp [hg]
  simp only [List.mem_cons, List.mem_singleton, List.not_mem_nil, or_false] at ht hmode
  rcases ht with rfl | rfl | rfl | rfl | rfl
  · simp only [writeOne, writeBytes, if_pos h1, if_neg hg2] at h
    cases h
    exact BeginsWith.of_first _ List.prefix_rfl rfl
  · simp only [writeOne, writeMap, ne_eq, h1, not_true_eq_false, if_false, if_neg hg2] at h
    obtain ⟨_, p1⟩ := writeMapBody_step hf env w _ _ _ _ _ _ h
    exact BeginsWith.of_first _ p1 rfl
  · have hm := hmode (Or.inl rfl)
    simp only [writeOne, writeDate, next_amf3, ne_eq, hm, not_false_eq_true, if_true, if_pos h1,
      if_neg hg2] at h
    cases h
    exact BeginsWith.of_first _ List.prefix_rfl rfl
  · have hm := hmode (Or.inr (Or.inl rfl))
    simp only [writeOne, writeArray, if_neg hm, writeArrayAMF3, ne_eq, h1, not_true_eq_false,
      if_false, if_neg hg2] at h
    exact writeArrayAMF3Body_first hf _ _ _ _ _ _ _ _ h
  · have hm := hmode (Or.inr (Or.inr rfl))
    simp only [writeOne, writeObject, if_neg hm, writeObjectAMF3, ne_eq, h1, not_true_eq_false,
      if_false, if_neg hg2] at h
    have hext := hobj rfl
    simp only [objectExternal, if_pos h1] at hext
    exact writeObjectAMF3ClassDef_first hf _ _ _ _ _ _ _ _ _ hext h

/-- A back-reference to the entry `i` of the object table that the sink does not know is
decoded again from its anchor, and the first call carries the id of the entry `i`. -/
theorem writeOne_reference_redecoded (env : Env) (fuel : Nat) (w : Sink)
    (r : AMFReader) (out : List Event) (t : Kind) (ht : t ∈ [BYTES, MAP, DATE, ARRAY, OBJECT])
    (hmode : t ∈ [DATE, ARRAY, OBJECT] → r.amf3 ≠ 0)
    (h0 : (r.next 1).read7BitValue.1 % 2 = 0)
    (hprobe : w.probe out (objectId ((r.next 1).read7BitValue.1 / 2)) = false)
    (hin : (r.next 1).read7BitValue.1 / 2 < r.references.length)
    (hobj : t = OBJECT → objectExternal r = false)
    (x : Bool × AMFReader × List Event) (h : writeOne env rn fuel w t r out = some x) :
    BeginsWith out (objectId ((r.next 1).read7BitValue.1 / 2)) x.2.2 := by
  have h1 : ¬ (r.next 1).read7BitValue.1 % 2 = 1 := by omega
  have hin2 : ¬ (r.next 1).read7BitValue.1 / 2 ≥ (r.next 1).read7BitValue.2.references.length := by
    simp only [read7BitValue_references, next_references]; omega
  simp only [objectId] at hprobe
  simp only [List.mem_cons, List.mem_singleton, List.not_mem_nil, or_false] at ht hmode
  rcases ht with rfl | rfl | rfl | rfl | rfl
  · simp only [writeOne, writeBytes, if_neg h1, hprobe, Bool.false_eq_true, if_false,
      if_neg hin2] at h
    cases h
    exact BeginsWith.of_first _ List.prefix_rfl rfl
  · simp only [writeOne, writeMap, ne_eq, h1, not_false_eq_true, if_true, hprobe,
      Bool.false_eq_true, if_false, if_neg hin2] at h
    obtain ⟨_, p1⟩ := writeMapBody_step hf env w _ _ _ _ _ _ h
    exact BeginsWith.of_first _ p1 rfl
  · have hm := hmode (Or.inl rfl)
    simp only [writeOne, writeDate, next_amf3, ne_eq, hm, not_false_eq_true, if_true, if_neg h1,
      hprobe, Bool.false_eq_true, if_false, if_neg hin2] at h
    cases h
    exact BeginsWith.of_first _ List.prefix_rfl rfl
  · have hm := hmode (Or.inr (Or.inl rfl))
    simp only [writeOne, writeArray, if_neg hm, writeArrayAMF3, ne_eq, h1, not_false_eq_true,
      if_true, hprobe, Bool.false_eq_true, if_false, if_neg hin2] at h
    exact writeArrayAMF3Body_first hf _ _ _ _ _ _ _ _ h
  · have hm := hmode (Or.inr (Or.inr rfl))
    simp only [writeOne, writeObject, if_neg hm, writeObjectAMF3, ne_eq, h1, not_false_eq_true,
      if_true, hprobe, Bool.false_eq_true, if_false, if_neg hin2] at h
    have hext := hobj rfl
    simp only [objectExternal, if_neg h1] at hext
    exact writeObjectAMF3ClassDef_first hf _ _ _ _ _ _ _ _ _ hext h
end

section
variable {rn : ReadNext} (hf : Frames rn)
include hf

/-- An AMF0 array or object decoded with the capture flag on is registered at the end of
the legacy table, at the position that follows its marker, and its first call carries the
id of that entry; with the flag off the first call carries the id `0`. -/
theorem writeOne_legacy_registered (env : Env) (fuel : Nat) (w : Sink)
    (r : AMFReader) (out : List Event) (t : Kind) (ht : t ∈ [ARRAY, OBJECT])
    (hmode : r.amf3 = 0)
    (x : Bool × AMFReader × List Event) (h : writeOne env rn fuel w t r out = some x) :
    (r.referencing = true →
      r.amf0References ++ [(r.next 1).position] <+: x.2.1.amf0References
      ∧ BeginsWith out (legacyId r.amf0References.length) x.2.2)
    ∧ (r.referencing = false → BeginsWith out 0 x.2.2) := by
  simp only [List.mem_cons, List.mem_singleton, List.not_mem_nil, or_false] at ht
  rcases ht with rfl | rfl
  · simp only [writeOne, writeArray, if_pos hmode, writeArrayAMF0, read8_snd] at h
    constructor
    · intro hg
      have hg1 : (r.next 1).referencing = true := hg
      simp only [if_pos hg1] at h
      split_ifs at h
      · obtain ⟨s1, p1⟩ := writeArrayElements_step hf w _ _ _ _ _ h
        exact ⟨by simpa using s1.amf0References_grow,
          BeginsWith.of_first _ p1 (by simp [Event.reference, legacyId, Nat.mul_comm])⟩
      · split at h
        · cases h
        · rename_i r4 hs
          have s1 := (Step.read32_left _ _).1 (skipElements_step hf env _ _ _ hs)
          split at h
          · cases h
          · rename_i r5 out2 hp
            obtain ⟨s2, p2⟩ := readProperties_step hf w _ _ _ _ hp
            obtain ⟨s3, p3⟩ := writeArrayElements_step hf w _ _ _ _ _ h
            constructor
            · have s4 : Step r5 x.2.1 := by
                refine Step.trans ?_ s3
                simp only [Step.reset_right]
                split_ifs
                · exact Step.log_right _ (by simp)
                · simp
              simpa using ((s1.trans s2).trans s4).amf0References_grow
            · exact BeginsWith.of_first _ (p2.trans (prefix_of_append p3))
                (by simp [Event.reference, legacyId, Nat.mul_comm])
    · intro hg
      have hg1 : ¬ (r.next 1).referencing = true := by simp [hg]
      simp only [if_neg hg1] at h
      split_ifs at h
      · obtain ⟨_, p1⟩ := writeArrayElements_step hf w _ _ _ _ _ h
        exact BeginsWith.of_first _ p1 rfl
      · split at h
        · cases h
        · split at h
          · cases h
          · rename_i r5 out2 hp
            obtain ⟨_, p2⟩ := readProperties_step hf w _ _ _ _ hp
            obtain ⟨_, p3⟩ := writeArrayElements_step hf w _ _ _ _ _ h
            exact BeginsWith.of_first _ (p2.trans (prefix_of_append p3)) rfl
  · simp only [writeOne, writeObject, if_pos hmode, writeObjectAMF0, read8_snd] at h
    split at h
    · cases h
    · rename_i r4 out2 hp
      obtain ⟨s2, p2⟩ := readProperties_step hf w _ _ _ _ hp
      cases h
      have p3 : out2 <+: out2 ++ [Event.endObject] := List.prefix_append _ _
      constructor
      · intro hg
        have hg1 : (r.next 1).referencing = true := hg
        simp only [if_pos hg1] at s2 p2
        constructor
        · have s1 : Step ({ r.next 1 with
              amf0References := (r.next 1).amf0References ++ [(r.next 1).position] } : AMFReader)
              r4 := by
            refine Step.trans ?_ s2
            split_ifs
            · exact readText_step _ _
            · exact Step.refl _
          have s4 : Step r4 (if r4.read8.1 ≠ AMF_END_OBJECT then
              r4.read8.2.log (Log.error Msg.endMarkerAbsent) else r4.read8.2) := by
            split_ifs
            · exact Step.log_right _ (by simp)
            · simp
          simpa using (s1.trans s4).amf0References_grow
        · split at p2
          · exact BeginsWith.of_first _ (p2.trans p3)
              (by simp [Event.reference, legacyId, Nat.mul_comm])
          · split_ifs at p2 <;>
              exact BeginsWith.of_first _ (p2.trans p3)
                (by simp [Event.reference, legacyId, Nat.mul_comm])
      · intro hg
        have hg1 : ¬ (r.next 1).referencing = true := by simp [hg]
        simp only [if_neg hg1] at p2
        split at p2
        · exact BeginsWith.of_first _ (p2.trans p3) rfl
        · split_ifs at p2 <;> exact BeginsWith.of_first _ (p2.trans p3) rfl
end

set_option maxRecDepth 100000 in
/-- C20 as stated fails in two places.  For the legacy table: on
`03 0300 <768 zero bytes> 05 000009` followed by `07 0000`, the object is registered as
entry 0 of the legacy table (anchor 1) and opened with the id 2; the reference to the
entry 0 probes the id 2, and with a sink that does not know it the value decoded again
from the anchor is opened with the id 0: the re-decode is a `readNext` with
`_referencing` false (source lines 183-186), to which no id is passed.  For the object
table: the externalizable object `0A 07 07 01 01 01 01` is registered as entry 0 (anchor
2), yet no call carries the id 3: the sink only receives the `writeNull` of the nested
value (lines 552-557). -/
theorem C20_counterexample_redecode_and_external_pass_no_id :
    readNext plainEnv 3 plainSink
        (AMFReader.start (3 :: 3 :: 0 :: (List.replicate 768 0 ++ [5, 0, 0, 9, 7, 0, 0])) 0) []
      = some (true,
          ⟨3 :: 3 :: 0 :: (List.replicate 768 0 ++ [5, 0, 0, 9, 7, 0, 0]), 775, 0, true,
            [], [], [], [1], []⟩,
          [Event.beginObject 2 none, Event.writePropertyName [], Event.writeNull,
           Event.endObject])
    ∧ readNext plainEnv 3 ⟨fun _ id => id == 2, fun _ _ _ => false⟩
        ⟨3 :: 3 :: 0 :: (List.replicate 768 0 ++ [5, 0, 0, 9, 7, 0, 0]), 775, 0, true,
            [], [], [], [1], []⟩ []
      = some (true,
          ⟨3 :: 3 :: 0 :: (List.replicate 768 0 ++ [5, 0, 0, 9, 7, 0, 0]), 778, 0, true,
            [], [], [], [1], []⟩, [])
    ∧ readNext plainEnv 3 plainSink
        ⟨3 :: 3 :: 0 :: (List.replicate 768 0 ++ [5, 0, 0, 9, 7, 0, 0]), 775, 0, true,
            [], [], [], [1], []⟩ []
      = some (true,
          ⟨3 :: 3 :: 0 :: (List.replicate 768 0 ++ [5, 0, 0, 9, 7, 0, 0]), 778, 0, true,
            [], [], [], [1], [Log.error Msg.endMarkerAbsent]⟩,
          [Event.beginObject 0 none, Event.endObject])
    ∧ objectExternal (AMFReader.start [0x0A, 7, 7, 1, 1, 1, 1] 2) = true
    ∧ readNext plainEnv 2 plainSink (AMFReader.start [0x0A, 7, 7, 1, 1, 1, 1] 2) []
      = some (true, ⟨[0x0A, 7, 7, 1, 1, 1, 1], 7, 2, true, [2], [2], [2], [], []⟩,
          [Event.writeNull]) := by
  decide

/-- C20, amended (source lines 173-181, 244-259, 272-290, 303-324, 363-373, 407-430,
474-477, 510-531, 552). For an AMF3 value of the object table (bytes, date, array, map,
object): an inline value decoded with the capture flag on is registered at the end of the
table, as the entry `i`, and its first call on the sink carries `objectId i = 2*(i+1)+1`;
a back-reference to the entry `i` probes the sink with that same id (a known id is
skipped), and, when the sink does not know it, the value decoded again makes its first
call with that same id; with the flag off an inline value carries the id `0`.  For an
object the first call is claimed when its trait is not externalizable (`objectExternal`
is the bit tested at line 552).  Bytes and dates always return.  For the legacy table: an
AMF0 array or object decoded with the flag on is registered as the entry `i` and its
first call carries `legacyId i = 2*(i+1)`, with the flag off the id `0`; the AMF0
reference to the entry `i` probes the sink with `legacyId i`.  The ids are injective
within a table, the legacy ids are even and the object ids odd, so they never collide,
and none is `0`. -/
theorem C20_reference_ids_are_consistent (env : Env) (fuel : Nat) (w : Sink) (r : AMFReader)
    (out : List Event) :
    (∀ t ∈ [BYTES, MAP, DATE, ARRAY, OBJECT], (t ∈ [DATE, ARRAY, OBJECT] → r.amf3 ≠ 0) →
      ((r.next 1).read7BitValue.1 % 2 = 0 →
        w.probe out (objectId ((r.next 1).read7BitValue.1 / 2)) = true →
        writeOne env (readNext env fuel) fuel w t r out
          = some (true, (r.next 1).read7BitValue.2, out))
      ∧ ∀ x, writeOne env (readNext env fuel) fuel w t r out = some x →
        ((r.next 1).read7BitValue.1 % 2 = 1 → r.referencing = true →
          (∃ pos, r.references ++ [pos] <+: x.2.1.references)
          ∧ ((t = OBJECT → objectExternal r = false) →
              BeginsWith out (objectId r.references.length) x.2.2))
        ∧ ((r.next 1).read7BitValue.1 % 2 = 1 → r.referencing = false →
          (t = OBJECT → objectExternal r = false) → BeginsWith out 0 x.2.2)
        ∧ ((r.next 1).read7BitValue.1 % 2 = 0 →
          w.probe out (objectId ((r.next 1).read7BitValue.1 / 2)) = false →
          (r.next 1).read7BitValue.1 / 2 < r.references.length →
          (t = OBJECT → objectExternal r = false) →
          BeginsWith out (objectId ((r.next 1).read7BitValue.1 / 2)) x.2.2))
    ∧ (∀ t ∈ [BYTES, DATE], ∃ x, writeOne env (readNext env fuel) fuel w t r out = some x)
    ∧ (r.amf3 = 0 → ∀ t ∈ [ARRAY, OBJECT],
        ∀ x, writeOne env (readNext env fuel) fuel w t r out = some x →
        (r.referencing = true →
          r.amf0References ++ [(r.next 1).position] <+: x.2.1.amf0References
          ∧ BeginsWith out (legacyId r.amf0References.length) x.2.2)
        ∧ (r.referencing = false → BeginsWith out 0 x.2.2))
    ∧ ((r.next 1).read16.1 < r.amf0References.length →
        w.probe out (legacyId (r.next 1).read16.1) = true →
        writeOne env (readNext env fuel) fuel w AMF0_REF r out
          = some (true, (r.next 1).read16.2, out))
    ∧ (∀ i j, legacyId i = legacyId j → i = j)
    ∧ (∀ i j, objectId i = objectId j → i = j)
    ∧ (∀ i j, legacyId i ≠ objectId j)
    ∧ (∀ i, legacyId i % 2 = 0 ∧ objectId i % 2 = 1 ∧ legacyId i ≠ 0 ∧ objectId i ≠ 0) := by
  have hf := readNext_frames env fuel
  refine ⟨?_, ?_, ?_, ?_, ?_, ?_, ?_, ?_⟩
  · intro t ht hmode
    refine ⟨?_, ?_⟩
    · intro h0 hprobe
      exact writeOne_probed_amf3 env _ fuel w r out t ht hmode h0 hprobe
    · intro x h
      exact ⟨fun h1 hg => writeOne_inline_registered hf env fuel w r out t ht hmode h1 hg x h,
        fun h1 hg hobj =>
          writeOne_inline_unregistered hf env fuel w r out t ht hmode h1 hg hobj x h,
        fun h0 hp hin hobj =>
          writeOne_reference_redecoded hf env fuel w r out t ht hmode h0 hp hin hobj x h⟩
  · intro t ht
    refine writeOne_flat_returns env _ fuel w t r out ?_
    simp only [List.mem_cons, List.mem_singleton, List.not_mem_nil, or_false] at ht ⊢
    rcases ht with rfl | rfl <;> simp
  · intro hmode t ht x h
    exact writeOne_legacy_registered hf env fuel w r out t ht hmode x h
  · intro hin hprobe
    have hlt : ¬ (r.next 1).read16.1 ≥ (r.next 1).read16.2.amf0References.length := by
      simp only [read16_amf0References, next_amf0References]; omega
    have hp : w.probe out (((r.next 1).read16.1 + 1) * 2) = true := by
      rw [Nat.mul_comm]; exact hprobe
    simp only [writeOne, writeAMF0Ref, if_neg hlt, hp, if_true]
  · intro i j h
    simp only [legacyId] at h
    omega
  · intro i j h
    simp only [objectId] at h
    omega
  · intro i j h
    simp only [legacyId, objectId] at h
    omega
  · intro i
    simp only [legacyId, objectId]
    omega

/-- C20, amended, on the AMF3 buffer `0C 03 'a' 0C 00` (a byte array, then a
back-reference to it), on the AMF3 buffer `0A 0B 01 01 0A 00` (an object whose trait is
not externalizable, then a back-reference to it) and on the AMF0 strict array
`0A 00000001 05`: the inline byte array and the inline object, each the entry 0 of the
object table, and their back-references carry the id 3; the strict array, the entry 0 of
the legacy table, carries the id 2. -/
theorem C20_reference_ids_are_consistent_witness :
    BeginsWith [] (objectId 0) [Event.writeBytes 3 [97] 1]
    ∧ BeginsWith [Event.writeBytes 3 [97] 1] (objectId 0)
        [Event.writeBytes 3 [97] 1, Event.writeBytes 3 [97] 1]
    ∧ BeginsWith [] (objectId 0) [Event.beginObject 3 none, Event.endObject]
    ∧ BeginsWith [] (objectId 0) [Event.beginObject 3 none, Event.endObject]
    ∧ BeginsWith [] (legacyId 0) [Event.beginArray 2 1, Event.writeNull, Event.endArray] :=
  ⟨((((C20_reference_ids_are_consistent plainEnv 1 plainSink
        (AMFReader.start [0x0C, 3, 97, 0x0C, 0] 2) []).1
        BYTES (by decide) (fun h => by simp at h)).2
        (true, ⟨[0x0C, 3, 97, 0x0C, 0], 3, 2, true, [], [], [1], [], []⟩,
          [Event.writeBytes 3 [97] 1]) (by decide)).1 (by decide) (by decide)).2
      (fun h => by simp at h),
   ((((C20_reference_ids_are_consistent plainEnv 1 plainSink
        ⟨[0x0C, 3, 97, 0x0C, 0], 3, 2, true, [], [], [1], [], []⟩
        [Event.writeBytes 3 [97] 1]).1
        BYTES (by decide) (fun h => by simp at h)).2
        (true, ⟨[0x0C, 3, 97, 0x0C, 0], 5, 2, true, [], [], [1], [], []⟩,
          [Event.writeBytes 3 [97] 1, Event.writeBytes 3 [97] 1]) (by decide)).2.2
        (by decide) (by decide) (by decide)) (fun h => by simp at h),
   ((((C20_reference_ids_are_consistent plainEnv 1 plainSink
        (AMFReader.start [0x0A, 0x0B, 1, 1, 0x0A, 0] 2) []).1
        OBJECT (by decide) (fun _ => by decide)).2
        (true, ⟨[0x0A, 0x0B, 1, 1, 0x0A, 0], 4, 2, true, [], [2], [2], [], []⟩,
          [Event.beginObject 3 none, Event.endObject]) (by decide)).1 (by decide) (by decide)).2
      (fun _ => by decide),
   ((((C20_reference_ids_are_consistent plainEnv 1 plainSink
        ⟨[0x0A, 0x0B, 1, 1, 0x0A, 0], 4, 2, true, [], [2], [2], [], []⟩ []).1
        OBJECT (by decide) (fun _ => by decide)).2
        (true, ⟨[0x0A, 0x0B, 1, 1, 0x0A, 0], 6, 2, true, [], [2], [2], [], []⟩,
          [Event.beginObject 3 none, Event.endObject]) (by decide)).2.2
        (by decide) (by decide) (by decide)) (fun _ => by decide),
   (((C20_reference_ids_are_consistent plainEnv 1 plainSink
        (AMFReader.start [0x0A, 0, 0, 0, 1, 5] 0) []).2.2.1 (by decide)
        ARRAY (by decide)
        (true, ⟨[0x0A, 0, 0, 0, 1, 5], 6, 0, true, [], [], [], [1], []⟩,
          [Event.beginArray 2 1, Event.writeNull, Event.endArray]) (by decide)).1
        (by decide)).2⟩

section
variable {data : List Nat} {p a : Nat} {g : Bool} {S C R A : List Nat} {L : List Log}

end

section
variable {data : List Nat} {a : Nat} {g : Bool} {C R A : List Nat} {L : List Log}

end

end Mona
